import Mathlib

/-!
# smcroute: the kernel multicast routing API of `mroute-api.c`

A shallow embedding of `src/mroute-api.c` and theorems about it: the IPv4 route
manager (`__mroute4_match`, `__mroute4_add`, `__mroute4_del`, `mroute4_dyn_add`,
`mroute4_dyn_flush`, `mroute4_add`, `mroute4_del`), the VIF and MIF tables
(`mroute4_add_vif`, `mroute4_del_vif`, `mroute6_add_mif`, `mroute6_del_mif`,
`mroute_add_vif`, `mroute_del_vif`) and `mroute6_add`.

Modelling conventions.

* `struct mroute4`, `struct mroute6` and `struct iface` are declared in
  `mclab.h` and `ifvc.h`, which are not part of the sources at hand; their
  fields are taken from the way `mroute-api.c` uses them and from the data model
  of the specification.
* The two intrusive `LIST_HEAD` lists are Lean lists, head first.
  `LIST_INSERT_HEAD` is `::`; a cursor into a list (`entry`, `set`) is a split
  of the list into the nodes before the cursor and the nodes from the cursor on.
* A `struct iface *` is a number, the address of the interface record; the slot
  vectors `vif_list` and `mif_list` map a slot to such an address or to nothing.
* Every `setsockopt` on a routing socket is appended to a log of kernel
  calls; what the kernel answers is given by a `Kernel`, a function of the
  calls made so far and of the call at hand (`0` is success, anything else is
  the `errno` of the failure).
* `malloc` is a per-call argument: `0` when it returns a node, otherwise the
  `errno` it leaves behind when it returns `NULL`.
* Two things the C text leaves to the platform are fields of `Host`: the byte
  order used by `htonl`, and what `0xFFFFFFFFu << n` yields for a shift count
  outside `0 .. 31`, which C does not define. The preprocessor switches the
  file tests are the fields of `Config`.
-/

namespace Smcroute

/-! ## Data model -/

/-- Modelled from the spec: the `struct mroute4` of `mclab.h` (a header that is
not among the sources), without its list linkage. `sender` and `group` are the
`s_addr` words (a 32-bit word whose bytes in memory are in network order), `len`
is the prefix length in bits, `inbound` the slot of the incoming VIF and `ttl`
the per-VIF TTL vector. -/
structure mroute4 where
  sender : Nat
  group : Nat
  len : Nat
  inbound : Nat
  ttl : List Nat
deriving DecidableEq

/-- What the C text leaves to the platform. -/
structure Host where
  /-- Byte order of the machine: `htonl` swaps bytes exactly when it is little endian. -/
  little_endian : Bool
  /-- The value the machine produces for `0xFFFFFFFFu << (32 - len)` when the
  shift count `32 - len` is not in `0 .. 31` (undefined in C), as a function of `len`. -/
  shl_undef : Nat → Nat

/-- The constant `INADDR_ANY`. -/
def INADDR_ANY : Nat := 0

/-! ## `__mroute4_match` -/

/-- Byte swap of a 32-bit word. -/
def bswap32 (x : Nat) : Nat :=
  ((x &&& 0xFF) <<< 24) ||| ((x &&& 0xFF00) <<< 8) ||| ((x >>> 8) &&& 0xFF00) ||| ((x >>> 24) &&& 0xFF)

/-- The libc `htonl` on a `uint32_t`: a byte swap on a little-endian host, the
identity on a big-endian one. -/
def htonl (h : Host) (x : Nat) : Nat :=
  if h.little_endian then bswap32 x else x % 2 ^ 32

/-- The libc `ntohl`: the same function as `htonl`. -/
def ntohl (h : Host) (x : Nat) : Nat := htonl h x

/-- Bit `i` of a byte-swapped 32-bit word is this bit of the word. -/
def swap_pos (i : Nat) : Nat := 8 * (3 - i / 8) + i % 8

/-- Bit `i` of `htonl x` is bit `net_pos i` of `x`. -/
def net_pos (h : Host) (i : Nat) : Nat := if h.little_endian then swap_pos i else i

/-- The expression `0xFFFFFFFFu << (32 - rule->len)` in 32-bit unsigned arithmetic. -/
def shl_ones (h : Host) (len : Nat) : Nat :=
  if 1 ≤ len ∧ len ≤ 32 then (0xFFFFFFFF <<< (32 - len)) % 2 ^ 32 else h.shl_undef len % 2 ^ 32

/-- The `__mroute4_match` of the source: same inbound interface, and the two
groups equal under `mask = htonl(0xFFFFFFFFu << (32 - rule->len))`. -/
def __mroute4_match (h : Host) (rule cand : mroute4) : Bool :=
  if rule.inbound ≠ cand.inbound then false
  else
    let mask := htonl h (shl_ones h rule.len)
    let g1 := rule.group &&& mask
    let g2 := cand.group &&& mask
    decide (g1 = g2)

/-- The `s_addr` word of the dotted quad `a.b.c.d`. -/
def inet_addr (h : Host) (a b c d : Nat) : Nat :=
  htonl h (a * 2 ^ 24 + b * 2 ^ 16 + c * 2 ^ 8 + d)

/-- An x86-like host: little endian, shift counts taken modulo 32. -/
def x86 : Host := ⟨true, fun len => (0xFFFFFFFF <<< ((32 + 32 * len - len) % 32)) % 2 ^ 32⟩

/-- A big-endian host on which an oversized shift yields zero. -/
def be0 : Host := ⟨false, fun _ => 0⟩

/-! ## Kernel control channel and state -/

/-- A `setsockopt` on one of the two routing sockets, with the fields of the
control structure it passes. `MRT_DEL_MFC` passes a zeroed `struct mfcctl` in
which only origin and group are filled in; `MRT_DEL_VIF` and `MRT6_DEL_MIF` pass
the slot (inside a `struct vifctl` on Linux, bare elsewhere). -/
inductive KCall where
  | MRT_ADD_MFC (mfcc_origin mfcc_mcastgrp mfcc_parent : Nat) (mfcc_ttls : List Nat)
  | MRT_DEL_MFC (mfcc_origin mfcc_mcastgrp : Nat)
  | MRT_ADD_VIF (vifc_vifi vifc_flags vifc_threshold vifc_rate_limit vifc_lcl vifc_rmt_addr : Nat)
  | MRT_DEL_VIF (vifc_vifi : Nat)
  | MRT6_ADD_MIF (mif6c_mifi mif6c_flags vifc_threshold mif6c_pifi vifc_rate_limit : Nat)
  | MRT6_DEL_MIF (mifi : Nat)
  | MRT6_ADD_MFC (mf6cc_origin mf6cc_mcastgrp mf6cc_parent mf6cc_ifset : Nat)
deriving DecidableEq

/-- The kernel's answer to a call, given the calls made before it: `0` when
`setsockopt` succeeds, otherwise the `errno` it sets. -/
abbrev Kernel := List KCall → KCall → Nat

/-- The two route lists of the source and the log of kernel calls issued so far. -/
structure State where
  mroute4_conf_list : List mroute4
  mroute4_dyn_list : List mroute4
  calls : List KCall
deriving DecidableEq

/-- One `setsockopt` on `mroute4_socket`: the call is logged, the kernel answers. -/
def setsockopt (k : Kernel) (st : State) (c : KCall) : State × Nat :=
  (⟨st.mroute4_conf_list, st.mroute4_dyn_list, st.calls ++ [c]⟩, k st.calls c)

/-- The `__mroute4_add` of the source: fill a `struct mfcctl` from the route
(origin, group, parent, the whole TTL vector), issue `MRT_ADD_MFC`, and return
`errno` if it failed, `0` otherwise. The size check before the `memcpy` compares
compile-time constants which the `#if MAX_MC_VIFS != MAXVIFS` at the top of the
file forces to agree, so its `exit(255)` is never taken. -/
def __mroute4_add (k : Kernel) (st : State) (route : mroute4) : State × Int :=
  let r := setsockopt k st (KCall.MRT_ADD_MFC route.sender route.group route.inbound route.ttl)
  (r.1, (r.2 : Int))

/-- The `__mroute4_del` of the source: fill origin and group of a zeroed
`struct mfcctl`, issue `MRT_DEL_MFC`, and return `errno` if it failed, `0` otherwise. -/
def __mroute4_del (k : Kernel) (st : State) (route : mroute4) : State × Int :=
  let r := setsockopt k st (KCall.MRT_DEL_MFC route.sender route.group)
  (r.1, (r.2 : Int))

/-! ## `mroute4_dyn_add` -/

/-- The `LIST_FOREACH` of `mroute4_dyn_add`, with the cursor on the first node
of its list argument. At the first entry matching `route` the entry's TTL vector
is copied into `route`, a copy of `route` is put at the head of
`mroute4_dyn_list` if `malloc` gave a node, and the route is installed in the
kernel; when the list is exhausted the result is `-1` (`errno = ENOENT`). The
second component is the caller's `route` after the call. -/
def mroute4_dyn_add_loop (h : Host) (k : Kernel) (malloc : Nat) (st : State) (route : mroute4) :
    List mroute4 → State × mroute4 × Int
  | [] => (st, route, -1)
  | entry :: rest =>
    if __mroute4_match h entry route then
      let route1 : mroute4 := ⟨route.sender, route.group, route.len, route.inbound, entry.ttl⟩
      let st1 : State :=
        if malloc = 0 then ⟨st.mroute4_conf_list, route1 :: st.mroute4_dyn_list, st.calls⟩ else st
      let r := __mroute4_add k st1 route1
      (r.1, route1, r.2)
    else mroute4_dyn_add_loop h k malloc st route rest

/-- The `mroute4_dyn_add` of the source. -/
def mroute4_dyn_add (h : Host) (k : Kernel) (malloc : Nat) (st : State) (route : mroute4) :
    State × mroute4 × Int :=
  mroute4_dyn_add_loop h k malloc st route st.mroute4_conf_list

/-! ## `mroute4_add` -/

/-- The `mroute4_add` of the source: a route whose sender is `INADDR_ANY` is
copied to the head of `mroute4_conf_list` (or `errno` is returned when `malloc`
fails); any other route is installed in the kernel. -/
def mroute4_add (k : Kernel) (malloc : Nat) (st : State) (route : mroute4) : State × Int :=
  if route.sender = INADDR_ANY then
    if malloc ≠ 0 then (st, (malloc : Int))
    else (⟨route :: st.mroute4_conf_list, st.mroute4_dyn_list, st.calls⟩, 0)
  else __mroute4_add k st route

/-! ## `mroute4_del` -/

/-- The inner `while (set)` loop of `mroute4_del`. The dynamic list is
`before ++ rest` and the cursor (`set` in the source) is on the first node of
`rest`. A node matched by `entry` is removed from the kernel and from the list
and the cursor goes back to the head of the list; otherwise the cursor moves on. -/
def mroute4_del_dyn (h : Host) (k : Kernel) (entry route : mroute4)
    (before rest : List mroute4) (conf : List mroute4) (calls : List KCall) : State :=
  match rest with
  | [] => ⟨conf, before, calls⟩
  | set1 :: follow =>
    if __mroute4_match h entry set1 && decide (entry.len = route.len) then
      let st1 := (__mroute4_del k ⟨conf, before ++ set1 :: follow, calls⟩ set1).1
      mroute4_del_dyn h k entry route [] (before ++ follow) conf st1.calls
    else
      mroute4_del_dyn h k entry route (before ++ [set1]) follow conf calls
termination_by (before.length + rest.length, rest.length)
decreasing_by
  all_goals simp_wf
  all_goals simp only [List.length_append, List.length_cons, List.length_nil, Prod.lex_def]
  all_goals omega

/-- The outer `while (entry)` loop of `mroute4_del`, for a wildcard `route`.
The configured list is `before ++ rest` and the cursor `entry` is on the first
node of `rest`. An entry that matches `route` and has its prefix length has its
dynamic routes withdrawn (unless the dynamic list is empty), is removed, and the
cursor goes back to the head of the list; otherwise the cursor moves on. -/
def mroute4_del_conf (h : Host) (k : Kernel) (route : mroute4)
    (before rest : List mroute4) (dyn : List mroute4) (calls : List KCall) : State :=
  match rest with
  | [] => ⟨before, dyn, calls⟩
  | entry :: follow =>
    if __mroute4_match h entry route && decide (entry.len = route.len) then
      let st1 : State :=
        if dyn = [] then ⟨before ++ entry :: follow, dyn, calls⟩
        else mroute4_del_dyn h k entry route [] dyn (before ++ entry :: follow) calls
      mroute4_del_conf h k route [] (before ++ follow) st1.mroute4_dyn_list st1.calls
    else
      mroute4_del_conf h k route (before ++ [entry]) follow dyn calls
termination_by (before.length + rest.length, rest.length)
decreasing_by
  all_goals simp_wf
  all_goals simp only [List.length_append, List.length_cons, List.length_nil, Prod.lex_def]
  all_goals omega

/-- The `mroute4_del` of the source: a route with a sender is removed from the
kernel and the kernel's answer returned; for a wildcard the configured list is
walked and `0` returned. -/
def mroute4_del (h : Host) (k : Kernel) (st : State) (route : mroute4) : State × Int :=
  if route.sender ≠ INADDR_ANY then __mroute4_del k st route
  else if st.mroute4_conf_list = [] then (st, 0)
  else (mroute4_del_conf h k route [] st.mroute4_conf_list st.mroute4_dyn_list st.calls, 0)

/-! ## `mroute4_dyn_flush` -/

/-- Why a run of the C code has no defined result. -/
inductive Fault where
  | use_after_free
deriving DecidableEq

/-- The `while (mroute4_dyn_list.lh_first)` loop of `mroute4_dyn_flush`, on the
dynamic list `dyn`; `head_freed` says whether the node `lh_first` points at has
already been handed to `free`. Each round passes `lh_first` to `__mroute4_del`
and to `LIST_REMOVE`, which makes `lh_first` point at the next node, and then
calls `free(mroute4_dyn_list.lh_first)`: that frees the next node, which is still
in the list (the unlinked node is never freed). When the next round starts with a
freed head it reads freed memory. -/
def mroute4_dyn_flush_loop (k : Kernel) (conf : List mroute4) :
    Bool → List mroute4 → List KCall → Except Fault State
  | _, [], calls => .ok ⟨conf, [], calls⟩
  | true, _ :: _, _ => .error Fault.use_after_free
  | false, first :: follow, calls =>
    let st1 := (__mroute4_del k ⟨conf, first :: follow, calls⟩ first).1
    mroute4_dyn_flush_loop k conf (!follow.isEmpty) follow st1.calls

/-- The `mroute4_dyn_flush` of the source. -/
def mroute4_dyn_flush (k : Kernel) (st : State) : Except Fault State :=
  if st.mroute4_dyn_list = [] then .ok st
  else mroute4_dyn_flush_loop k st.mroute4_conf_list false st.mroute4_dyn_list st.calls

/-! ## What `mroute4_del` of a wildcard selects -/

/-- The test `mroute4_del` applies to a configured entry: it matches `route`
and has the prefix length of `route`. -/
def del_selects (h : Host) (route entry : mroute4) : Bool :=
  __mroute4_match h entry route && decide (entry.len = route.len)

/-- Some entry of `conf` selected by `del_selects` matches the dynamic route `d`. -/
def del_withdraws (h : Host) (conf : List mroute4) (route d : mroute4) : Bool :=
  conf.any (fun entry => del_selects h route entry && __mroute4_match h entry d)

/-- The `MRT_DEL_MFC` call for a route. -/
def del_mfc (d : mroute4) : KCall := KCall.MRT_DEL_MFC d.sender d.group

/-- The dynamic list after the selected entries of `conf` have, one after the
other in list order, withdrawn the dynamic routes they match. -/
def sweep_dyn (h : Host) (route : mroute4) : List mroute4 → List mroute4 → List mroute4
  | [], dyn => dyn
  | entry :: rest, dyn =>
    if del_selects h route entry then
      sweep_dyn h route rest (dyn.filter (fun d => !__mroute4_match h entry d))
    else sweep_dyn h route rest dyn

/-- The kernel calls of that sweep, in the order they are issued. -/
def sweep_calls (h : Host) (route : mroute4) : List mroute4 → List mroute4 → List KCall
  | [], _ => []
  | entry :: rest, dyn =>
    if del_selects h route entry then
      (dyn.filter (fun d => __mroute4_match h entry d)).map del_mfc ++
        sweep_calls h route rest (dyn.filter (fun d => !__mroute4_match h entry d))
    else sweep_calls h route rest dyn

/-! ## Reachable states -/

/-- A call of one of the four operations of the route manager, with what
`malloc` does during the call where the operation allocates. -/
inductive Op where
  | add (malloc : Nat) (route : mroute4)
  | del (route : mroute4)
  | dyn_add (malloc : Nat) (route : mroute4)
  | dyn_flush
deriving DecidableEq

/-- Bookkeeping that the C code does not have: for each node of
`mroute4_dyn_list`, in list order, the node paired with the configured entry
(the template) it was materialised from. -/
abbrev Origins := List (mroute4 × mroute4)

/-- One operation on a state and its bookkeeping. `mroute4_dyn_add` records the
new node with the first matching entry; `mroute4_del` of a wildcard drops the
pairs of the nodes it withdraws; `mroute4_dyn_flush` drops all pairs. -/
def Op.run (h : Host) (k : Kernel) (st : State) (og : Origins) : Op → Except Fault (State × Origins)
  | Op.add malloc route => .ok ((mroute4_add k malloc st route).1, og)
  | Op.del route =>
    .ok ((mroute4_del h k st route).1,
      if route.sender ≠ INADDR_ANY then og
      else og.filter (fun p => !del_withdraws h st.mroute4_conf_list route p.1))
  | Op.dyn_add malloc route =>
    .ok ((mroute4_dyn_add h k malloc st route).1,
      match st.mroute4_conf_list.find? (fun entry => __mroute4_match h entry route) with
      | some entry =>
        if malloc = 0 then
          ((⟨route.sender, route.group, route.len, route.inbound, entry.ttl⟩, entry) :: og)
        else og
      | none => og)
  | Op.dyn_flush =>
    match mroute4_dyn_flush k st with
    | .ok st1 => .ok (st1, [])
    | .error e => .error e

/-- The clean state: both lists empty, no kernel call made. -/
def clean : State := ⟨[], [], []⟩

/-- The states, with their bookkeeping, reached from the clean state by the
four operations. A flush without a defined result reaches no state. -/
inductive Reach (h : Host) (k : Kernel) : State → Origins → Prop
  | clean : Reach h k clean []
  | step (st st1 : State) (og og1 : Origins) (op : Op) :
      Reach h k st og → op.run h k st og = .ok (st1, og1) → Reach h k st1 og1

/-! ## Example values -/

/-- A kernel that accepts every call. -/
def kernel_ok : Kernel := fun _ _ => 0

/-- Modelled from the spec: the number of VIF slots, `MAX_VIF = 32` (the
constant `MAXVIFS` of the kernel headers, which `mclab.h` has to repeat). -/
def MAX_VIF : Nat := 32

/-- A TTL vector that forwards nowhere. -/
def ttl_none : List Nat := List.replicate MAX_VIF 0

/-- A TTL vector that forwards to VIF 1 only. -/
def ttl_vif1 : List Nat := 0 :: 1 :: List.replicate (MAX_VIF - 2) 0

/-- A TTL vector that forwards to VIF 2 only. -/
def ttl_vif2 : List Nat := 0 :: 0 :: 1 :: List.replicate (MAX_VIF - 3) 0

/-- The wildcard `(*, 239.1.0.0/16)` on inbound VIF 0, forwarding to VIF 1. -/
def wild16 : mroute4 := ⟨INADDR_ANY, inet_addr x86 239 1 0 0, 16, 0, ttl_vif1⟩

/-- The wildcard `(*, 239.0.0.0/8)` on inbound VIF 0, forwarding to VIF 2. -/
def wild8 : mroute4 := ⟨INADDR_ANY, inet_addr x86 239 0 0 0, 8, 0, ttl_vif2⟩

/-- The candidate of an upcall for `(10.0.0.5, 239.1.2.3)` arriving on VIF 0. -/
def upcall1 : mroute4 := ⟨inet_addr x86 10 0 0 5, inet_addr x86 239 1 2 3, 0, 0, ttl_none⟩

/-- The candidate of an upcall for `(10.0.0.6, 239.1.2.3)` arriving on VIF 0. -/
def upcall2 : mroute4 := ⟨inet_addr x86 10 0 0 6, inet_addr x86 239 1 2 3, 0, 0, ttl_none⟩

/-- The route `(10.0.0.1, 239.1.1.1)` from VIF 0 to VIF 1. -/
def direct1 : mroute4 := ⟨inet_addr x86 10 0 0 1, inet_addr x86 239 1 1 1, 32, 0, ttl_vif1⟩

/-- The `errno` value `ENOMEM`. -/
def ENOMEM : Nat := 12

/-- The state after the `/16` wildcard was added and two upcalls were served. -/
def two_dynamics : State :=
  ⟨[wild16],
    [⟨upcall2.sender, upcall2.group, 0, 0, ttl_vif1⟩, ⟨upcall1.sender, upcall1.group, 0, 0, ttl_vif1⟩],
    [KCall.MRT_ADD_MFC upcall1.sender upcall1.group 0 ttl_vif1,
      KCall.MRT_ADD_MFC upcall2.sender upcall2.group 0 ttl_vif1]⟩

/-- The state after two wildcards were added, the `/16` first and the `/8`
after it, and one upcall was served. -/
def overlap_state : State :=
  ⟨[wild8, wild16], [⟨upcall1.sender, upcall1.group, 0, 0, ttl_vif2⟩],
    [KCall.MRT_ADD_MFC upcall1.sender upcall1.group 0 ttl_vif2]⟩

/-- The `errno` value `ENOENT`. -/
def ENOENT : Nat := 2

/-- A kernel that rejects every call with `ENOENT`. -/
def kernel_enoent : Kernel := fun _ _ => ENOENT

/-- The wildcard `(*, 239.1.0.0)` with prefix length `0` on inbound VIF 0. -/
def wild0 : mroute4 := ⟨INADDR_ANY, inet_addr be0 239 1 0 0, 0, 0, ttl_vif1⟩

/-- The candidate of an upcall for `(10.0.0.5, 239.2.0.1)` arriving on VIF 0, on
the host `be0`. -/
def upcall3 : mroute4 := ⟨inet_addr be0 10 0 0 5, inet_addr be0 239 2 0 1, 0, 0, ttl_none⟩
/-! ## The kernel's forwarding cache -/

/-- The key of a route in the kernel's forwarding cache. -/
def mfc_key (d : mroute4) : Nat × Nat := (d.sender, d.group)

/-- Modelled from the spec: the kernel's multicast forwarding cache as a table
keyed by `(sender, group)`. One call that the kernel answers with `answer`: an
accepted `MRT_ADD_MFC` installs (or overwrites) the entry of its key, an
accepted `MRT_DEL_MFC` removes it, anything else leaves the table as it is. -/
def mfc_step (t : Finset (Nat × Nat)) (c : KCall) (answer : Nat) : Finset (Nat × Nat) :=
  if answer ≠ 0 then t
  else
    match c with
    | KCall.MRT_ADD_MFC s g _ _ => insert (s, g) t
    | KCall.MRT_DEL_MFC s g => t.erase (s, g)
    | _ => t

/-- The table after the calls `todo`, issued after the calls `done`. -/
def mfc_run (k : Kernel) : List KCall → List KCall → Finset (Nat × Nat) → Finset (Nat × Nat)
  | _, [], t => t
  | done, c :: todo, t => mfc_run k (done ++ [c]) todo (mfc_step t c (k done c))

/-- The keys installed in the kernel after a log of calls, from an empty table. -/
def mfc_table (k : Kernel) (calls : List KCall) : Finset (Nat × Nat) :=
  mfc_run k [] calls ∅

/-- The kernel accepted every one of the calls `todo`, issued after `done`. -/
def all_accepted (k : Kernel) : List KCall → List KCall → Bool
  | _, [] => true
  | done, c :: todo => decide (k done c = 0) && all_accepted k (done ++ [c]) todo

/-- The side conditions under which the dynamic list mirrors the kernel's table:
a dynamic add has its allocation succeed and is for a key the kernel does not
hold (as for a no-cache upcall), and an add or a delete of a route with a sender
is not for the key of a node of the dynamic list. -/
def Op.tame (k : Kernel) (st : State) : Op → Bool
  | Op.add _ route =>
    decide (route.sender = INADDR_ANY ∨ mfc_key route ∉ st.mroute4_dyn_list.map mfc_key)
  | Op.del route =>
    decide (route.sender = INADDR_ANY ∨ mfc_key route ∉ st.mroute4_dyn_list.map mfc_key)
  | Op.dyn_add malloc route => decide (malloc = 0 ∧ mfc_key route ∉ mfc_table k st.calls)
  | Op.dyn_flush => true

/-- Bookkeeping of the keys installed directly, by `mroute4_add` of a route with
a sender, and not removed since by `mroute4_del` of a route with a sender. -/
def Op.direct (dk : Finset (Nat × Nat)) : Op → Finset (Nat × Nat)
  | Op.add _ route => if route.sender = INADDR_ANY then dk else insert (mfc_key route) dk
  | Op.del route => if route.sender = INADDR_ANY then dk else dk.erase (mfc_key route)
  | _ => dk

/-- The states reached from the clean state by operations that meet the side
conditions of `Op.tame`, with the bookkeeping of `Reach` and of `Op.direct`. -/
inductive ReachTame (h : Host) (k : Kernel) : State → Origins → Finset (Nat × Nat) → Prop
  | clean : ReachTame h k clean [] ∅
  | step (st st1 : State) (og og1 : Origins) (dk : Finset (Nat × Nat)) (op : Op) :
      ReachTame h k st og dk → op.tame k st = true → op.run h k st og = .ok (st1, og1) →
      ReachTame h k st1 og1 (op.direct dk)

/-- The state after the `/16` wildcard was added, one upcall was served, and the
route of that upcall was deleted by sender and group. -/
def direct_del_state : State :=
  ⟨[wild16], [⟨upcall1.sender, upcall1.group, 0, 0, ttl_vif1⟩],
    [KCall.MRT_ADD_MFC upcall1.sender upcall1.group 0 ttl_vif1,
      KCall.MRT_DEL_MFC upcall1.sender upcall1.group]⟩

/-- The dynamic list mirrors the kernel's table: the nodes have pairwise distinct
keys, and the table holds exactly their keys and, apart from them, the keys
`dk` installed directly. -/
def mirrors (k : Kernel) (st : State) (dk : Finset (Nat × Nat)) : Prop :=
  (st.mroute4_dyn_list.map mfc_key).Nodup ∧
  mfc_table k st.calls = (st.mroute4_dyn_list.map mfc_key).toFinset ∪ dk ∧
  Disjoint (st.mroute4_dyn_list.map mfc_key).toFinset dk

/-! ## Interfaces and the VIF and MIF tables -/

/-- Modelled from the spec: the `struct iface` of `ifvc.h` (a header that is not
among the sources), without the name, which is used for logging only: kernel
interface index, flag word, IPv4 address, TTL threshold, and the VIF and MIF
slots assigned (`-1` when unassigned). -/
structure iface where
  ifindex : Nat
  flags : Nat
  inaddr : Nat
  threshold : Nat
  vif : Int
  mif : Int
deriving DecidableEq

/-- The interface flag `IFF_LOOPBACK` of the system headers. -/
def IFF_LOOPBACK : Nat := 0x8

/-- The interface flag `IFF_MULTICAST` of the system headers. -/
def IFF_MULTICAST : Nat := 0x1000

/-- The VIF flag `VIFF_USE_IFINDEX` of the kernel headers. -/
def VIFF_USE_IFINDEX : Nat := 0x8

/-- Modelled from the spec: the number of MIF slots `MAX_MIF` (the constant
`MAXMIFS` of the kernel headers, which `mclab.h` has to repeat). -/
def MAX_MIF : Nat := 32

/-- The build-time switches that `mroute-api.c` tests with the preprocessor. -/
structure Config where
  /-- The kernel headers define `VIFF_USE_IFINDEX`. -/
  use_ifindex : Bool
  /-- The switch `HAVE_MIF6CTL_VIFC_THRESHOLD`. -/
  mif6ctl_threshold : Bool
  /-- The switch `HAVE_IPV6_MULTICAST_ROUTING`. -/
  ipv6 : Bool

/-- The interface records (by address: a `struct iface *` is a number), the two
slot vectors `vif_list` and `mif_list` (a cell holds the address of an interface
or is empty; only the cells below `MAX_VIF` and `MAX_MIF` exist), and the log of
kernel calls. -/
structure VifState where
  ifaces : Nat → iface
  vif_list : Nat → Option Nat
  mif_list : Nat → Option Nat
  calls : List KCall

/-- One `setsockopt` on a routing socket: the call is logged, the kernel answers. -/
def table_setsockopt (k : Kernel) (calls : List KCall) (c : KCall) : List KCall × Nat :=
  (calls ++ [c], k calls c)

/-- The search `for (i = 0; i < NELEMS(list); i++)` for the first empty cell,
with `todo` cells left to look at from cell `i` on; `-1` when there is none. -/
def find_free (list : Nat → Option Nat) : Nat → Nat → Int
  | 0, _ => -1
  | todo + 1, i => if (list i).isNone then (i : Int) else find_free list todo (i + 1)

/-- The interface record with its `vif` field set. -/
def iface.set_vif (ifc : iface) (v : Int) : iface :=
  ⟨ifc.ifindex, ifc.flags, ifc.inaddr, ifc.threshold, v, ifc.mif⟩

/-- The interface record with its `mif` field set. -/
def iface.set_mif (ifc : iface) (v : Int) : iface :=
  ⟨ifc.ifindex, ifc.flags, ifc.inaddr, ifc.threshold, ifc.vif, v⟩

/-- The interface record with its `threshold` field set. -/
def iface.set_threshold (ifc : iface) (v : Nat) : iface :=
  ⟨ifc.ifindex, ifc.flags, ifc.inaddr, v, ifc.vif, ifc.mif⟩

/-- The `struct vifctl` that `mroute4_add_vif` passes to `MRT_ADD_VIF`. -/
def vifctl (cfg : Config) (ifc : iface) (vif : Int) : KCall :=
  KCall.MRT_ADD_VIF vif.toNat (if cfg.use_ifindex then VIFF_USE_IFINDEX else 0) ifc.threshold 0
    (if cfg.use_ifindex then ifc.ifindex else ifc.inaddr) INADDR_ANY

/-- The `mroute4_add_vif` of the source, on the interface at address `p`. An
interface that is loopback or not multicast capable gets `vif = -1`; otherwise
the first free cell of `vif_list` is taken, `1` (with `errno = ENOMEM`) is
returned when there is none, and else `MRT_ADD_VIF` is issued (a failure is only
logged) and the binding recorded on both sides. -/
def mroute4_add_vif (cfg : Config) (k : Kernel) (st : VifState) (p : Nat) : VifState × Int :=
  let ifc := st.ifaces p
  if ifc.flags &&& (IFF_LOOPBACK ||| IFF_MULTICAST) ≠ IFF_MULTICAST then
    (⟨Function.update st.ifaces p (ifc.set_vif (-1)), st.vif_list, st.mif_list, st.calls⟩, 0)
  else
    let vif := find_free st.vif_list MAX_VIF 0
    if vif = -1 then (st, 1)
    else
      let r := table_setsockopt k st.calls (vifctl cfg ifc vif)
      (⟨Function.update st.ifaces p (ifc.set_vif vif),
        Function.update st.vif_list vif.toNat (some p), st.mif_list, r.1⟩, 0)

/-- The `mroute4_del_vif` of the source: nothing for an interface without a VIF;
otherwise `MRT_DEL_VIF` for its slot (as a 16-bit unsigned number), and if the
kernel accepts it the interface's `vif` is set to `-1`. The cell of `vif_list` is
not written. -/
def mroute4_del_vif (k : Kernel) (st : VifState) (p : Nat) : VifState × Int :=
  let vif := (st.ifaces p).vif
  if -1 = vif then (st, 0)
  else
    let r := table_setsockopt k st.calls (KCall.MRT_DEL_VIF (vif % 65536).toNat)
    if r.2 ≠ 0 then (⟨st.ifaces, st.vif_list, st.mif_list, r.1⟩, 0)
    else
      (⟨Function.update st.ifaces p ((st.ifaces p).set_vif (-1)), st.vif_list, st.mif_list, r.1⟩,
        0)

/-- The `struct mif6ctl` that `mroute6_add_mif` passes to `MRT6_ADD_MIF`. -/
def mif6ctl (cfg : Config) (ifc : iface) (mif : Int) : KCall :=
  KCall.MRT6_ADD_MIF mif.toNat 0 (if cfg.mif6ctl_threshold then ifc.threshold else 0)
    ifc.ifindex 0

/-- The `mroute6_add_mif` of the source. Like `mroute4_add_vif`, on `mif_list`
and the `mif` field, except for the end: when the kernel rejects `MRT6_ADD_MIF`
the interface gets `mif = -1` and no cell is written. -/
def mroute6_add_mif (cfg : Config) (k : Kernel) (st : VifState) (p : Nat) : VifState × Int :=
  let ifc := st.ifaces p
  if ifc.flags &&& (IFF_LOOPBACK ||| IFF_MULTICAST) ≠ IFF_MULTICAST then
    (⟨Function.update st.ifaces p (ifc.set_mif (-1)), st.vif_list, st.mif_list, st.calls⟩, 0)
  else
    let mif := find_free st.mif_list MAX_MIF 0
    if mif = -1 then (st, 1)
    else
      let r := table_setsockopt k st.calls (mif6ctl cfg ifc mif)
      if r.2 ≠ 0 then
        (⟨Function.update st.ifaces p (ifc.set_mif (-1)), st.vif_list, st.mif_list, r.1⟩, 0)
      else
        (⟨Function.update st.ifaces p (ifc.set_mif mif), st.vif_list,
          Function.update st.mif_list mif.toNat (some p), r.1⟩, 0)

/-- The `mroute6_del_mif` of the source: nothing for an interface without a MIF;
otherwise `MRT6_DEL_MIF` for its slot, and if the kernel accepts it the
interface's `mif` is set to `-1`. The cell of `mif_list` is not written. -/
def mroute6_del_mif (k : Kernel) (st : VifState) (p : Nat) : VifState × Int :=
  let mif := (st.ifaces p).mif
  if -1 = mif then (st, 0)
  else
    let r := table_setsockopt k st.calls (KCall.MRT6_DEL_MIF (mif % 65536).toNat)
    if r.2 ≠ 0 then (⟨st.ifaces, st.vif_list, st.mif_list, r.1⟩, 0)
    else
      (⟨Function.update st.ifaces p ((st.ifaces p).set_mif (-1)), st.vif_list, st.mif_list, r.1⟩,
        0)

/-- The `mroute_add_vif` of the source; `found` is what `iface_find_by_name`
returns for the name (the address of the interface, or nothing). -/
def mroute_add_vif (cfg : Config) (k : Kernel) (st : VifState) (found : Option Nat)
    (threshold : Nat) : VifState × Int :=
  match found with
  | none => (st, 1)
  | some p =>
    let st1 : VifState :=
      ⟨Function.update st.ifaces p ((st.ifaces p).set_threshold threshold), st.vif_list,
        st.mif_list, st.calls⟩
    let r4 := mroute4_add_vif cfg k st1 p
    if cfg.ipv6 then
      let r6 := mroute6_add_mif cfg k r4.1 p
      (r6.1, r4.2 + r6.2)
    else r4

/-- The `mroute_del_vif` of the source; `found` is what `iface_find_by_name`
returns for the name. -/
def mroute_del_vif (cfg : Config) (k : Kernel) (st : VifState) (found : Option Nat) :
    VifState × Int :=
  match found with
  | none => (st, 1)
  | some p =>
    let r4 := mroute4_del_vif k st p
    if cfg.ipv6 then
      let r6 := mroute6_del_mif k r4.1 p
      (r6.1, r4.2 + r6.2)
    else r4

/-- The interface has the flag `f` (one of the `IFF_` bits) set. -/
def iface.has_flag (ifc : iface) (f : Nat) : Bool := decide (ifc.flags &&& f ≠ 0)

/-- Registering the interfaces at the addresses of a list one after another
with `mroute4_add_vif`, collecting the return values. -/
def add_vifs (cfg : Config) (k : Kernel) (st : VifState) : List Nat → VifState × List Int
  | [] => (st, [])
  | p :: ps =>
    let r := mroute4_add_vif cfg k st p
    let rs := add_vifs cfg k r.1 ps
    (rs.1, r.2 :: rs.2)

/-! ## `mroute6_add` -/

/-- Modelled from the spec: the `struct mroute6` of `mclab.h` (not among the
sources): sender and group as 128-bit numbers, the inbound MIF, and the per-MIF
TTL vector. -/
structure mroute6 where
  sender : Nat
  group : Nat
  inbound : Nat
  ttl : List Nat
deriving DecidableEq

/-- The macro `IF_SET(i, &ifset)` of the kernel headers, on a set of interfaces
kept as the bits of a number. -/
def IF_SET (i : Nat) (ifset : Nat) : Nat := ifset ||| (1 <<< i)

/-- The loop `for (i = 0; i < NELEMS(route->ttl); i++)` of `mroute6_add`, with
`todo` rounds left from index `i` on. -/
def mroute6_ifset (ttl : List Nat) : Nat → Nat → Nat → Nat
  | 0, _, ifset => ifset
  | todo + 1, i, ifset =>
    mroute6_ifset ttl todo (i + 1) (if ttl.getD i 0 > 0 then IF_SET i ifset else ifset)

/-- The `mroute6_add` of the source, on the log of kernel calls: fill a zeroed
`struct mf6cctl` with origin, group, parent and the set of outgoing MIFs, issue
`MRT6_ADD_MFC`, and return `errno` if it failed, `0` otherwise. -/
def mroute6_add (k : Kernel) (calls : List KCall) (route : mroute6) : List KCall × Int :=
  let r := table_setsockopt k calls
    (KCall.MRT6_ADD_MFC route.sender route.group route.inbound
      (mroute6_ifset route.ttl MAX_MIF 0 0))
  (r.1, (r.2 : Int))

/-! ## Example interfaces -/

/-- A build for Linux with IPv6 multicast routing. -/
def linux_cfg : Config := ⟨true, true, true⟩

/-- Interface records: a loopback interface at address `0` (flags `IFF_UP`,
`IFF_LOOPBACK`, `IFF_RUNNING`), and at every other address an interface with
the flags `IFF_UP`, `IFF_BROADCAST`, `IFF_RUNNING` and `IFF_MULTICAST`; none has
a VIF or a MIF. -/
def example_ifaces (p : Nat) : iface :=
  ⟨p + 1, if p = 0 then 0x49 else 0x1043, inet_addr x86 192 168 p 1, 1, -1, -1⟩

/-- The interfaces of `example_ifaces` with both tables empty. -/
def vif_clean : VifState := ⟨example_ifaces, fun _ => none, fun _ => none, []⟩

/-- An IPv6 route from MIF 0 to MIFs 1 and 3. -/
def route6 : mroute6 := ⟨1, 2, 0, 0 :: 1 :: 0 :: 5 :: List.replicate (MAX_MIF - 4) 0⟩

/-- The interfaces of `example_ifaces`, each with a stale `vif` of 7 left in its
record, and both tables empty. -/
def vif_preset : VifState :=
  ⟨fun p => ⟨p + 1, if p = 0 then 0x49 else 0x1043, inet_addr x86 192 168 p 1, 1, 7, -1⟩,
    fun _ => none, fun _ => none, []⟩

/-- The interfaces of `vif_preset` with every cell of the VIF table bound to the
interface at address `9`. -/
def vif_full : VifState := ⟨vif_preset.ifaces, fun _ => some 9, fun _ => none, []⟩

/-- The state after the interface at address `1` was given a VIF and a MIF, the
kernel accepting both calls. -/
def vif_one : VifState :=
  (mroute6_add_mif linux_cfg kernel_ok (mroute4_add_vif linux_cfg kernel_ok vif_clean 1).1 1).1

/-! ## Order of addition -/

/-- Bookkeeping that the C code does not have: for each node of
`mroute4_conf_list`, in list order, the node paired with the number of the
operation that added it. -/
abbrev Ages := List (mroute4 × Nat)

/-- The bookkeeping of `Ages` across operation number `n`: `mroute4_add` of a
wildcard whose allocation succeeds records the new head; `mroute4_del` of a
wildcard drops the pairs of the entries it removes. -/
def Op.age (h : Host) (n : Nat) (ag : Ages) : Op → Ages
  | Op.add malloc route =>
    if route.sender = INADDR_ANY ∧ malloc = 0 then (route, n) :: ag else ag
  | Op.del route =>
    if route.sender = INADDR_ANY then ag.filter (fun p => !del_selects h route p.1) else ag
  | _ => ag

/-- The states reached from the clean state, with the bookkeeping of `Reach`,
the bookkeeping of `Ages`, and the number of operations made so far. -/
inductive ReachAged (h : Host) (k : Kernel) : State → Origins → Ages → Nat → Prop
  | clean : ReachAged h k clean [] [] 0
  | step (st st1 : State) (og og1 : Origins) (ag : Ages) (n : Nat) (op : Op) :
      ReachAged h k st og ag n → op.run h k st og = .ok (st1, og1) →
      ReachAged h k st1 og1 (op.age h n ag) (n + 1)

/-! # Theorems -/

/-! ## Bits of a byte-swapped word -/


theorem testBit_255 (i : Nat) : Nat.testBit 255 i = decide (i < 8) := by
  have : (255 : Nat) = 2 ^ 8 - 1 := by norm_num
  rw [this, Nat.testBit_two_pow_sub_one]

theorem testBit_65280 (i : Nat) : Nat.testBit 65280 i = decide (8 ≤ i ∧ i < 16) := by
  have : (65280 : Nat) = 255 <<< 8 := by decide
  rw [this, Nat.testBit_shiftLeft, testBit_255]
  by_cases h1 : 8 ≤ i <;> by_cases h2 : i < 16 <;> simp [h1, h2] <;> omega

theorem testBit_bswap32 (x i : Nat) :
    (bswap32 x).testBit i = (decide (i < 32) && x.testBit (swap_pos i)) := by
  unfold bswap32 swap_pos
  simp only [Nat.testBit_or, Nat.testBit_and, Nat.testBit_shiftLeft, Nat.testBit_shiftRight,
    testBit_255, testBit_65280]
  rcases Nat.lt_or_ge i 8 with h1 | h1
  · have e : 8 * (3 - i / 8) + i % 8 = 24 + i := by omega
    have a1 : ¬ 24 ≤ i := by omega
    have a2 : ¬ 8 ≤ i := by omega
    have a3 : i < 32 := by omega
    simp [e, a1, a2, a3, h1]
  rcases Nat.lt_or_ge i 16 with h2 | h2
  · have e : 8 * (3 - i / 8) + i % 8 = 8 + i := by omega
    have a2 : ¬ 24 ≤ i := by omega
    have a4 : ¬ 8 ≤ i - 8 := by omega
    have a6 : ¬ i < 8 := by omega
    have a7 : i < 32 := by omega
    simp [e, a2, a4, a6, a7, h1, h2]
  rcases Nat.lt_or_ge i 24 with h3 | h3
  · have e : 8 * (3 - i / 8) + i % 8 = i - 8 := by omega
    have a2 : ¬ 24 ≤ i := by omega
    have a4 : 8 ≤ i - 8 := by omega
    have a4b : i - 8 < 16 := by omega
    have a5 : ¬ i < 16 := by omega
    have a6 : ¬ i < 8 := by omega
    have a7 : i < 32 := by omega
    simp [e, a2, a4, a4b, a5, a6, a7, h1]
  rcases Nat.lt_or_ge i 32 with h4 | h4
  · have e : 8 * (3 - i / 8) + i % 8 = i - 24 := by omega
    have a3 : i - 24 < 8 := by omega
    have a4 : ¬ i - 8 < 16 := by omega
    have a5 : ¬ i < 16 := by omega
    have a6 : ¬ i < 8 := by omega
    simp [e, a3, a4, a5, a6, h4, h3]
  · have a3 : ¬ i - 24 < 8 := by omega
    have a4 : ¬ i - 8 < 16 := by omega
    have a5 : ¬ i < 16 := by omega
    have a6 : ¬ i < 8 := by omega
    have a7 : ¬ i < 32 := by omega
    simp [a3, a4, a5, a6, a7]

theorem swap_pos_lt (i : Nat) (h : i < 32) : swap_pos i < 32 := by unfold swap_pos; omega

theorem swap_pos_swap_pos (i : Nat) (h : i < 32) : swap_pos (swap_pos i) = i := by
  unfold swap_pos; omega

theorem and_eq_and_iff (a b m : Nat) :
    (a &&& m = b &&& m) ↔ ∀ i, m.testBit i = true → a.testBit i = b.testBit i := by
  constructor
  · intro h i hi
    have := congrArg (fun z => Nat.testBit z i) h
    simpa [Nat.testBit_and, hi] using this
  · intro h
    apply Nat.eq_of_testBit_eq
    intro i
    rw [Nat.testBit_and, Nat.testBit_and]
    cases hm : m.testBit i
    · simp
    · simp [h i hm]

theorem shiftRight_eq_iff (a b k : Nat) :
    (a / 2 ^ k = b / 2 ^ k) ↔ ∀ j, a.testBit (k + j) = b.testBit (k + j) := by
  rw [← Nat.shiftRight_eq_div_pow, ← Nat.shiftRight_eq_div_pow]
  constructor
  · intro h j
    have := congrArg (fun z => Nat.testBit z j) h
    simpa [Nat.testBit_shiftRight] using this
  · intro h
    apply Nat.eq_of_testBit_eq
    intro j
    simpa [Nat.testBit_shiftRight] using h j

theorem testBit_ones32 (i : Nat) : Nat.testBit 0xFFFFFFFF i = decide (i < 32) := by
  have : (0xFFFFFFFF : Nat) = 2 ^ 32 - 1 := by norm_num
  rw [this, Nat.testBit_two_pow_sub_one]


theorem net_pos_lt (h : Host) (i : Nat) (hi : i < 32) : net_pos h i < 32 := by
  unfold net_pos; split
  · exact swap_pos_lt i hi
  · exact hi

theorem net_pos_net_pos (h : Host) (i : Nat) (hi : i < 32) : net_pos h (net_pos h i) = i := by
  unfold net_pos; split
  · exact swap_pos_swap_pos i hi
  · rfl

theorem testBit_htonl (h : Host) (x i : Nat) :
    (htonl h x).testBit i = (decide (i < 32) && x.testBit (net_pos h i)) := by
  unfold htonl net_pos
  split
  · exact testBit_bswap32 x i
  · exact Nat.testBit_mod_two_pow x 32 i

theorem testBit_shl_ones (h : Host) (len i : Nat) (h1 : 1 ≤ len) (h2 : len ≤ 32) :
    (shl_ones h len).testBit i = decide (32 - len ≤ i ∧ i < 32) := by
  unfold shl_ones
  rw [if_pos ⟨h1, h2⟩, Nat.testBit_mod_two_pow, Nat.testBit_shiftLeft, testBit_ones32]
  by_cases a : i < 32 <;> by_cases b : 32 - len ≤ i <;> simp [a, b]
  omega

theorem masked_eq_iff (h : Host) (len g1 g2 : Nat) (h1 : 1 ≤ len) (h2 : len ≤ 32) :
    (g1 &&& htonl h (shl_ones h len) = g2 &&& htonl h (shl_ones h len)) ↔
      ntohl h g1 / 2 ^ (32 - len) = ntohl h g2 / 2 ^ (32 - len) := by
  rw [and_eq_and_iff, shiftRight_eq_iff]
  simp only [ntohl, testBit_htonl, testBit_shl_ones h len _ h1 h2]
  constructor
  · intro hm j
    by_cases hj : 32 - len + j < 32
    · have hn := net_pos_lt h _ hj
      have := hm (net_pos h (32 - len + j)) (by
        rw [net_pos_net_pos h _ hj]; simp [hn, hj])
      simp [hj, this]
    · simp [hj]
  · intro hm i hi
    simp only [Bool.and_eq_true, decide_eq_true_eq] at hi
    obtain ⟨hi32, hk, hn⟩ := hi
    have := hm (net_pos h i - (32 - len))
    have e : 32 - len + (net_pos h i - (32 - len)) = net_pos h i := by omega
    rw [e, net_pos_net_pos h i hi32] at this
    simpa [hn] using this

theorem htonl_htonl (h : Host) (x : Nat) : htonl h (htonl h x) = x % 2 ^ 32 := by
  apply Nat.eq_of_testBit_eq
  intro i
  rw [testBit_htonl, testBit_htonl, Nat.testBit_mod_two_pow]
  by_cases hi : i < 32
  · simp [hi, net_pos_lt h i hi, net_pos_net_pos h i hi]
  · simp [hi]

theorem htonl_mod (h : Host) (x : Nat) : htonl h (x % 2 ^ 32) = htonl h x := by
  apply Nat.eq_of_testBit_eq
  intro i
  rw [testBit_htonl, testBit_htonl, Nat.testBit_mod_two_pow]
  by_cases hi : i < 32
  · simp [hi, net_pos_lt h i hi]
  · simp [hi]

theorem ntohl_eq_iff (h : Host) (x y : Nat) : ntohl h x = ntohl h y ↔ x % 2 ^ 32 = y % 2 ^ 32 := by
  unfold ntohl
  constructor
  · intro e
    rw [← htonl_htonl h x, ← htonl_htonl h y, e]
  · intro e
    rw [← htonl_mod h x, ← htonl_mod h y, e]

theorem ntohl_inet_addr (h : Host) (a b c d : Nat) :
    ntohl h (inet_addr h a b c d) = (a * 2 ^ 24 + b * 2 ^ 16 + c * 2 ^ 8 + d) % 2 ^ 32 := by
  unfold ntohl inet_addr
  exact htonl_htonl h _

/-- The match predicate in words of the two groups read in network order. -/
theorem match_iff (h : Host) (rule cand : mroute4) (h1 : 1 ≤ rule.len) (h2 : rule.len ≤ 32) :
    __mroute4_match h rule cand = true ↔
      rule.inbound = cand.inbound ∧
        ntohl h rule.group / 2 ^ (32 - rule.len) = ntohl h cand.group / 2 ^ (32 - rule.len) := by
  unfold __mroute4_match
  by_cases hi : rule.inbound = cand.inbound
  · simp only [hi, ne_eq, not_true_eq_false, if_false, decide_eq_true_eq, true_and]
    exact masked_eq_iff h rule.len rule.group cand.group h1 h2
  · simp [hi]

/-- C1: for a rule with `1 ≤ len ≤ 32`, `__mroute4_match` holds exactly when the
inbound interfaces are equal and the two groups, read as 32-bit numbers in
network byte order, agree on their `len` most significant bits; sender, TTL
vector and the candidate's `len` play no part. With `len = 32` only the
identical group matches, with `len = 24` every group with the same top 24 bits,
and `225.1.2.3` is inside `225.0.0.0/8` and `225.0.0.0/15` but not `225.0.0.0/16`. -/
theorem mroute4_match_spec (h : Host) (rule cand : mroute4)
    (h1 : 1 ≤ rule.len) (h2 : rule.len ≤ 32) :
    (__mroute4_match h rule cand = true ↔
      rule.inbound = cand.inbound ∧
        ntohl h rule.group / 2 ^ (32 - rule.len) = ntohl h cand.group / 2 ^ (32 - rule.len)) ∧
    (∀ s t s1 l1 t1, __mroute4_match h ⟨s, rule.group, rule.len, rule.inbound, t⟩
        ⟨s1, cand.group, l1, cand.inbound, t1⟩ = __mroute4_match h rule cand) ∧
    (rule.len = 32 → (__mroute4_match h rule cand = true ↔
        rule.inbound = cand.inbound ∧ rule.group % 2 ^ 32 = cand.group % 2 ^ 32)) ∧
    (rule.len = 24 → (__mroute4_match h rule cand = true ↔
        rule.inbound = cand.inbound ∧ ntohl h rule.group / 2 ^ 8 = ntohl h cand.group / 2 ^ 8)) ∧
    (∀ s t s1 l1 t1 i,
      __mroute4_match h ⟨s, inet_addr h 225 0 0 0, 8, i, t⟩
        ⟨s1, inet_addr h 225 1 2 3, l1, i, t1⟩ = true ∧
      __mroute4_match h ⟨s, inet_addr h 225 0 0 0, 15, i, t⟩
        ⟨s1, inet_addr h 225 1 2 3, l1, i, t1⟩ = true ∧
      __mroute4_match h ⟨s, inet_addr h 225 0 0 0, 16, i, t⟩
        ⟨s1, inet_addr h 225 1 2 3, l1, i, t1⟩ = false) := by
  refine ⟨match_iff h rule cand h1 h2, ?_, ?_, ?_, ?_⟩
  · intro s t s1 l1 t1
    rfl
  · intro e
    rw [match_iff h rule cand h1 h2, e]
    simp only [Nat.sub_self, pow_zero, Nat.div_one]
    rw [ntohl_eq_iff]
  · intro e
    rw [match_iff h rule cand h1 h2, e]
  · intro s t s1 l1 t1 i
    have l8 : (1 : Nat) ≤ 8 ∧ 8 ≤ 32 := by decide
    have l15 : (1 : Nat) ≤ 15 ∧ 15 ≤ 32 := by decide
    have l16 : (1 : Nat) ≤ 16 ∧ 16 ≤ 32 := by decide
    refine ⟨?_, ?_, ?_⟩
    · rw [match_iff h _ _ l8.1 l8.2]
      simp only [ntohl_inet_addr]
      exact ⟨trivial, by decide⟩
    · rw [match_iff h _ _ l15.1 l15.2]
      simp only [ntohl_inet_addr]
      exact ⟨trivial, by decide⟩
    · rw [Bool.eq_false_iff, ne_eq, match_iff h _ _ l16.1 l16.2]
      simp only [ntohl_inet_addr]
      intro hc
      exact absurd hc.2 (by decide)

/-- C1, witness: the rule `225.0.0.0/15` against the candidate `225.1.2.3`, on a
little-endian and on a big-endian host. -/
theorem mroute4_match_spec_witness :
    (1 ≤ 15 ∧ 15 ≤ 32) ∧
    __mroute4_match x86 ⟨0, inet_addr x86 225 0 0 0, 15, 0, ttl_vif1⟩
        ⟨inet_addr x86 10 0 0 5, inet_addr x86 225 1 2 3, 0, 0, ttl_none⟩ = true ∧
    __mroute4_match be0 ⟨0, inet_addr be0 225 0 0 0, 15, 0, ttl_vif1⟩
        ⟨inet_addr be0 10 0 0 5, inet_addr be0 225 1 2 3, 0, 0, ttl_none⟩ = true :=
  ⟨by decide,
    (mroute4_match_spec x86 ⟨0, inet_addr x86 225 0 0 0, 15, 0, ttl_vif1⟩
      ⟨inet_addr x86 10 0 0 5, inet_addr x86 225 1 2 3, 0, 0, ttl_none⟩
      (by decide) (by decide)).1.2 ⟨rfl, by decide⟩,
    (mroute4_match_spec be0 ⟨0, inet_addr be0 225 0 0 0, 15, 0, ttl_vif1⟩
      ⟨inet_addr be0 10 0 0 5, inet_addr be0 225 1 2 3, 0, 0, ttl_none⟩
      (by decide) (by decide)).1.2 ⟨rfl, by decide⟩⟩

/-! ## The loops of `mroute4_del` -/

theorem filter_eq_self_of_all {α : Type} (p : α → Bool) (l : List α) (hl : ∀ x ∈ l, p x = true) :
    l.filter p = l := by
  rw [List.filter_eq_self]
  exact hl

theorem filter_eq_nil_of_none {α : Type} (p : α → Bool) (l : List α) (hl : ∀ x ∈ l, p x = false) :
    l.filter p = [] := by
  rw [List.filter_eq_nil_iff]
  intro x hx
  simp [hl x hx]

/-- The inner loop withdraws, in list order, the nodes the entry matches. -/
theorem mroute4_del_dyn_eq (h : Host) (k : Kernel) (entry route : mroute4)
    (before rest conf : List mroute4) (calls : List KCall)
    (hb : ∀ x ∈ before, (__mroute4_match h entry x && decide (entry.len = route.len)) = false) :
    mroute4_del_dyn h k entry route before rest conf calls =
      ⟨conf,
        before ++ rest.filter
          (fun d => !(__mroute4_match h entry d && decide (entry.len = route.len))),
        calls ++ (rest.filter
          (fun d => __mroute4_match h entry d && decide (entry.len = route.len))).map del_mfc⟩ := by
  induction before, rest, conf, calls using mroute4_del_dyn.induct h k entry route with
  | case1 before conf calls =>
    rw [mroute4_del_dyn]
    simp
  | case2 before conf calls set1 follow hm st1 ih =>
    rw [mroute4_del_dyn, if_pos hm]
    have ih1 := ih (by simp)
    simp only [st1, __mroute4_del, setsockopt] at ih1
    simp only [__mroute4_del, setsockopt]
    rw [ih1]
    have e1 : before.filter
        (fun d => !(__mroute4_match h entry d && decide (entry.len = route.len))) = before :=
      filter_eq_self_of_all _ _ (fun x hx => by simp [hb x hx])
    have e2 : before.filter
        (fun d => __mroute4_match h entry d && decide (entry.len = route.len)) = [] :=
      filter_eq_nil_of_none _ _ hb
    simp only [List.nil_append, List.filter_append, e1, e2, List.filter_cons, hm, Bool.not_true,
      Bool.false_eq_true, if_false, if_true, List.map_cons, List.map_append, List.map_nil,
      List.append_assoc, List.singleton_append, del_mfc]
  | case3 before conf calls set1 follow hm ih =>
    rw [mroute4_del_dyn, if_neg hm]
    have hm1 : (__mroute4_match h entry set1 && decide (entry.len = route.len)) = false := by
      simpa using hm
    have ih1 := ih (by
      intro x hx
      rcases List.mem_append.1 hx with hx | hx
      · exact hb x hx
      · simp at hx; rw [hx]; exact hm1)
    rw [ih1]
    simp only [List.filter_cons, hm1, Bool.not_false, Bool.false_eq_true, if_false, if_true,
      List.append_assoc, List.singleton_append]

theorem sweep_dyn_append (h : Host) (route : mroute4) (before rest dyn : List mroute4)
    (hb : ∀ x ∈ before, del_selects h route x = false) :
    sweep_dyn h route (before ++ rest) dyn = sweep_dyn h route rest dyn := by
  induction before with
  | nil => rfl
  | cons a l ih =>
    have ha : del_selects h route a = false := hb a (by simp)
    simp only [List.cons_append, sweep_dyn, ha]
    exact ih (fun x hx => hb x (by simp [hx]))

theorem sweep_calls_append (h : Host) (route : mroute4) (before rest dyn : List mroute4)
    (hb : ∀ x ∈ before, del_selects h route x = false) :
    sweep_calls h route (before ++ rest) dyn = sweep_calls h route rest dyn := by
  induction before with
  | nil => rfl
  | cons a l ih =>
    have ha : del_selects h route a = false := hb a (by simp)
    simp only [List.cons_append, sweep_calls, ha]
    exact ih (fun x hx => hb x (by simp [hx]))

/-- The outer loop removes the selected entries and sweeps the dynamic list. -/
theorem mroute4_del_conf_eq (h : Host) (k : Kernel) (route : mroute4)
    (before rest dyn : List mroute4) (calls : List KCall)
    (hb : ∀ x ∈ before, del_selects h route x = false) :
    mroute4_del_conf h k route before rest dyn calls =
      ⟨before ++ rest.filter (fun e => !del_selects h route e),
        sweep_dyn h route rest dyn,
        calls ++ sweep_calls h route rest dyn⟩ := by
  induction before, rest, dyn, calls using mroute4_del_conf.induct h k route with
  | case1 before dyn calls =>
    rw [mroute4_del_conf]
    simp [sweep_dyn, sweep_calls]
  | case2 before dyn calls entry follow hm st1 ih =>
    rw [mroute4_del_conf, if_pos hm]
    have hsel : del_selects h route entry = true := hm
    have hlen : entry.len = route.len := by
      simp only [Bool.and_eq_true, decide_eq_true_eq] at hm
      exact hm.2
    have hst : st1 = ⟨before ++ entry :: follow,
        dyn.filter (fun d => !__mroute4_match h entry d),
        calls ++ (dyn.filter (fun d => __mroute4_match h entry d)).map del_mfc⟩ := by
      simp only [st1]
      split
      · next hd => subst hd; simp
      · rw [mroute4_del_dyn_eq h k entry route [] dyn _ calls (by simp)]
        simp [hlen]
    have ih1 := ih (by simp)
    simp only [] at ih1
    rw [hst] at ih1
    simp only [] at ih1
    have hst2 : (if dyn = [] then
          (⟨before ++ entry :: follow, dyn, calls⟩ : State)
        else mroute4_del_dyn h k entry route [] dyn (before ++ entry :: follow) calls) = st1 := rfl
    rw [hst2, hst]
    simp only []
    rw [ih1, sweep_dyn_append h route before follow _ hb,
      sweep_calls_append h route before follow _ hb]
    have e1 : before.filter (fun e => !del_selects h route e) = before :=
      filter_eq_self_of_all _ _ (fun x hx => by simp [hb x hx])
    simp [List.filter_append, e1, sweep_dyn, sweep_calls, hsel, List.filter_cons]
  | case3 before dyn calls entry follow hm ih =>
    rw [mroute4_del_conf, if_neg hm]
    have hm1 : del_selects h route entry = false := by
      unfold del_selects; simpa using hm
    have ih1 := ih (by
      intro x hx
      rcases List.mem_append.1 hx with hx | hx
      · exact hb x hx
      · simp at hx; rw [hx]; exact hm1)
    rw [ih1]
    simp [List.filter_cons, hm1, sweep_dyn, sweep_calls]

theorem del_withdraws_cons (h : Host) (route entry d : mroute4) (conf : List mroute4) :
    del_withdraws h (entry :: conf) route d =
      ((del_selects h route entry && __mroute4_match h entry d) || del_withdraws h conf route d) := by
  simp [del_withdraws]

theorem sweep_dyn_eq_filter (h : Host) (route : mroute4) (conf dyn : List mroute4) :
    sweep_dyn h route conf dyn = dyn.filter (fun d => !del_withdraws h conf route d) := by
  induction conf generalizing dyn with
  | nil => simp [sweep_dyn, del_withdraws]
  | cons entry rest ih =>
    cases hs : del_selects h route entry
    · simp only [sweep_dyn, hs, ih, del_withdraws_cons, Bool.false_and, Bool.false_or,
        Bool.false_eq_true, if_false]
    · simp only [sweep_dyn, hs, ih, del_withdraws_cons, Bool.true_and, if_true,
        List.filter_filter, Bool.not_or]
      congr 1
      funext d
      exact Bool.and_comm _ _

theorem filter_or_perm {α : Type} (p q : α → Bool) (l : List α) :
    (l.filter (fun x => p x || q x)).Perm
      (l.filter p ++ (l.filter (fun x => !p x)).filter q) := by
  induction l with
  | nil => simp
  | cons a l ih =>
    cases hp : p a
    · cases hq : q a
      · simpa [List.filter_cons, hp, hq] using ih
      · simp only [List.filter_cons, hp, hq, Bool.or_true, if_true, Bool.not_false,
          Bool.false_eq_true, if_false]
        exact (List.Perm.cons a ih).trans List.perm_middle.symm
    · simp only [List.filter_cons, hp, Bool.true_or, if_true, Bool.not_true, Bool.false_eq_true,
        if_false, List.cons_append]
      exact List.Perm.cons a ih

theorem sweep_calls_perm (h : Host) (route : mroute4) (conf dyn : List mroute4) :
    (sweep_calls h route conf dyn).Perm
      ((dyn.filter (fun d => del_withdraws h conf route d)).map del_mfc) := by
  induction conf generalizing dyn with
  | nil => simp [sweep_calls, del_withdraws]
  | cons entry rest ih =>
    cases hs : del_selects h route entry
    · simp only [sweep_calls, hs, del_withdraws_cons, Bool.false_and, Bool.false_or,
        Bool.false_eq_true, if_false]
      exact ih dyn
    · simp only [sweep_calls, hs, del_withdraws_cons, Bool.true_and, if_true]
      have hp := filter_or_perm (fun d => __mroute4_match h entry d)
        (fun d => del_withdraws h rest route d) dyn
      have h1 := (ih (dyn.filter (fun d => !__mroute4_match h entry d))).append_left
        ((dyn.filter (fun d => __mroute4_match h entry d)).map del_mfc)
      refine h1.trans ?_
      rw [← List.map_append]
      exact (hp.map del_mfc).symm

/-- What `mroute4_del` does with a wildcard, as one equation. -/
theorem mroute4_del_wildcard_eq (h : Host) (k : Kernel) (st : State) (route : mroute4)
    (hw : route.sender = INADDR_ANY) :
    mroute4_del h k st route =
      (⟨st.mroute4_conf_list.filter (fun e => !del_selects h route e),
        sweep_dyn h route st.mroute4_conf_list st.mroute4_dyn_list,
        st.calls ++ sweep_calls h route st.mroute4_conf_list st.mroute4_dyn_list⟩, 0) := by
  unfold mroute4_del
  rw [if_neg (by simp [hw])]
  split
  · next hc =>
    obtain ⟨c, d, l⟩ := st
    simp only at hc
    subst hc
    simp [sweep_dyn, sweep_calls]
  · rw [mroute4_del_conf_eq h k route [] _ _ _ (by simp)]
    simp

/-- C4: for a wildcard `W`, `mroute4_del` (a total function: it terminates)
ends with the configured list equal to the old one without exactly the entries
`E` with `match(E, W)` and `E.len = W.len`, the rest in order; with the dynamic
list equal to the old one without exactly the nodes matched by some removed
entry; having issued one `MRT_DEL_MFC` for each removed node and no other kernel
call; and returns `0`. In particular one wildcard with any number of dynamic
routes it matches (three, say) gives that many `MRT_DEL_MFC` calls and leaves
both lists empty. -/
theorem mroute4_del_wildcard (h : Host) (k : Kernel) (st : State) (W : mroute4)
    (hw : W.sender = INADDR_ANY) :
    (mroute4_del h k st W).1.mroute4_conf_list =
        st.mroute4_conf_list.filter
          (fun E => !(__mroute4_match h E W && decide (E.len = W.len))) ∧
    (mroute4_del h k st W).1.mroute4_dyn_list =
        st.mroute4_dyn_list.filter (fun D => !st.mroute4_conf_list.any
          (fun E => (__mroute4_match h E W && decide (E.len = W.len)) && __mroute4_match h E D)) ∧
    (∃ issued, (mroute4_del h k st W).1.calls = st.calls ++ issued ∧
        issued.Perm ((st.mroute4_dyn_list.filter (fun D => st.mroute4_conf_list.any
          (fun E => (__mroute4_match h E W && decide (E.len = W.len)) && __mroute4_match h E D))).map
            (fun D => KCall.MRT_DEL_MFC D.sender D.group))) ∧
    (mroute4_del h k st W).2 = 0 ∧
    (∀ D1 D2 D3 calls, __mroute4_match h W D1 = true → __mroute4_match h W D2 = true →
        __mroute4_match h W D3 = true →
        mroute4_del h k ⟨[W], [D1, D2, D3], calls⟩ W =
          (⟨[], [], calls ++ [KCall.MRT_DEL_MFC D1.sender D1.group,
              KCall.MRT_DEL_MFC D2.sender D2.group, KCall.MRT_DEL_MFC D3.sender D3.group]⟩, 0)) := by
  rw [mroute4_del_wildcard_eq h k st W hw]
  refine ⟨rfl, ?_, ⟨_, rfl, ?_⟩, rfl, ?_⟩
  · exact sweep_dyn_eq_filter h W _ _
  · exact sweep_calls_perm h W _ _
  · intro D1 D2 D3 calls m1 m2 m3
    rw [mroute4_del_wildcard_eq h k _ W hw]
    have hs : del_selects h W W = true := by
      unfold del_selects __mroute4_match
      simp
    simp [sweep_dyn, sweep_calls, hs, m1, m2, m3, del_mfc]

/-! ## `mroute4_dyn_add`, `mroute4_add`, the direct `mroute4_del` -/

/-- The loop of `mroute4_dyn_add` stops at the first matching entry. -/
theorem mroute4_dyn_add_loop_hit (h : Host) (k : Kernel) (malloc : Nat) (st : State)
    (route E : mroute4) (before follow : List mroute4)
    (hb : ∀ x ∈ before, __mroute4_match h x route = false)
    (hE : __mroute4_match h E route = true) :
    mroute4_dyn_add_loop h k malloc st route (before ++ E :: follow) =
      (⟨st.mroute4_conf_list,
          if malloc = 0 then
            ⟨route.sender, route.group, route.len, route.inbound, E.ttl⟩ :: st.mroute4_dyn_list
          else st.mroute4_dyn_list,
          st.calls ++ [KCall.MRT_ADD_MFC route.sender route.group route.inbound E.ttl]⟩,
        ⟨route.sender, route.group, route.len, route.inbound, E.ttl⟩,
        (k st.calls (KCall.MRT_ADD_MFC route.sender route.group route.inbound E.ttl) : Int)) := by
  induction before with
  | nil =>
    simp only [List.nil_append, mroute4_dyn_add_loop, hE, if_true, __mroute4_add, setsockopt]
    by_cases hm : malloc = 0 <;> simp [hm]
  | cons a l ih =>
    have ha : __mroute4_match h a route = false := hb a (by simp)
    simp only [List.cons_append, mroute4_dyn_add_loop, ha, Bool.false_eq_true, if_false]
    exact ih (fun x hx => hb x (by simp [hx]))

/-- The loop of `mroute4_dyn_add` on a list without a matching entry. -/
theorem mroute4_dyn_add_loop_miss (h : Host) (k : Kernel) (malloc : Nat) (st : State)
    (route : mroute4) (l : List mroute4) (hl : ∀ x ∈ l, __mroute4_match h x route = false) :
    mroute4_dyn_add_loop h k malloc st route l = (st, route, -1) := by
  induction l with
  | nil => rfl
  | cons a l ih =>
    have ha : __mroute4_match h a route = false := hl a (by simp)
    simp only [mroute4_dyn_add_loop, ha, Bool.false_eq_true, if_false]
    exact ih (fun x hx => hl x (by simp [hx]))

/-- A list with an element satisfying `p` splits at the first such element. -/
theorem exists_first {α : Type} (p : α → Bool) (l : List α) (hl : ∃ x ∈ l, p x = true) :
    ∃ before E follow, l = before ++ E :: follow ∧ (∀ x ∈ before, p x = false) ∧ p E = true := by
  induction l with
  | nil => simp at hl
  | cons a l ih =>
    cases ha : p a
    · obtain ⟨x, hx, hpx⟩ := hl
      have hx1 : x ∈ l := by
        rcases List.mem_cons.1 hx with e | e
        · rw [e] at hpx; rw [ha] at hpx; cases hpx
        · exact e
      obtain ⟨b, E, f, e, hb, hE⟩ := ih ⟨x, hx1, hpx⟩
      refine ⟨a :: b, E, f, by rw [e]; rfl, ?_, hE⟩
      intro y hy
      rcases List.mem_cons.1 hy with e1 | e1
      · rw [e1]; exact ha
      · exact hb y e1
    · exact ⟨[], a, l, rfl, by simp, ha⟩

theorem mroute4_add_wildcard_eq (k : Kernel) (st : State) (route : mroute4)
    (hw : route.sender = INADDR_ANY) :
    mroute4_add k 0 st route =
      (⟨route :: st.mroute4_conf_list, st.mroute4_dyn_list, st.calls⟩, 0) := by
  simp [mroute4_add, hw]

theorem mroute4_add_direct_eq (k : Kernel) (malloc : Nat) (st : State) (route : mroute4)
    (hs : route.sender ≠ INADDR_ANY) :
    mroute4_add k malloc st route =
      (⟨st.mroute4_conf_list, st.mroute4_dyn_list,
          st.calls ++ [KCall.MRT_ADD_MFC route.sender route.group route.inbound route.ttl]⟩,
        (k st.calls
          (KCall.MRT_ADD_MFC route.sender route.group route.inbound route.ttl) : Int)) := by
  simp [mroute4_add, hs, __mroute4_add, setsockopt]

theorem mroute4_del_direct_eq (h : Host) (k : Kernel) (st : State) (route : mroute4)
    (hs : route.sender ≠ INADDR_ANY) :
    mroute4_del h k st route =
      (⟨st.mroute4_conf_list, st.mroute4_dyn_list,
          st.calls ++ [KCall.MRT_DEL_MFC route.sender route.group]⟩,
        (k st.calls (KCall.MRT_DEL_MFC route.sender route.group) : Int)) := by
  simp [mroute4_del, hs, __mroute4_del, setsockopt]

theorem mroute4_dyn_flush_nil (k : Kernel) (conf : List mroute4) (calls : List KCall) :
    mroute4_dyn_flush k ⟨conf, [], calls⟩ = .ok ⟨conf, [], calls⟩ := rfl

theorem mroute4_dyn_flush_one (k : Kernel) (conf : List mroute4) (calls : List KCall)
    (D : mroute4) :
    mroute4_dyn_flush k ⟨conf, [D], calls⟩ =
      .ok ⟨conf, [], calls ++ [KCall.MRT_DEL_MFC D.sender D.group]⟩ := rfl

theorem mroute4_dyn_flush_many (k : Kernel) (conf : List mroute4) (calls : List KCall)
    (D1 D2 : mroute4) (rest : List mroute4) :
    mroute4_dyn_flush k ⟨conf, D1 :: D2 :: rest, calls⟩ = .error Fault.use_after_free := by
  simp [mroute4_dyn_flush, mroute4_dyn_flush_loop]


/-- C2, as amended: when `E` is the first entry of the configured list that
matches the candidate, `mroute4_dyn_add` issues exactly one `MRT_ADD_MFC`, with
the candidate's sender, group and inbound and with the TTL vector of `E`, leaves
the configured list unchanged, hands back the candidate with the TTL vector of
`E`, and returns the kernel's answer to that call; and if `malloc` gave a node
it puts one copy of the candidate with the TTL vector of `E` in front of the
dynamic list, while if `malloc` failed it leaves the dynamic list as it was. -/
theorem mroute4_dyn_add_first_match (h : Host) (k : Kernel) (malloc : Nat) (st : State)
    (route E : mroute4) (before follow : List mroute4)
    (hc : st.mroute4_conf_list = before ++ E :: follow)
    (hb : ∀ x ∈ before, __mroute4_match h x route = false)
    (hE : __mroute4_match h E route = true) :
    (mroute4_dyn_add h k malloc st route).1.calls =
        st.calls ++ [KCall.MRT_ADD_MFC route.sender route.group route.inbound E.ttl] ∧
    (mroute4_dyn_add h k malloc st route).1.mroute4_conf_list = st.mroute4_conf_list ∧
    (mroute4_dyn_add h k malloc st route).2.1 =
        ⟨route.sender, route.group, route.len, route.inbound, E.ttl⟩ ∧
    (mroute4_dyn_add h k malloc st route).2.2 =
        (k st.calls (KCall.MRT_ADD_MFC route.sender route.group route.inbound E.ttl) : Int) ∧
    (malloc = 0 → (mroute4_dyn_add h k malloc st route).1.mroute4_dyn_list =
        ⟨route.sender, route.group, route.len, route.inbound, E.ttl⟩ :: st.mroute4_dyn_list) ∧
    (malloc ≠ 0 → (mroute4_dyn_add h k malloc st route).1.mroute4_dyn_list =
        st.mroute4_dyn_list) := by
  unfold mroute4_dyn_add
  rw [hc, mroute4_dyn_add_loop_hit h k malloc st route E before follow hb hE]
  refine ⟨rfl, hc, rfl, rfl, ?_, ?_⟩
  · intro hm; simp [hm]
  · intro hm; simp [hm]

/-- C3: `mroute4_dyn_add` returns `-1` exactly when no entry of the configured
list matches the candidate, and then it makes no kernel call and leaves both
lists and the candidate (its TTL vector included) unchanged. -/
theorem mroute4_dyn_add_not_found (h : Host) (k : Kernel) (malloc : Nat) (st : State)
    (route : mroute4) :
    ((mroute4_dyn_add h k malloc st route).2.2 = -1 ↔
        ∀ E ∈ st.mroute4_conf_list, __mroute4_match h E route = false) ∧
    ((∀ E ∈ st.mroute4_conf_list, __mroute4_match h E route = false) →
        mroute4_dyn_add h k malloc st route = (st, route, -1)) := by
  have miss : (∀ E ∈ st.mroute4_conf_list, __mroute4_match h E route = false) →
      mroute4_dyn_add h k malloc st route = (st, route, -1) :=
    fun hl => mroute4_dyn_add_loop_miss h k malloc st route _ hl
  refine ⟨⟨?_, fun hl => by rw [miss hl]⟩, miss⟩
  intro hr
  by_contra hn
  have hex : ∃ x ∈ st.mroute4_conf_list, __mroute4_match h x route = true := by
    by_contra hne
    apply hn
    intro E hE
    cases hm : __mroute4_match h E route
    · rfl
    · exact absurd ⟨E, hE, hm⟩ hne
  obtain ⟨b, E, f, e, hb, hE⟩ := exists_first (fun x => __mroute4_match h x route) _ hex
  unfold mroute4_dyn_add at hr
  rw [e, mroute4_dyn_add_loop_hit h k malloc st route E b f hb hE] at hr
  simp only at hr
  omega

/-- C7: `mroute4_add` of a wildcard, when `malloc` gives a node, returns `0`,
puts a copy of the route in front of the configured list, leaves the dynamic
list unchanged and makes no kernel call; `mroute4_add` of any other route
issues exactly one `MRT_ADD_MFC` with the route's sender, group, inbound and
whole TTL vector, returns the kernel's answer to it (`0` on success), and leaves
both lists unchanged. -/
theorem mroute4_add_spec (k : Kernel) (malloc : Nat) (st : State) (route : mroute4) :
    (route.sender = INADDR_ANY → malloc = 0 →
        mroute4_add k malloc st route =
          (⟨route :: st.mroute4_conf_list, st.mroute4_dyn_list, st.calls⟩, 0)) ∧
    (route.sender ≠ INADDR_ANY →
        mroute4_add k malloc st route =
          (⟨st.mroute4_conf_list, st.mroute4_dyn_list,
              st.calls ++ [KCall.MRT_ADD_MFC route.sender route.group route.inbound route.ttl]⟩,
            (k st.calls
              (KCall.MRT_ADD_MFC route.sender route.group route.inbound route.ttl) : Int))) := by
  constructor
  · intro hw hm
    rw [hm]
    exact mroute4_add_wildcard_eq k st route hw
  · exact mroute4_add_direct_eq k malloc st route

/-- C8: for a route whose sender is not the any-address, `mroute4_del` issues
exactly one `MRT_DEL_MFC` with the route's sender and group, returns the
kernel's answer to it unchanged (`0` on success), and leaves both lists unchanged. -/
theorem mroute4_del_direct (h : Host) (k : Kernel) (st : State) (route : mroute4)
    (hs : route.sender ≠ INADDR_ANY) :
    mroute4_del h k st route =
      (⟨st.mroute4_conf_list, st.mroute4_dyn_list,
          st.calls ++ [KCall.MRT_DEL_MFC route.sender route.group]⟩,
        (k st.calls (KCall.MRT_DEL_MFC route.sender route.group) : Int)) := by
  exact mroute4_del_direct_eq h k st route hs

/-- C2, counterexample: the first (and only) configured entry matches the
candidate, but `malloc` fails: the dynamic list does not grow, although the
route is installed in the kernel. -/
theorem mroute4_dyn_add_malloc_failure :
    Reach x86 kernel_ok ⟨[wild16], [], []⟩ [] ∧
    __mroute4_match x86 wild16 upcall1 = true ∧
    (mroute4_dyn_add x86 kernel_ok ENOMEM ⟨[wild16], [], []⟩ upcall1).1.mroute4_dyn_list = [] ∧
    (mroute4_dyn_add x86 kernel_ok ENOMEM ⟨[wild16], [], []⟩ upcall1).1.calls =
      [KCall.MRT_ADD_MFC upcall1.sender upcall1.group 0 ttl_vif1] := by
  refine ⟨Reach.step clean _ [] _ (Op.add 0 wild16) Reach.clean rfl, ?_⟩
  decide

/-- C2, witness: with the `/8` wildcard configured in front of the `/16`, the upcall for `239.1.2.3` takes the TTL vector of the `/8`. -/
theorem mroute4_dyn_add_first_match_witness :
    (mroute4_dyn_add x86 kernel_ok 0 ⟨[wild8, wild16], [], []⟩ upcall1).1.calls =
        [] ++ [KCall.MRT_ADD_MFC upcall1.sender upcall1.group upcall1.inbound wild8.ttl] ∧
    (mroute4_dyn_add x86 kernel_ok 0 ⟨[wild8, wild16], [], []⟩ upcall1).1.mroute4_dyn_list =
        [⟨upcall1.sender, upcall1.group, upcall1.len, upcall1.inbound, wild8.ttl⟩] :=
  have t := mroute4_dyn_add_first_match x86 kernel_ok 0 ⟨[wild8, wild16], [], []⟩ upcall1 wild8
    [] [wild16] rfl (by simp) (by decide)
  ⟨t.1, t.2.2.2.2.1 rfl⟩

/-- C3, witness: the upcall for `239.2.0.1` against the single wildcard `239.1.0.0/16`. -/
theorem mroute4_dyn_add_not_found_witness :
    mroute4_dyn_add x86 kernel_ok 0 ⟨[wild16], [], []⟩
        ⟨inet_addr x86 10 0 0 5, inet_addr x86 239 2 0 1, 0, 0, ttl_none⟩ =
      (⟨[wild16], [], []⟩, ⟨inet_addr x86 10 0 0 5, inet_addr x86 239 2 0 1, 0, 0, ttl_none⟩, -1) :=
  (mroute4_dyn_add_not_found x86 kernel_ok 0 ⟨[wild16], [], []⟩
    ⟨inet_addr x86 10 0 0 5, inet_addr x86 239 2 0 1, 0, 0, ttl_none⟩).2 (by decide)

/-- C7, witness: adding a wildcard and adding a route with a sender to the clean state. -/
theorem mroute4_add_spec_witness :
    mroute4_add kernel_ok 0 ⟨[], [], []⟩ wild16 = (⟨[wild16], [], []⟩, 0) ∧
    mroute4_add kernel_ok 0 ⟨[], [], []⟩ direct1 =
      (⟨[], [], [] ++ [KCall.MRT_ADD_MFC direct1.sender direct1.group direct1.inbound direct1.ttl]⟩,
        (kernel_ok []
          (KCall.MRT_ADD_MFC direct1.sender direct1.group direct1.inbound direct1.ttl) : Int)) :=
  ⟨(mroute4_add_spec kernel_ok 0 ⟨[], [], []⟩ wild16).1 rfl rfl,
    (mroute4_add_spec kernel_ok 0 ⟨[], [], []⟩ direct1).2 (by decide)⟩

/-- C8, witness: deleting a route with a sender while the kernel answers with `errno` 13. -/
theorem mroute4_del_direct_witness :
    direct1.sender ≠ INADDR_ANY ∧
    mroute4_del x86 (fun _ _ => 13) ⟨[wild16], [], []⟩ direct1 =
      (⟨[wild16], [], [] ++ [KCall.MRT_DEL_MFC direct1.sender direct1.group]⟩, ((13 : Nat) : Int)) :=
  ⟨by decide, mroute4_del_direct x86 (fun _ _ => 13) ⟨[wild16], [], []⟩ direct1 (by decide)⟩

/-- C4, witness: deleting the `/16` wildcard with one dynamic route it matches. -/
theorem mroute4_del_wildcard_witness :
    wild16.sender = INADDR_ANY ∧
    (mroute4_del x86 kernel_ok
        ⟨[wild16], [⟨upcall1.sender, upcall1.group, 0, 0, ttl_vif1⟩], []⟩ wild16).1.mroute4_dyn_list
      = [] :=
  ⟨rfl, (mroute4_del_wildcard x86 kernel_ok
      ⟨[wild16], [⟨upcall1.sender, upcall1.group, 0, 0, ttl_vif1⟩], []⟩ wild16 rfl).2.1.trans
    (by decide)⟩

/-! ## `mroute4_dyn_flush` -/

/-- C9: what `mroute4_dyn_flush` does. With an empty dynamic list it changes
nothing and makes no kernel call (so a second flush after a completed one is a
no-op); with one node it issues that node's `MRT_DEL_MFC` and empties the list,
leaving the configured list alone; with two or more nodes the first round frees
the second node while it is still the head of the list, and the second round
reads it: a use after free, so the flush has no defined result. Such a list is
reached by adding one wildcard and serving two upcalls. -/
theorem mroute4_dyn_flush_cases (k : Kernel) (conf : List mroute4) (calls : List KCall)
    (D1 D2 : mroute4) (rest : List mroute4) :
    mroute4_dyn_flush k ⟨conf, [], calls⟩ = .ok ⟨conf, [], calls⟩ ∧
    mroute4_dyn_flush k ⟨conf, [D1], calls⟩ =
      .ok ⟨conf, [], calls ++ [KCall.MRT_DEL_MFC D1.sender D1.group]⟩ ∧
    mroute4_dyn_flush k ⟨conf, D1 :: D2 :: rest, calls⟩ = .error Fault.use_after_free ∧
    Reach x86 kernel_ok two_dynamics
      [(⟨upcall2.sender, upcall2.group, 0, 0, ttl_vif1⟩, wild16),
        (⟨upcall1.sender, upcall1.group, 0, 0, ttl_vif1⟩, wild16)] ∧
    mroute4_dyn_flush kernel_ok two_dynamics = .error Fault.use_after_free := by
  refine ⟨mroute4_dyn_flush_nil k conf calls, mroute4_dyn_flush_one k conf calls D1,
    mroute4_dyn_flush_many k conf calls D1 D2 rest, ?_, mroute4_dyn_flush_many _ _ _ _ _ _⟩
  have s1 : Reach x86 kernel_ok ⟨[wild16], [], []⟩ [] :=
    Reach.step clean _ [] _ (Op.add 0 wild16) Reach.clean rfl
  have s2 := Reach.step _ _ [] _ (Op.dyn_add 0 upcall1) s1 rfl
  exact Reach.step _ _ _ _ (Op.dyn_add 0 upcall2) s2 rfl

/-! ## `mroute4_add` followed by `mroute4_del` -/

theorem del_selects_self (h : Host) (R : mroute4) : del_selects h R R = true := by
  unfold del_selects __mroute4_match
  simp

/-- C10, counterexample: the wildcard is already configured once; adding it
again and deleting it removes both copies, so the configured list is not what
it was before the add. -/
theorem mroute4_add_del_twice_configured :
    Reach x86 kernel_ok ⟨[wild16], [], []⟩ [] ∧
    (mroute4_del x86 kernel_ok (mroute4_add kernel_ok 0 ⟨[wild16], [], []⟩ wild16).1
        wild16).1.mroute4_conf_list = [] ∧
    (mroute4_del x86 kernel_ok (mroute4_add kernel_ok 0 ⟨[wild16], [], []⟩ wild16).1
        wild16).1.mroute4_conf_list ≠ (⟨[wild16], [], []⟩ : State).mroute4_conf_list := by
  have e : (mroute4_del x86 kernel_ok (mroute4_add kernel_ok 0 ⟨[wild16], [], []⟩ wild16).1
      wild16).1.mroute4_conf_list = [] := by
    rw [mroute4_del_wildcard_eq x86 kernel_ok _ wild16 rfl]
    decide
  refine ⟨Reach.step clean _ [] _ (Op.add 0 wild16) Reach.clean rfl, e, ?_⟩
  rw [e]
  decide

/-- C10, as amended: for a route with a sender, `mroute4_add` then `mroute4_del`
leaves both lists as they were and issues one `MRT_ADD_MFC` and then one
`MRT_DEL_MFC` for the same sender and group. For a wildcard `R` (when `malloc`
gives a node) the pair removes `R` again, and with it every entry `E` configured
before with `match(E, R)` and `E.len = R.len` and every dynamic route matched by
`R` or by such an `E`; so when no such entry was configured and `R` matches no
dynamic route, both lists end as they were and no kernel call is made. -/
theorem mroute4_add_del (h : Host) (k : Kernel) (malloc : Nat) (st : State) (R : mroute4) :
    (R.sender ≠ INADDR_ANY →
        (mroute4_del h k (mroute4_add k malloc st R).1 R).1 =
          ⟨st.mroute4_conf_list, st.mroute4_dyn_list,
            st.calls ++ [KCall.MRT_ADD_MFC R.sender R.group R.inbound R.ttl,
              KCall.MRT_DEL_MFC R.sender R.group]⟩) ∧
    (R.sender = INADDR_ANY → malloc = 0 →
        (mroute4_del h k (mroute4_add k malloc st R).1 R).1.mroute4_conf_list =
            st.mroute4_conf_list.filter
              (fun E => !(__mroute4_match h E R && decide (E.len = R.len))) ∧
        (mroute4_del h k (mroute4_add k malloc st R).1 R).1.mroute4_dyn_list =
            st.mroute4_dyn_list.filter (fun D => !(__mroute4_match h R D ||
              st.mroute4_conf_list.any (fun E =>
                (__mroute4_match h E R && decide (E.len = R.len)) && __mroute4_match h E D))) ∧
        ((∀ E ∈ st.mroute4_conf_list,
              (__mroute4_match h E R && decide (E.len = R.len)) = false) →
          (∀ D ∈ st.mroute4_dyn_list, __mroute4_match h R D = false) →
          (mroute4_del h k (mroute4_add k malloc st R).1 R).1 = st)) := by
  constructor
  · intro hs
    rw [mroute4_add_direct_eq k malloc st R hs, mroute4_del_direct_eq h k _ R hs]
    simp
  · intro hw hm
    rw [hm, mroute4_add_wildcard_eq k st R hw, mroute4_del_wildcard_eq h k _ R hw]
    have hself := del_selects_self h R
    have hdyn : sweep_dyn h R (R :: st.mroute4_conf_list) st.mroute4_dyn_list =
        st.mroute4_dyn_list.filter (fun D => !(__mroute4_match h R D ||
          st.mroute4_conf_list.any (fun E =>
            (__mroute4_match h E R && decide (E.len = R.len)) && __mroute4_match h E D))) := by
      rw [sweep_dyn_eq_filter]
      congr 1
      funext D
      rw [del_withdraws_cons, hself, Bool.true_and]
      rfl
    refine ⟨?_, hdyn, ?_⟩
    · simp only [List.filter_cons, hself, Bool.not_true, Bool.false_eq_true, if_false]
      rfl
    · intro hc hd
      obtain ⟨conf, dyn, calls⟩ := st
      simp only at hc hd
      have hc1 : ∀ E ∈ conf, del_selects h R E = false := hc
      have e1 : sweep_dyn h R (R :: conf) dyn = dyn := by
        rw [sweep_dyn_eq_filter]
        apply filter_eq_self_of_all
        intro D hD
        have : del_withdraws h (R :: conf) R D = false := by
          rw [del_withdraws_cons, hd D hD]
          simp only [Bool.and_false, Bool.false_or]
          unfold del_withdraws
          rw [List.any_eq_false]
          intro E hE
          simp [hc1 E hE]
        simp [this]
      have e2 : sweep_calls h R (R :: conf) dyn = [] := by
        have hp := sweep_calls_perm h R (R :: conf) dyn
        have : dyn.filter (fun d => del_withdraws h (R :: conf) R d) = [] := by
          apply filter_eq_nil_of_none
          intro D hD
          rw [del_withdraws_cons, hd D hD]
          simp only [Bool.and_false, Bool.false_or]
          unfold del_withdraws
          rw [List.any_eq_false]
          intro E hE
          simp [hc1 E hE]
        rw [this] at hp
        simpa using hp
      have e3 : (R :: conf).filter (fun e => !del_selects h R e) = conf := by
        simp only [List.filter_cons, hself, Bool.not_true, Bool.false_eq_true, if_false]
        exact filter_eq_self_of_all _ _ (fun x hx => by simp [hc1 x hx])
      simp only [e1, e2, e3, List.append_nil]

/-- C10, witness: add then delete, of a route with a sender and of the `/16` wildcard, with the `/8` wildcard configured. -/
theorem mroute4_add_del_witness :
    (mroute4_del x86 kernel_ok (mroute4_add kernel_ok 0 ⟨[wild8], [], []⟩ direct1).1 direct1).1 =
      ⟨[wild8], [],
        [] ++ [KCall.MRT_ADD_MFC direct1.sender direct1.group direct1.inbound direct1.ttl,
          KCall.MRT_DEL_MFC direct1.sender direct1.group]⟩ ∧
    (mroute4_del x86 kernel_ok (mroute4_add kernel_ok 0 ⟨[wild8], [], []⟩ wild16).1 wild16).1 =
      ⟨[wild8], [], []⟩ :=
  ⟨(mroute4_add_del x86 kernel_ok 0 ⟨[wild8], [], []⟩ direct1).1 (by decide),
    ((mroute4_add_del x86 kernel_ok 0 ⟨[wild8], [], []⟩ wild16).2 rfl rfl).2.2
      (by decide) (by decide)⟩

/-! ## Reachable states -/

/-- The loop of `mroute4_dyn_add` in terms of the first matching entry. -/
theorem mroute4_dyn_add_loop_find (h : Host) (k : Kernel) (malloc : Nat) (st : State)
    (route : mroute4) (l : List mroute4) :
    (mroute4_dyn_add_loop h k malloc st route l).1 =
      match l.find? (fun entry => __mroute4_match h entry route) with
      | some E =>
        ⟨st.mroute4_conf_list,
          if malloc = 0 then
            ⟨route.sender, route.group, route.len, route.inbound, E.ttl⟩ :: st.mroute4_dyn_list
          else st.mroute4_dyn_list,
          st.calls ++ [KCall.MRT_ADD_MFC route.sender route.group route.inbound E.ttl]⟩
      | none => st := by
  induction l with
  | nil => rfl
  | cons a l ih =>
    cases ha : __mroute4_match h a route
    · simp only [mroute4_dyn_add_loop, ha, Bool.false_eq_true, if_false, List.find?_cons]
      exact ih
    · simp only [mroute4_dyn_add_loop, ha, if_true, List.find?_cons, __mroute4_add, setsockopt]
      by_cases hm : malloc = 0 <;> simp [hm]

/-- A completed flush leaves the configured list alone and the dynamic list empty. -/
theorem mroute4_dyn_flush_ok (k : Kernel) (st st1 : State)
    (hf : mroute4_dyn_flush k st = .ok st1) :
    st1.mroute4_conf_list = st.mroute4_conf_list ∧ st1.mroute4_dyn_list = [] := by
  obtain ⟨conf, dyn, calls⟩ := st
  match dyn, hf with
  | [], hf =>
    have e := mroute4_dyn_flush_nil k conf calls
    rw [e] at hf
    cases hf
    exact ⟨rfl, rfl⟩
  | [D], hf =>
    have e := mroute4_dyn_flush_one k conf calls D
    rw [e] at hf
    cases hf
    exact ⟨rfl, rfl⟩
  | D1 :: D2 :: rest, hf =>
    have e := mroute4_dyn_flush_many k conf calls D1 D2 rest
    rw [e] at hf
    cases hf

/-- The match depends on the candidate through its inbound interface and group only. -/
theorem match_cand_congr (h : Host) (rule c1 c2 : mroute4)
    (hi : c1.inbound = c2.inbound) (hg : c1.group = c2.group) :
    __mroute4_match h rule c1 = __mroute4_match h rule c2 := by
  unfold __mroute4_match
  rw [hi, hg]

/-- Two rules of one prefix length that match the same candidate match each other. -/
theorem match_of_same_len (h : Host) (T W D : mroute4) (hl : T.len = W.len)
    (hT : __mroute4_match h T D = true) (hW : __mroute4_match h W D = true) :
    __mroute4_match h T W = true := by
  unfold __mroute4_match at hT hW ⊢
  by_cases h1 : T.inbound = D.inbound
  · by_cases h2 : W.inbound = D.inbound
    · simp only [h1, h2, ne_eq, not_true_eq_false, if_false, decide_eq_true_eq] at hT hW ⊢
      rw [hl] at hT ⊢
      rw [hT, hW]
    · simp [h2] at hW
  · simp [h1] at hT

/-- In a reachable state the bookkeeping lists the nodes of the dynamic list, in
order; and every node's template is still configured and matches the node. -/
theorem Reach.invariant (h : Host) (k : Kernel) (st : State) (og : Origins)
    (hr : Reach h k st og) :
    og.map Prod.fst = st.mroute4_dyn_list ∧
    ∀ p ∈ og, p.2 ∈ st.mroute4_conf_list ∧ __mroute4_match h p.2 p.1 = true := by
  induction hr with
  | clean => exact ⟨rfl, by simp⟩
  | step st st1 og og1 op _ hrun ih =>
    obtain ⟨ih1, ih2⟩ := ih
    cases op with
    | add malloc route =>
      simp only [Op.run, Except.ok.injEq, Prod.mk.injEq] at hrun
      obtain ⟨e1, e2⟩ := hrun
      subst e1 e2
      unfold mroute4_add
      by_cases hw : route.sender = INADDR_ANY
      · by_cases hm : malloc = 0
        · simp only [hw, hm, if_true, ne_eq, not_true_eq_false, if_false]
          exact ⟨ih1, fun p hp => ⟨List.mem_cons_of_mem _ (ih2 p hp).1, (ih2 p hp).2⟩⟩
        · simp only [hw, hm, if_true, ne_eq, not_false_eq_true]
          exact ⟨ih1, ih2⟩
      · simp only [hw, if_false, __mroute4_add, setsockopt]
        exact ⟨ih1, ih2⟩
    | del route =>
      simp only [Op.run, Except.ok.injEq, Prod.mk.injEq] at hrun
      obtain ⟨e1, e2⟩ := hrun
      subst e1 e2
      by_cases hw : route.sender = INADDR_ANY
      · rw [mroute4_del_wildcard_eq h k st route hw]
        simp only [hw, ne_eq, not_true_eq_false, if_false]
        constructor
        · rw [sweep_dyn_eq_filter, ← ih1, List.filter_map]
          rfl
        · intro p hp
          rw [List.mem_filter] at hp
          obtain ⟨hp1, hp2⟩ := hp
          obtain ⟨hc, hm⟩ := ih2 p hp1
          refine ⟨?_, hm⟩
          rw [List.mem_filter]
          refine ⟨hc, ?_⟩
          cases hs : del_selects h route p.2
          · rfl
          · exfalso
            have : del_withdraws h st.mroute4_conf_list route p.1 = true := by
              unfold del_withdraws
              rw [List.any_eq_true]
              exact ⟨p.2, hc, by simp [hs, hm]⟩
            simp [this] at hp2
      · rw [mroute4_del_direct_eq h k st route hw]
        simp only [ne_eq, hw, not_false_eq_true, if_true]
        exact ⟨ih1, ih2⟩
    | dyn_add malloc route =>
      simp only [Op.run, Except.ok.injEq, Prod.mk.injEq] at hrun
      obtain ⟨e1, e2⟩ := hrun
      subst e1 e2
      unfold mroute4_dyn_add
      rw [mroute4_dyn_add_loop_find]
      cases hf : st.mroute4_conf_list.find? (fun entry => __mroute4_match h entry route) with
      | none => exact ⟨ih1, ih2⟩
      | some E =>
        by_cases hm : malloc = 0
        · simp only [hm, if_true, List.map_cons, ih1, true_and]
          intro p hp
          rcases List.mem_cons.1 hp with e | hp1
          · subst e
            refine ⟨List.mem_of_find?_eq_some hf, ?_⟩
            have := List.find?_some hf
            rw [← this]
            exact match_cand_congr h E _ _ rfl rfl
          · exact ih2 p hp1
        · simp only [hm, if_false]
          exact ⟨ih1, ih2⟩
    | dyn_flush =>
      simp only [Op.run] at hrun
      cases hf : mroute4_dyn_flush k st with
      | error e => rw [hf] at hrun; cases hrun
      | ok st2 =>
        rw [hf] at hrun
        simp only [Except.ok.injEq, Prod.mk.injEq] at hrun
        obtain ⟨e1, e2⟩ := hrun
        subst e1 e2
        have := mroute4_dyn_flush_ok k st st2 hf
        exact ⟨by rw [this.2]; rfl, by simp⟩

/-- In a reachable state, a node whose template has the prefix length of the
wildcard `W` and which `W` matches is matched by a configured entry that
`mroute4_del` of `W` selects. -/
theorem derived_is_withdrawn (h : Host) (k : Kernel) (st : State) (og : Origins)
    (hr : Reach h k st og) (W D T : mroute4) (hp : (D, T) ∈ og) (hl : T.len = W.len)
    (hm : __mroute4_match h W D = true) :
    del_withdraws h st.mroute4_conf_list W D = true := by
  obtain ⟨hc, hT⟩ := (Reach.invariant h k st og hr).2 (D, T) hp
  unfold del_withdraws
  rw [List.any_eq_true]
  refine ⟨T, hc, ?_⟩
  have hsel : del_selects h W T = true := by
    unfold del_selects
    simp [match_of_same_len h T W D hl hT hm, hl]
  simp only at hT
  simp [hsel, hT]

/-- C5: in every state reached from the clean state by `mroute4_add`,
`mroute4_del`, `mroute4_dyn_add` and `mroute4_dyn_flush`, after `mroute4_del` of
a wildcard `W` the dynamic list has no node that was materialised from a
template of prefix length `W.len` and that `W` matches: every such node of the
state before has been removed from the dynamic list and an `MRT_DEL_MFC` with
its sender and group has been issued. -/
theorem mroute4_del_withdraws_derived (h : Host) (k : Kernel) (st : State) (og : Origins)
    (hr : Reach h k st og) (W : mroute4) (hw : W.sender = INADDR_ANY) :
    (∀ st1 og1, (Op.del W).run h k st og = .ok (st1, og1) →
        og1.map Prod.fst = st1.mroute4_dyn_list ∧
        ∀ D T, (D, T) ∈ og1 → ¬(T.len = W.len ∧ __mroute4_match h W D = true)) ∧
    (∀ D T, (D, T) ∈ og → T.len = W.len → __mroute4_match h W D = true →
        D ∉ (mroute4_del h k st W).1.mroute4_dyn_list ∧
        ∃ issued, (mroute4_del h k st W).1.calls = st.calls ++ issued ∧
          KCall.MRT_DEL_MFC D.sender D.group ∈ issued) := by
  constructor
  · intro st1 og1 hrun
    refine ⟨(Reach.invariant h k st1 og1 (Reach.step st st1 og og1 (Op.del W) hr hrun)).1, ?_⟩
    simp only [Op.run, Except.ok.injEq, Prod.mk.injEq] at hrun
    obtain ⟨_, e2⟩ := hrun
    subst e2
    intro D T hp hc
    simp only [hw, ne_eq, not_true_eq_false, if_false] at hp
    rw [List.mem_filter] at hp
    have := derived_is_withdrawn h k st og hr W D T hp.1 hc.1 hc.2
    simp [this] at hp
  · intro D T hp hl hm
    have hwd := derived_is_withdrawn h k st og hr W D T hp hl hm
    have hD : D ∈ st.mroute4_dyn_list := by
      rw [← (Reach.invariant h k st og hr).1]
      exact List.mem_map.2 ⟨(D, T), hp, rfl⟩
    rw [mroute4_del_wildcard_eq h k st W hw]
    constructor
    · simp only [sweep_dyn_eq_filter, List.mem_filter, hwd, Bool.not_true, Bool.false_eq_true,
        and_false, not_false_eq_true]
    · refine ⟨_, rfl, ?_⟩
      rw [(sweep_calls_perm h W _ _).mem_iff]
      exact List.mem_map.2 ⟨D, List.mem_filter.2 ⟨hD, hwd⟩, rfl⟩

/-- C6, counterexample: with `239.1.0.0/16` and then `239.0.0.0/8` configured
on the same inbound interface, the upcall for `239.1.2.3` is served from the
`/8` (the first match in the list). Deleting the `/16` keeps the `/8`, but
withdraws that dynamic route, which was materialised from the `/8`. -/
theorem mroute4_del_overlap_counterexample :
    Reach x86 kernel_ok overlap_state
      [(⟨upcall1.sender, upcall1.group, 0, 0, ttl_vif2⟩, wild8)] ∧
    wild8 ∈ (mroute4_del x86 kernel_ok overlap_state wild16).1.mroute4_conf_list ∧
    (mroute4_del x86 kernel_ok overlap_state wild16).1.mroute4_dyn_list = [] ∧
    (mroute4_del x86 kernel_ok overlap_state wild16).1.calls =
      [KCall.MRT_ADD_MFC upcall1.sender upcall1.group 0 ttl_vif2,
        KCall.MRT_DEL_MFC upcall1.sender upcall1.group] := by
  refine ⟨?_, ?_⟩
  · have s1 : Reach x86 kernel_ok ⟨[wild16], [], []⟩ [] :=
      Reach.step clean _ [] _ (Op.add 0 wild16) Reach.clean rfl
    have s2 : Reach x86 kernel_ok ⟨[wild8, wild16], [], []⟩ [] :=
      Reach.step _ _ [] _ (Op.add 0 wild8) s1 rfl
    exact Reach.step _ _ [] _ (Op.dyn_add 0 upcall1) s2 rfl
  · rw [mroute4_del_wildcard_eq x86 kernel_ok _ wild16 rfl]
    decide

/-- C6, as amended: in every reachable state, `mroute4_del` of a wildcard `W`
keeps every configured entry whose prefix length differs from `W.len`, and
withdraws only dynamic routes matched by an entry it removes (an entry `E` with
`match(E, W)` and `E.len = W.len`): a dynamic route that no removed entry
matches stays in the dynamic list, its template stays configured, and every
`MRT_DEL_MFC` issued is that of a node which a removed entry matches, one call
per node taken out of the list. -/
theorem mroute4_del_overlap (h : Host) (k : Kernel) (st : State) (og : Origins)
    (hr : Reach h k st og) (W : mroute4) (hw : W.sender = INADDR_ANY) :
    (∀ E ∈ st.mroute4_conf_list, E.len ≠ W.len →
        E ∈ (mroute4_del h k st W).1.mroute4_conf_list) ∧
    (∀ D T, (D, T) ∈ og →
        (∀ E ∈ st.mroute4_conf_list, __mroute4_match h E W = true → E.len = W.len →
          __mroute4_match h E D = false) →
        D ∈ (mroute4_del h k st W).1.mroute4_dyn_list ∧
        T ∈ (mroute4_del h k st W).1.mroute4_conf_list) ∧
    (∃ issued, (mroute4_del h k st W).1.calls = st.calls ++ issued ∧
        issued.length + (mroute4_del h k st W).1.mroute4_dyn_list.length =
          st.mroute4_dyn_list.length ∧
        ∀ c ∈ issued, ∃ D ∈ st.mroute4_dyn_list, c = KCall.MRT_DEL_MFC D.sender D.group ∧
          ∃ E ∈ st.mroute4_conf_list, __mroute4_match h E W = true ∧ E.len = W.len ∧
            __mroute4_match h E D = true) := by
  rw [mroute4_del_wildcard_eq h k st W hw]
  refine ⟨?_, ?_, ?_⟩
  · intro E hE hl
    simp only [List.mem_filter]
    refine ⟨hE, ?_⟩
    simp [del_selects, hl]
  · intro D T hp hno
    obtain ⟨hinv1, hinv2⟩ := Reach.invariant h k st og hr
    obtain ⟨hc, hT⟩ := hinv2 (D, T) hp
    simp only at hc hT
    have hD : D ∈ st.mroute4_dyn_list := by
      rw [← hinv1]
      exact List.mem_map.2 ⟨(D, T), hp, rfl⟩
    have hwd : del_withdraws h st.mroute4_conf_list W D = false := by
      unfold del_withdraws
      rw [List.any_eq_false]
      intro E hE
      cases hs : del_selects h W E
      · simp
      · unfold del_selects at hs
        simp only [Bool.and_eq_true, decide_eq_true_eq] at hs
        simp [hno E hE hs.1 hs.2]
    constructor
    · simp only [sweep_dyn_eq_filter, List.mem_filter]
      exact ⟨hD, by simp [hwd]⟩
    · simp only [List.mem_filter]
      refine ⟨hc, ?_⟩
      cases hs : del_selects h W T
      · rfl
      · exfalso
        unfold del_selects at hs
        simp only [Bool.and_eq_true, decide_eq_true_eq] at hs
        rw [hno T hc hs.1 hs.2] at hT
        cases hT
  · refine ⟨_, rfl, ?_, ?_⟩
    · have hp := (sweep_calls_perm h W st.mroute4_conf_list st.mroute4_dyn_list).length_eq
      have hl := (List.filter_append_perm
        (fun d => del_withdraws h st.mroute4_conf_list W d) st.mroute4_dyn_list).length_eq
      simp only [List.length_map, List.length_append] at hp hl
      simp only [sweep_dyn_eq_filter]
      omega
    · intro c hc
      rw [(sweep_calls_perm h W _ _).mem_iff, List.mem_map] at hc
      obtain ⟨D, hD, e⟩ := hc
      rw [List.mem_filter] at hD
      obtain ⟨hD1, hD2⟩ := hD
      unfold del_withdraws at hD2
      rw [List.any_eq_true] at hD2
      obtain ⟨E, hE, hEm⟩ := hD2
      unfold del_selects at hEm
      simp only [Bool.and_eq_true, decide_eq_true_eq] at hEm
      exact ⟨D, hD1, e.symm, E, hE, hEm.1.1, hEm.1.2, hEm.2⟩

/-- C6, witness: deleting the `/16` wildcard keeps the `/8` wildcard. -/
theorem mroute4_del_overlap_witness :
    wild16.sender = INADDR_ANY ∧
    wild8 ∈ (mroute4_del x86 kernel_ok overlap_state wild16).1.mroute4_conf_list :=
  ⟨rfl, (mroute4_del_overlap x86 kernel_ok overlap_state
    [(⟨upcall1.sender, upcall1.group, 0, 0, ttl_vif2⟩, wild8)]
    (Reach.step _ _ [] _ (Op.dyn_add 0 upcall1)
      (Reach.step _ _ [] _ (Op.add 0 wild8)
        (Reach.step clean _ [] _ (Op.add 0 wild16) Reach.clean rfl) rfl) rfl)
    wild16 rfl).1 wild8 (by simp [overlap_state]) (by decide)⟩

/-- C5, witness: deleting the `/8` wildcard removes the dynamic route materialised from it. -/
theorem mroute4_del_withdraws_derived_witness :
    wild8.sender = INADDR_ANY ∧
    (⟨upcall1.sender, upcall1.group, 0, 0, ttl_vif2⟩ : mroute4) ∉
      (mroute4_del x86 kernel_ok overlap_state wild8).1.mroute4_dyn_list :=
  ⟨rfl, ((mroute4_del_withdraws_derived x86 kernel_ok overlap_state
    [(⟨upcall1.sender, upcall1.group, 0, 0, ttl_vif2⟩, wild8)]
    (Reach.step _ _ [] _ (Op.dyn_add 0 upcall1)
      (Reach.step _ _ [] _ (Op.add 0 wild8)
        (Reach.step clean _ [] _ (Op.add 0 wild16) Reach.clean rfl) rfl) rfl)
    wild8 rfl).2 ⟨upcall1.sender, upcall1.group, 0, 0, ttl_vif2⟩ wild8 (by simp) rfl
      (by decide)).1⟩

/-! ## Prefix length zero -/

theorem bswap32_zero : bswap32 0 = 0 := by decide

theorem bswap32_ones : bswap32 0xFFFFFFFF = 0xFFFFFFFF := by decide

theorem and_ones32 (g : Nat) : g &&& 0xFFFFFFFF = g % 2 ^ 32 := by
  have : (0xFFFFFFFF : Nat) = 2 ^ 32 - 1 := by norm_num
  rw [this, Nat.and_pow_two_sub_one_eq_mod]

/-- C16: what `__mroute4_match` does for a rule of prefix length `0`. The shift
`0xFFFFFFFFu << 32` is not defined in C. On a host where it yields zero the mask
is zero and the rule matches every group on its inbound interface; on an x86
host, where the shift count is taken modulo 32, the mask is all ones and the
rule matches the identical group only, which is what the comment in the source
promises. -/
theorem mroute4_match_len_zero :
    (∀ le s g i t s1 g1 l1 i1 t1,
      __mroute4_match ⟨le, fun _ => 0⟩ ⟨s, g, 0, i, t⟩ ⟨s1, g1, l1, i1, t1⟩ = decide (i = i1)) ∧
    (∀ s g i t s1 g1 l1 i1 t1,
      __mroute4_match x86 ⟨s, g, 0, i, t⟩ ⟨s1, g1, l1, i1, t1⟩ =
        decide (i = i1 ∧ g % 2 ^ 32 = g1 % 2 ^ 32)) ∧
    __mroute4_match be0 wild0 upcall3 = true ∧
    wild0.group ≠ upcall3.group := by
  refine ⟨?_, ?_, by decide, by decide⟩
  · intro le s g i t s1 g1 l1 i1 t1
    cases le <;> by_cases hi : i = i1 <;>
      simp [__mroute4_match, htonl, shl_ones, bswap32_zero, hi]
  · intro s g i t s1 g1 l1 i1 t1
    have hm : htonl x86 (shl_ones x86 0) = 0xFFFFFFFF := by decide
    unfold __mroute4_match
    simp only [hm, and_ones32]
    by_cases hi : i = i1 <;> simp [hi]

/-! ## Kernel failures on the delete path -/

/-- C17: the return value of `mroute4_del` of a wildcard is `0` whatever the
kernel answers to the `MRT_DEL_MFC` calls issued on the way. With one wildcard,
one dynamic route it matches and a kernel that rejects the call with `ENOENT`,
the call is issued, the route is dropped from the dynamic list, and `0` is
returned; the same kernel makes `mroute4_add` and `mroute4_del` of a route with
a sender return `ENOENT`. -/
theorem mroute4_del_wildcard_swallows_failure :
    (∀ (h : Host) (k : Kernel) (st : State) g l i t,
      (mroute4_del h k st ⟨INADDR_ANY, g, l, i, t⟩).2 = 0) ∧
    mroute4_del x86 kernel_enoent
        ⟨[wild16], [⟨upcall1.sender, upcall1.group, 0, 0, ttl_vif1⟩], []⟩ wild16 =
      (⟨[], [], [KCall.MRT_DEL_MFC upcall1.sender upcall1.group]⟩, 0) ∧
    kernel_enoent [] (KCall.MRT_DEL_MFC upcall1.sender upcall1.group) = ENOENT ∧
    (mroute4_add kernel_enoent 0 clean direct1).2 = (ENOENT : Int) ∧
    (mroute4_del x86 kernel_enoent clean direct1).2 = (ENOENT : Int) := by
  refine ⟨?_, ?_, rfl, ?_, ?_⟩
  · intro h k st g l i t
    rw [mroute4_del_wildcard_eq h k st _ rfl]
  · rw [mroute4_del_wildcard_eq x86 kernel_enoent _ wild16 rfl]
    decide
  · rw [mroute4_add_direct_eq kernel_enoent 0 clean direct1 (by decide)]
    rfl
  · rw [mroute4_del_direct_eq x86 kernel_enoent clean direct1 (by decide)]
    rfl

/-! ## The dynamic list and the kernel's forwarding cache -/

theorem mfc_run_append (k : Kernel) (done xs ys : List KCall) (t : Finset (Nat × Nat)) :
    mfc_run k done (xs ++ ys) t = mfc_run k (done ++ xs) ys (mfc_run k done xs t) := by
  induction xs generalizing done t with
  | nil => simp [mfc_run]
  | cons c xs ih =>
    rw [List.cons_append]
    simp only [mfc_run]
    rw [ih]
    simp

theorem all_accepted_append (k : Kernel) (done xs ys : List KCall) :
    all_accepted k done (xs ++ ys) =
      (all_accepted k done xs && all_accepted k (done ++ xs) ys) := by
  induction xs generalizing done with
  | nil => simp [all_accepted]
  | cons c xs ih =>
    rw [List.cons_append]
    simp only [all_accepted]
    rw [ih]
    simp [Bool.and_assoc]

theorem mfc_table_append (k : Kernel) (calls new : List KCall) :
    mfc_table k (calls ++ new) = mfc_run k calls new (mfc_table k calls) := by
  unfold mfc_table
  rw [mfc_run_append]
  simp

/-- A run of accepted `MRT_DEL_MFC` calls removes exactly their keys. -/
theorem mfc_run_dels (k : Kernel) (done : List KCall) (ds : List mroute4)
    (t : Finset (Nat × Nat)) (ha : all_accepted k done (ds.map del_mfc) = true) :
    mfc_run k done (ds.map del_mfc) t = t \ (ds.map mfc_key).toFinset := by
  induction ds generalizing done t with
  | nil => simp [mfc_run]
  | cons d ds ih =>
    simp only [List.map_cons, all_accepted, Bool.and_eq_true, decide_eq_true_eq] at ha
    simp only [List.map_cons, mfc_run]
    rw [ih _ _ ha.2, ha.1]
    ext x
    simp [mfc_step, del_mfc, mfc_key]
    tauto

/-- The calls of a sweep are the `MRT_DEL_MFC` calls of the withdrawn nodes. -/
theorem sweep_calls_nodes (h : Host) (route : mroute4) (conf dyn : List mroute4) :
    ∃ L : List mroute4, sweep_calls h route conf dyn = L.map del_mfc ∧
      ∀ D, D ∈ L ↔ D ∈ dyn ∧ del_withdraws h conf route D = true := by
  induction conf generalizing dyn with
  | nil => exact ⟨[], rfl, by simp [del_withdraws]⟩
  | cons entry rest ih =>
    cases hs : del_selects h route entry
    · obtain ⟨L, e, hL⟩ := ih dyn
      refine ⟨L, by simp only [sweep_calls, hs, Bool.false_eq_true, if_false, e], ?_⟩
      intro D
      rw [hL D, del_withdraws_cons, hs]
      simp
    · obtain ⟨L, e, hL⟩ := ih (dyn.filter (fun d => !__mroute4_match h entry d))
      refine ⟨dyn.filter (fun d => __mroute4_match h entry d) ++ L, ?_, ?_⟩
      · simp only [sweep_calls, hs, if_true, e, List.map_append]
      · intro D
        rw [List.mem_append, hL D, del_withdraws_cons, hs, List.mem_filter, List.mem_filter]
        cases hm : __mroute4_match h entry D <;> simp

theorem mirrors_table_mem (k : Kernel) (st : State) (dk : Finset (Nat × Nat))
    (hm : mirrors k st dk) (x : Nat × Nat) :
    x ∈ mfc_table k st.calls ↔ x ∈ st.mroute4_dyn_list.map mfc_key ∨ x ∈ dk := by
  rw [hm.2.1]
  simp

/-- A tame operation whose kernel calls are all accepted keeps the dynamic list
a mirror of the kernel's table. -/
theorem mirrors_step (h : Host) (k : Kernel) (st st1 : State) (og og1 : Origins)
    (dk : Finset (Nat × Nat)) (op : Op) (ht : op.tame k st = true)
    (hrun : op.run h k st og = .ok (st1, og1))
    (ha : all_accepted k [] st1.calls = true) :
    all_accepted k [] st.calls = true ∧ (mirrors k st dk → mirrors k st1 (op.direct dk)) := by
  cases op with
  | add malloc route =>
    simp only [Op.run, Except.ok.injEq, Prod.mk.injEq] at hrun
    obtain ⟨e1, _⟩ := hrun
    subst e1
    by_cases hw : route.sender = INADDR_ANY
    · have hst : (mroute4_add k malloc st route).1.mroute4_dyn_list = st.mroute4_dyn_list ∧
          (mroute4_add k malloc st route).1.calls = st.calls := by
        unfold mroute4_add
        by_cases hm : malloc = 0 <;> simp [hw, hm]
      rw [hst.2] at ha
      refine ⟨ha, ?_⟩
      intro hm
      unfold mirrors
      rw [hst.1, hst.2]
      simpa [Op.direct, hw] using hm
    · rw [mroute4_add_direct_eq k malloc st route hw] at ha ⊢
      simp only at ha ⊢
      rw [all_accepted_append] at ha
      simp only [Bool.and_eq_true, all_accepted, decide_eq_true_eq, and_true, List.nil_append]
        at ha
      refine ⟨ha.1, ?_⟩
      intro hm
      simp only [Op.tame, hw, false_or, decide_eq_true_eq] at ht
      obtain ⟨h1, h2, h3⟩ := hm
      refine ⟨h1, ?_, ?_⟩
      · simp only [mfc_table_append, mfc_run, ha.2, mfc_step, ne_eq, not_true_eq_false,
          if_false, h2, Op.direct, hw, mfc_key]
        ext x
        simp
      · simp only [Op.direct, hw, if_false, Finset.disjoint_insert_right]
        exact ⟨by simpa using ht, h3⟩
  | del route =>
    simp only [Op.run, Except.ok.injEq, Prod.mk.injEq] at hrun
    obtain ⟨e1, _⟩ := hrun
    subst e1
    by_cases hw : route.sender = INADDR_ANY
    · rw [mroute4_del_wildcard_eq h k st route hw] at ha ⊢
      simp only at ha ⊢
      obtain ⟨L, eL, hL⟩ := sweep_calls_nodes h route st.mroute4_conf_list st.mroute4_dyn_list
      rw [eL, all_accepted_append] at ha
      simp only [Bool.and_eq_true, List.nil_append] at ha
      refine ⟨ha.1, ?_⟩
      intro hm
      obtain ⟨h1, h2, h3⟩ := hm
      have hsub : (st.mroute4_dyn_list.filter
          (fun d => !del_withdraws h st.mroute4_conf_list route d)).map mfc_key
            |>.Sublist (st.mroute4_dyn_list.map mfc_key) :=
        List.Sublist.map _ (List.filter_sublist _)
      have hinj : ∀ D ∈ st.mroute4_dyn_list, ∀ D1 ∈ st.mroute4_dyn_list,
          mfc_key D = mfc_key D1 → D = D1 :=
        fun D hD D1 hD1 e => List.inj_on_of_nodup_map h1 hD hD1 e
      refine ⟨?_, ?_, ?_⟩
      · simp only [sweep_dyn_eq_filter]
        exact h1.sublist hsub
      · simp only [sweep_dyn_eq_filter, eL, mfc_table_append, Op.direct, hw, if_true]
        rw [mfc_run_dels k _ L _ ha.2, h2]
        ext x
        simp only [Finset.mem_sdiff, Finset.mem_union, List.mem_toFinset, List.mem_map,
          List.mem_filter, Bool.not_eq_true', hL]
        constructor
        · rintro ⟨hx | hx, hno⟩
          · obtain ⟨D, hD, e⟩ := hx
            left
            refine ⟨D, ⟨hD, ?_⟩, e⟩
            cases hwd : del_withdraws h st.mroute4_conf_list route D
            · rfl
            · exact absurd ⟨D, ⟨hD, hwd⟩, e⟩ hno
          · exact Or.inr hx
        · rintro (⟨D, ⟨hD, hwd⟩, e⟩ | hx)
          · refine ⟨Or.inl ⟨D, hD, e⟩, ?_⟩
            rintro ⟨D1, ⟨hD1, hwd1⟩, e1⟩
            have := hinj D hD D1 hD1 (e.trans e1.symm)
            rw [this, hwd1] at hwd
            cases hwd
          · refine ⟨Or.inr hx, ?_⟩
            rintro ⟨D1, ⟨hD1, _⟩, e1⟩
            exact (Finset.disjoint_left.1 h3) (List.mem_toFinset.2
              (List.mem_map.2 ⟨D1, hD1, e1⟩)) hx
      · simp only [sweep_dyn_eq_filter, Op.direct, hw, if_true]
        refine Finset.disjoint_left.2 ?_
        intro x hx
        exact Finset.disjoint_left.1 h3 (List.mem_toFinset.2 (hsub.subset (List.mem_toFinset.1 hx)))
    · rw [mroute4_del_direct_eq h k st route hw] at ha ⊢
      simp only at ha ⊢
      rw [all_accepted_append] at ha
      simp only [Bool.and_eq_true, all_accepted, decide_eq_true_eq, and_true, List.nil_append]
        at ha
      refine ⟨ha.1, ?_⟩
      intro hm
      simp only [Op.tame, hw, false_or, decide_eq_true_eq] at ht
      obtain ⟨h1, h2, h3⟩ := hm
      refine ⟨h1, ?_, ?_⟩
      · simp only [mfc_table_append, mfc_run, ha.2, mfc_step, ne_eq, not_true_eq_false,
          if_false, h2, Op.direct, hw, mfc_key]
        ext x
        simp only [Finset.mem_erase, Finset.mem_union, List.mem_toFinset]
        constructor
        · rintro ⟨hne, hx | hx⟩
          · exact Or.inl hx
          · exact Or.inr ⟨hne, hx⟩
        · rintro (hx | ⟨hne, hx⟩)
          · refine ⟨?_, Or.inl hx⟩
            intro e
            rw [e] at hx
            exact ht hx
          · exact ⟨hne, Or.inr hx⟩
      · simp only [Op.direct, hw, if_false]
        exact Finset.disjoint_of_subset_right (Finset.erase_subset _ _) h3
  | dyn_add malloc route =>
    simp only [Op.run, Except.ok.injEq, Prod.mk.injEq] at hrun
    obtain ⟨e1, _⟩ := hrun
    subst e1
    simp only [Op.tame, decide_eq_true_eq] at ht
    obtain ⟨hmal, hnew⟩ := ht
    unfold mroute4_dyn_add at ha ⊢
    rw [mroute4_dyn_add_loop_find] at ha ⊢
    cases hf : st.mroute4_conf_list.find? (fun entry => __mroute4_match h entry route) with
    | none =>
      rw [hf] at ha
      exact ⟨ha, fun hm => hm⟩
    | some E =>
      rw [hf] at ha
      simp only [hmal, if_true] at ha ⊢
      rw [all_accepted_append] at ha
      simp only [Bool.and_eq_true, all_accepted, decide_eq_true_eq, and_true, List.nil_append]
        at ha
      refine ⟨ha.1, ?_⟩
      intro hm
      have hmem := mirrors_table_mem k st dk hm (mfc_key route)
      have hn1 : mfc_key route ∉ st.mroute4_dyn_list.map mfc_key := fun hx => hnew (hmem.2 (Or.inl hx))
      have hn2 : mfc_key route ∉ dk := fun hx => hnew (hmem.2 (Or.inr hx))
      obtain ⟨h1, h2, h3⟩ := hm
      refine ⟨?_, ?_, ?_⟩
      · simp only [List.map_cons]
        exact List.nodup_cons.2 ⟨hn1, h1⟩
      · simp only [mfc_table_append, mfc_run, ha.2, mfc_step, ne_eq, not_true_eq_false,
          if_false, h2, Op.direct, List.map_cons, List.toFinset_cons]
        ext x
        simp [mfc_key]
      · simp only [Op.direct, List.map_cons, List.toFinset_cons, Finset.disjoint_insert_left]
        exact ⟨hn2, h3⟩
  | dyn_flush =>
    simp only [Op.run] at hrun
    obtain ⟨conf, dyn, calls⟩ := st
    match dyn, hrun with
    | [], hrun =>
      rw [mroute4_dyn_flush_nil] at hrun
      simp only [Except.ok.injEq, Prod.mk.injEq] at hrun
      obtain ⟨e1, _⟩ := hrun
      subst e1
      exact ⟨ha, fun hm => hm⟩
    | [D], hrun =>
      rw [mroute4_dyn_flush_one] at hrun
      simp only [Except.ok.injEq, Prod.mk.injEq] at hrun
      obtain ⟨e1, _⟩ := hrun
      subst e1
      simp only at ha ⊢
      rw [all_accepted_append] at ha
      simp only [Bool.and_eq_true, all_accepted, decide_eq_true_eq, and_true, List.nil_append]
        at ha
      refine ⟨ha.1, ?_⟩
      intro hm
      obtain ⟨h1, h2, h3⟩ := hm
      simp only [List.map_cons, List.map_nil, List.toFinset_cons, List.toFinset_nil] at h2 h3
      refine ⟨by simp, ?_, by simp⟩
      simp only [mfc_table_append, mfc_run, ha.2, mfc_step, ne_eq, not_true_eq_false,
        if_false, h2, Op.direct, List.map_nil, List.toFinset_nil]
      ext x
      simp only [Finset.mem_erase, Finset.mem_union, Finset.mem_insert, Finset.not_mem_empty,
        or_false, false_or]
      constructor
      · rintro ⟨hne, hx | hx⟩
        · exact absurd hx hne
        · exact hx
      · intro hx
        refine ⟨?_, Or.inr hx⟩
        intro e
        rw [e] at hx
        exact (Finset.disjoint_left.1 h3) (by simp [mfc_key]) hx
    | D1 :: D2 :: rest, hrun =>
      rw [mroute4_dyn_flush_many] at hrun
      cases hrun

theorem ReachTame.reach (h : Host) (k : Kernel) (st : State) (og : Origins)
    (dk : Finset (Nat × Nat)) (hr : ReachTame h k st og dk) : Reach h k st og := by
  induction hr with
  | clean => exact Reach.clean
  | step st st1 og og1 dk op _ _ hrun ih => exact Reach.step st st1 og og1 op ih hrun

theorem ReachTame.is_mirror (h : Host) (k : Kernel) (st : State) (og : Origins)
    (dk : Finset (Nat × Nat)) (hr : ReachTame h k st og dk)
    (ha : all_accepted k [] st.calls = true) : mirrors k st dk := by
  induction hr with
  | clean =>
    refine ⟨by simp [Smcroute.clean], ?_, by simp [Smcroute.clean]⟩
    simp [Smcroute.clean, mfc_table, mfc_run]
  | step st st1 og og1 dk op _ ht hrun ih =>
    obtain ⟨ha0, hstep⟩ := mirrors_step h k st st1 og og1 dk op ht hrun ha
    exact hstep (ih ha0)

/-- C11, counterexample: a wildcard is added, one upcall is served, and then the
route of that upcall is deleted by sender and group; the kernel accepts every
call. The dynamic list still has the node, the kernel's table is empty. -/
theorem dyn_list_outlives_kernel_entry :
    Reach x86 kernel_ok direct_del_state
      [(⟨upcall1.sender, upcall1.group, 0, 0, ttl_vif1⟩, wild16)] ∧
    all_accepted kernel_ok [] direct_del_state.calls = true ∧
    direct_del_state.mroute4_dyn_list.length = 1 ∧
    mfc_table kernel_ok direct_del_state.calls = ∅ := by
  refine ⟨?_, rfl, rfl, ?_⟩
  · have s1 : Reach x86 kernel_ok ⟨[wild16], [], []⟩ [] :=
      Reach.step clean _ [] _ (Op.add 0 wild16) Reach.clean rfl
    have s2 := Reach.step _ _ [] _ (Op.dyn_add 0 upcall1) s1 rfl
    exact Reach.step _ _ _ _ (Op.del ⟨upcall1.sender, upcall1.group, 0, 0, ttl_none⟩) s2
      (by
        simp only [Op.run]
        rw [mroute4_del_direct_eq x86 kernel_ok _ _ (by decide)]
        rfl)
  · simp [direct_del_state, mfc_table, mfc_run, mfc_step, kernel_ok]

/-- C11, as amended: in every state reached from the clean state by
`mroute4_add`, `mroute4_del`, `mroute4_dyn_add` and `mroute4_dyn_flush`, provided
the kernel accepted every call, every `mroute4_dyn_add` had its allocation
succeed and was for a `(sender, group)` the kernel did not hold (as for a
no-cache upcall), and no add or delete of a route with a sender was for the
`(sender, group)` of a node of the dynamic list: every node of the dynamic list
has its `(sender, group)` installed in the kernel's table, no two nodes share
one, and the length of the dynamic list is the number of installed entries that
are not the direct result of an add of a route with a sender. -/
theorem dyn_list_mirrors_kernel (h : Host) (k : Kernel) (st : State) (og : Origins)
    (dk : Finset (Nat × Nat)) (hr : ReachTame h k st og dk)
    (ha : all_accepted k [] st.calls = true) :
    Reach h k st og ∧
    (∀ D ∈ st.mroute4_dyn_list, mfc_key D ∈ mfc_table k st.calls) ∧
    (st.mroute4_dyn_list.map mfc_key).Nodup ∧
    dk ⊆ mfc_table k st.calls ∧
    st.mroute4_dyn_list.length = (mfc_table k st.calls \ dk).card := by
  obtain ⟨h1, h2, h3⟩ := ReachTame.is_mirror h k st og dk hr ha
  refine ⟨ReachTame.reach h k st og dk hr, ?_, h1, ?_, ?_⟩
  · intro D hD
    rw [h2]
    simp only [Finset.mem_union, List.mem_toFinset]
    exact Or.inl (List.mem_map.2 ⟨D, hD, rfl⟩)
  · rw [h2]
    exact Finset.subset_union_right
  · rw [h2, Finset.union_sdiff_right, Finset.sdiff_eq_self_of_disjoint h3,
      List.toFinset_card_of_nodup h1, List.length_map]

/-- C11, witness: one wildcard added and one upcall served, all accepted by the
kernel: one node, one installed entry. -/
theorem dyn_list_mirrors_kernel_witness :
    all_accepted kernel_ok []
        [KCall.MRT_ADD_MFC upcall1.sender upcall1.group 0 ttl_vif1] = true ∧
    (1 : Nat) = (mfc_table kernel_ok
        [KCall.MRT_ADD_MFC upcall1.sender upcall1.group 0 ttl_vif1] \ ∅).card :=
  ⟨rfl, (dyn_list_mirrors_kernel x86 kernel_ok
    ⟨[wild16], [⟨upcall1.sender, upcall1.group, 0, 0, ttl_vif1⟩],
      [KCall.MRT_ADD_MFC upcall1.sender upcall1.group 0 ttl_vif1]⟩
    [(⟨upcall1.sender, upcall1.group, 0, 0, ttl_vif1⟩, wild16)] ∅
    (ReachTame.step _ _ [] _ ∅ (Op.dyn_add 0 upcall1)
      (ReachTame.step clean _ [] _ ∅ (Op.add 0 wild16) ReachTame.clean rfl rfl)
      (by decide) rfl)
    rfl).2.2.2.2⟩

/-! ## The VIF and MIF tables -/

theorem and_two_pow_ne_zero (a n : Nat) : a &&& 2 ^ n ≠ 0 ↔ a.testBit n = true := by
  constructor
  · intro hne
    by_contra hb
    apply hne
    apply Nat.eq_of_testBit_eq
    intro i
    rw [Nat.testBit_and, Nat.testBit_two_pow, Nat.zero_testBit]
    by_cases e : n = i
    · subst e; simp [hb]
    · simp [e]
  · intro hb e
    have := congrArg (fun z => Nat.testBit z n) e
    simp [Nat.testBit_and, hb, Nat.testBit_two_pow_self] at this

/-- The flag test of `mroute4_add_vif` and `mroute6_add_mif`: it fails for the
interfaces that are loopback or not multicast capable. -/
theorem flag_test (ifc : iface) :
    ifc.flags &&& (IFF_LOOPBACK ||| IFF_MULTICAST) ≠ IFF_MULTICAST ↔
      (ifc.has_flag IFF_LOOPBACK = true ∨ ifc.has_flag IFF_MULTICAST = false) := by
  have e3 : IFF_LOOPBACK = 2 ^ 3 := by decide
  have e12 : IFF_MULTICAST = 2 ^ 12 := by decide
  unfold iface.has_flag
  rw [e3, e12]
  simp only [decide_eq_true_eq, decide_eq_false_iff_not, and_two_pow_ne_zero, not_not,
    Bool.not_eq_true]
  constructor
  · intro hne
    by_contra hc
    simp only [not_or, Bool.not_eq_true, Bool.not_eq_false] at hc
    apply hne
    apply Nat.eq_of_testBit_eq
    intro i
    rw [Nat.testBit_and, Nat.testBit_or, Nat.testBit_two_pow, Nat.testBit_two_pow]
    by_cases h3 : 3 = i
    · subst h3; simp [hc.1]
    · by_cases h12 : 12 = i
      · subst h12; simp [hc.2]
      · simp [h3, h12]
  · intro hc e
    have b3 := congrArg (fun z => Nat.testBit z 3) e
    have b12 := congrArg (fun z => Nat.testBit z 12) e
    simp [Nat.testBit_and, Nat.testBit_or, Nat.testBit_two_pow] at b3 b12
    rcases hc with hc | hc
    · rw [hc] at b3; cases b3
    · rw [hc] at b12; cases b12

/-- The search finds the first empty cell at or after `i`, if one exists among
the `todo` cells it looks at. -/
theorem find_free_eq (list : Nat → Option Nat) (todo i s : Nat) (hs1 : i ≤ s)
    (hs2 : s < i + todo) (hfree : list s = none) (hocc : ∀ j, i ≤ j → j < s → list j ≠ none) :
    find_free list todo i = (s : Int) := by
  induction todo generalizing i with
  | zero => omega
  | succ n ih =>
    unfold find_free
    by_cases e : i = s
    · subst e; simp [hfree]
    · have hi : list i ≠ none := hocc i (le_refl _) (by omega)
      have hn : (list i).isNone = false := by
        cases hl : list i with
        | none => exact absurd hl hi
        | some v => rfl
      rw [hn]
      simp only [Bool.false_eq_true, if_false]
      exact ih (i + 1) (by omega) (by omega) (fun j h1 h2 => hocc j (by omega) h2)

theorem find_free_full (list : Nat → Option Nat) (todo i : Nat)
    (hocc : ∀ j, i ≤ j → j < i + todo → list j ≠ none) : find_free list todo i = -1 := by
  induction todo generalizing i with
  | zero => rfl
  | succ n ih =>
    unfold find_free
    have hi : list i ≠ none := hocc i (le_refl _) (by omega)
    have hn : (list i).isNone = false := by
      cases hl : list i with
      | none => exact absurd hl hi
      | some v => rfl
    rw [hn]
    simp only [Bool.false_eq_true, if_false]
    exact ih (i + 1) (fun j h1 h2 => hocc j (by omega) (by omega))

/-- What `mroute4_add_vif` does in each of its three cases. -/
theorem mroute4_add_vif_eq (cfg : Config) (k : Kernel) (st : VifState) (p : Nat) :
    (((st.ifaces p).has_flag IFF_LOOPBACK = true ∨
          (st.ifaces p).has_flag IFF_MULTICAST = false) →
        mroute4_add_vif cfg k st p =
          (⟨Function.update st.ifaces p ((st.ifaces p).set_vif (-1)), st.vif_list, st.mif_list,
            st.calls⟩, 0)) ∧
    ((st.ifaces p).has_flag IFF_LOOPBACK = false → (st.ifaces p).has_flag IFF_MULTICAST = true →
        (∀ s, s < MAX_VIF → st.vif_list s ≠ none) →
        mroute4_add_vif cfg k st p = (st, 1)) ∧
    ((st.ifaces p).has_flag IFF_LOOPBACK = false → (st.ifaces p).has_flag IFF_MULTICAST = true →
        ∀ s, s < MAX_VIF → st.vif_list s = none → (∀ j, j < s → st.vif_list j ≠ none) →
        mroute4_add_vif cfg k st p =
          (⟨Function.update st.ifaces p ((st.ifaces p).set_vif s),
            Function.update st.vif_list s (some p), st.mif_list,
            st.calls ++ [vifctl cfg (st.ifaces p) s]⟩, 0)) := by
  refine ⟨?_, ?_, ?_⟩
  · intro hf
    unfold mroute4_add_vif
    simp only []
    rw [if_pos ((flag_test (st.ifaces p)).2 hf)]
  · intro h1 h2 hfull
    have hcap : ¬ ((st.ifaces p).flags &&& (IFF_LOOPBACK ||| IFF_MULTICAST) ≠ IFF_MULTICAST) := by
      rw [flag_test]; simp [h1, h2]
    unfold mroute4_add_vif
    simp only []
    rw [if_neg hcap]
    rw [find_free_full st.vif_list MAX_VIF 0 (fun j _ hj => hfull j (by omega))]
    simp
  · intro h1 h2 s hs hfree hocc
    have hcap : ¬ ((st.ifaces p).flags &&& (IFF_LOOPBACK ||| IFF_MULTICAST) ≠ IFF_MULTICAST) := by
      rw [flag_test]; simp [h1, h2]
    unfold mroute4_add_vif
    simp only []
    rw [if_neg hcap]
    rw [find_free_eq st.vif_list MAX_VIF 0 s (Nat.zero_le _) (by omega) hfree
      (fun j _ hj => hocc j hj)]
    have hne : ¬ ((s : Int) = -1) := by omega
    simp only [hne, if_false, table_setsockopt, Int.toNat_ofNat]

/-- Registering distinct multicast capable interfaces on a table whose cells
below `m` are taken and whose other cells are empty. -/
theorem add_vifs_filled (cfg : Config) (k : Kernel) (ps : List Nat) (st : VifState) (m : Nat)
    (hocc : ∀ s, s < m → st.vif_list s ≠ none) (hfree : ∀ s, m ≤ s → st.vif_list s = none)
    (hnd : ps.Nodup)
    (hcap : ∀ p ∈ ps, (st.ifaces p).has_flag IFF_LOOPBACK = false ∧
      (st.ifaces p).has_flag IFF_MULTICAST = true) :
    (∀ j p, ps[j]? = some p →
        (add_vifs cfg k st ps).2[j]? = some (if m + j < MAX_VIF then 0 else 1)) ∧
    (∀ j p, ps[j]? = some p → m + j < MAX_VIF →
        ((add_vifs cfg k st ps).1.ifaces p).vif = ((m + j : Nat) : Int) ∧
        (add_vifs cfg k st ps).1.vif_list (m + j) = some p) ∧
    (∀ j p, ps[j]? = some p → MAX_VIF ≤ m + j →
        (add_vifs cfg k st ps).1.ifaces p = st.ifaces p) ∧
    (∀ q, q ∉ ps → (add_vifs cfg k st ps).1.ifaces q = st.ifaces q) ∧
    (∀ s, s < m → (add_vifs cfg k st ps).1.vif_list s = st.vif_list s) ∧
    (∀ s, m + ps.length ≤ s ∨ (m ≤ s ∧ MAX_VIF ≤ s) →
        (add_vifs cfg k st ps).1.vif_list s = none) ∧
    (∃ issued, (add_vifs cfg k st ps).1.calls = st.calls ++ issued ∧
        ∀ c ∈ issued, ∃ j p, m + j < MAX_VIF ∧ ps[j]? = some p ∧
          c = vifctl cfg (st.ifaces p) ((m + j : Nat) : Int)) := by
  induction ps generalizing st m with
  | nil =>
    refine ⟨by simp, by simp, by simp, fun q _ => rfl, fun s _ => rfl, ?_, ⟨[], by simp [add_vifs], by simp⟩⟩
    intro s hs
    simp only [List.length_nil] at hs
    exact hfree s (by omega)
  | cons p ps ih =>
    obtain ⟨hp, hnd1⟩ := List.nodup_cons.1 hnd
    obtain ⟨hpl, hpm⟩ := hcap p (by simp)
    by_cases hm : m < MAX_VIF
    · have hstep := (mroute4_add_vif_eq cfg k st p).2.2 hpl hpm m hm (hfree m (le_refl _)) hocc
      have hother : ∀ q, q ≠ p →
          (Function.update st.ifaces p ((st.ifaces p).set_vif m)) q = st.ifaces q :=
        fun q hq => Function.update_noteq hq _ _
      obtain ⟨iA, iB, iC, iD, iE, iF, issued, iG1, iG2⟩ :=
        ih (mroute4_add_vif cfg k st p).1 (m + 1)
          (by
            intro s hs
            rw [hstep]
            by_cases e : s = m
            · subst e; simp
            · simp only [Function.update_noteq e]
              exact hocc s (by omega))
          (by
            intro s hs
            rw [hstep]
            have e : s ≠ m := by omega
            simp only [Function.update_noteq e]
            exact hfree s (by omega))
          hnd1
          (by
            intro q hq
            rw [hstep]
            have e : q ≠ p := fun e => hp (e ▸ hq)
            simp only [hother q e]
            exact hcap q (by simp [hq]))
      have hunf : add_vifs cfg k st (p :: ps) =
          ((add_vifs cfg k (mroute4_add_vif cfg k st p).1 ps).1,
            (mroute4_add_vif cfg k st p).2 :: (add_vifs cfg k (mroute4_add_vif cfg k st p).1 ps).2) :=
        rfl
      rw [hunf]
      refine ⟨?_, ?_, ?_, ?_, ?_, ?_, ?_⟩
      · intro j q hj
        cases j with
        | zero => simp [hstep, hm]
        | succ j =>
          simp only [List.getElem?_cons_succ] at hj ⊢
          rw [iA j q hj]
          have : m + 1 + j = m + (j + 1) := by omega
          rw [this]
      · intro j q hj hlt
        cases j with
        | zero =>
          simp only [List.getElem?_cons_zero, Option.some.injEq] at hj
          subst hj
          simp only [Nat.add_zero]
          rw [iD p hp, iE m (by omega), hstep]
          simp [iface.set_vif]
        | succ j =>
          simp only [List.getElem?_cons_succ] at hj
          have := iB j q hj (by omega)
          have e : m + 1 + j = m + (j + 1) := by omega
          rw [e] at this
          exact this
      · intro j q hj hge
        cases j with
        | zero => omega
        | succ j =>
          simp only [List.getElem?_cons_succ] at hj
          have hq : q ∈ ps := List.getElem?_mem hj
          rw [iC j q hj (by omega), hstep]
          exact hother q (fun e => hp (e ▸ hq))
      · intro q hq
        simp only [List.mem_cons, not_or] at hq
        rw [iD q hq.2, hstep]
        exact hother q hq.1
      · intro s hs
        rw [iE s (by omega), hstep]
        have e : s ≠ m := by omega
        simp only [Function.update_noteq e]
      · intro s hs
        exact iF s (by simp only [List.length_cons] at hs; omega)
      · refine ⟨vifctl cfg (st.ifaces p) m :: issued, ?_, ?_⟩
        · rw [iG1, hstep]
          simp
        · intro c hc
          rcases List.mem_cons.1 hc with e | hc1
          · exact ⟨0, p, by omega, by simp, by simp [e]⟩
          · obtain ⟨j, q, h1, h2, h3⟩ := iG2 c hc1
            have hq : q ∈ ps := List.getElem?_mem h2
            refine ⟨j + 1, q, by omega, by simpa using h2, ?_⟩
            rw [h3, hstep]
            simp only [hother q (fun e => hp (e ▸ hq))]
            have e : m + 1 + j = m + (j + 1) := by omega
            rw [e]
    · have hstep := (mroute4_add_vif_eq cfg k st p).2.1 hpl hpm
        (fun s hs => hocc s (by omega))
      obtain ⟨iA, iB, iC, iD, iE, iF, issued, iG1, iG2⟩ :=
        ih st m hocc hfree hnd1 (fun q hq => hcap q (by simp [hq]))
      have hunf : add_vifs cfg k st (p :: ps) =
          ((add_vifs cfg k (mroute4_add_vif cfg k st p).1 ps).1,
            (mroute4_add_vif cfg k st p).2 :: (add_vifs cfg k (mroute4_add_vif cfg k st p).1 ps).2) :=
        rfl
      rw [hunf, hstep]
      simp only []
      refine ⟨?_, ?_, ?_, ?_, ?_, ?_, ?_⟩
      · intro j q hj
        cases j with
        | zero => simp [hm]
        | succ j =>
          simp only [List.getElem?_cons_succ] at hj ⊢
          rw [iA j q hj]
          have h1 : ¬ m + j < MAX_VIF := by omega
          have h2 : ¬ m + (j + 1) < MAX_VIF := by omega
          simp [h1, h2]
      · intro j q hj hlt
        omega
      · intro j q hj hge
        cases j with
        | zero =>
          simp only [List.getElem?_cons_zero, Option.some.injEq] at hj
          subst hj
          exact iD p hp
        | succ j =>
          simp only [List.getElem?_cons_succ] at hj
          exact iC j q hj (by omega)
      · intro q hq
        simp only [List.mem_cons, not_or] at hq
        exact iD q hq.2
      · exact iE
      · intro s hs
        exact iF s (by simp only [List.length_cons] at hs; omega)
      · refine ⟨issued, iG1, ?_⟩
        intro c hc
        obtain ⟨j, q, h1, _, _⟩ := iG2 c hc
        omega

/-- The search either finds the first empty cell or, when all the cells it looks
at are taken, gives `-1`. -/
theorem find_free_cases (list : Nat → Option Nat) (todo i : Nat) :
    (find_free list todo i = -1 ∧ ∀ j, i ≤ j → j < i + todo → list j ≠ none) ∨
    (∃ s, i ≤ s ∧ s < i + todo ∧ list s = none ∧ (∀ j, i ≤ j → j < s → list j ≠ none) ∧
      find_free list todo i = (s : Int)) := by
  by_cases hex : ∃ s, i ≤ s ∧ s < i + todo ∧ list s = none
  · right
    classical
    let s := Nat.find hex
    have hs := Nat.find_spec hex
    have hmin : ∀ j, i ≤ j → j < s → list j ≠ none := by
      intro j h1 h2 hj
      exact Nat.find_min hex h2 ⟨h1, by omega, hj⟩
    exact ⟨s, hs.1, hs.2.1, hs.2.2, hmin, find_free_eq list todo i s hs.1 hs.2.1 hs.2.2 hmin⟩
  · left
    have hocc : ∀ j, i ≤ j → j < i + todo → list j ≠ none :=
      fun j h1 h2 hj => hex ⟨j, h1, h2, hj⟩
    exact ⟨find_free_full list todo i hocc, hocc⟩

/-- C12: `mroute4_add_vif`. For an interface that is loopback or not multicast
capable it sets the interface's `vif` to `-1` (unassigned), leaves the rest of
the record, every other interface and every slot as they were, makes no kernel
call and returns `0`. Otherwise, when no slot below `MAX_VIF` is free, it
returns `1` and changes nothing; and when `s` is the lowest free slot it issues
one `MRT_ADD_VIF` for slot `s` with the interface's threshold, sets the
interface's `vif` to `s`, binds slot `s` to the interface, leaves every other
interface and slot as they were, and returns `0`, whatever the kernel answers.
One of the three cases always applies. -/
theorem mroute4_add_vif_spec (cfg : Config) (k : Kernel) (st : VifState) (p : Nat) :
    (((st.ifaces p).has_flag IFF_LOOPBACK = true ∨
          (st.ifaces p).has_flag IFF_MULTICAST = false) →
        ((mroute4_add_vif cfg k st p).1.ifaces p).vif = -1 ∧
        (mroute4_add_vif cfg k st p).1.ifaces p =
          ⟨(st.ifaces p).ifindex, (st.ifaces p).flags, (st.ifaces p).inaddr,
            (st.ifaces p).threshold, -1, (st.ifaces p).mif⟩ ∧
        (∀ q, q ≠ p → (mroute4_add_vif cfg k st p).1.ifaces q = st.ifaces q) ∧
        (mroute4_add_vif cfg k st p).1.vif_list = st.vif_list ∧
        (mroute4_add_vif cfg k st p).1.mif_list = st.mif_list ∧
        (mroute4_add_vif cfg k st p).1.calls = st.calls ∧
        (mroute4_add_vif cfg k st p).2 = 0) ∧
    ((st.ifaces p).has_flag IFF_LOOPBACK = false → (st.ifaces p).has_flag IFF_MULTICAST = true →
        (∀ s, s < MAX_VIF → st.vif_list s ≠ none) →
        mroute4_add_vif cfg k st p = (st, 1)) ∧
    ((st.ifaces p).has_flag IFF_LOOPBACK = false → (st.ifaces p).has_flag IFF_MULTICAST = true →
        ∀ s, s < MAX_VIF → st.vif_list s = none → (∀ j, j < s → st.vif_list j ≠ none) →
        ((mroute4_add_vif cfg k st p).1.ifaces p).vif = (s : Int) ∧
        (mroute4_add_vif cfg k st p).1.ifaces p =
          ⟨(st.ifaces p).ifindex, (st.ifaces p).flags, (st.ifaces p).inaddr,
            (st.ifaces p).threshold, (s : Int), (st.ifaces p).mif⟩ ∧
        (∀ q, q ≠ p → (mroute4_add_vif cfg k st p).1.ifaces q = st.ifaces q) ∧
        (mroute4_add_vif cfg k st p).1.vif_list s = some p ∧
        (∀ j, j ≠ s → (mroute4_add_vif cfg k st p).1.vif_list j = st.vif_list j) ∧
        (mroute4_add_vif cfg k st p).1.mif_list = st.mif_list ∧
        (mroute4_add_vif cfg k st p).1.calls =
          st.calls ++
            [KCall.MRT_ADD_VIF s (if cfg.use_ifindex then VIFF_USE_IFINDEX else 0)
              (st.ifaces p).threshold 0
              (if cfg.use_ifindex then (st.ifaces p).ifindex else (st.ifaces p).inaddr)
              INADDR_ANY] ∧
        (mroute4_add_vif cfg k st p).2 = 0) ∧
    ((∀ s, s < MAX_VIF → st.vif_list s ≠ none) ∨
      ∃ s, s < MAX_VIF ∧ st.vif_list s = none ∧ ∀ j, j < s → st.vif_list j ≠ none) := by
  obtain ⟨h1, h2, h3⟩ := mroute4_add_vif_eq cfg k st p
  refine ⟨?_, h2, ?_, ?_⟩
  · intro hf
    rw [h1 hf]
    refine ⟨?_, ?_, ?_, rfl, rfl, rfl, rfl⟩
    · simp only [Function.update_same]
      rfl
    · simp only [Function.update_same]
      rfl
    · intro q hq
      simp only [Function.update_noteq hq]
  · intro a b s hs hfree hocc
    rw [h3 a b s hs hfree hocc]
    refine ⟨?_, ?_, ?_, ?_, ?_, rfl, rfl, rfl⟩
    · simp only [Function.update_same]
      rfl
    · simp only [Function.update_same]
      rfl
    · intro q hq
      simp only [Function.update_noteq hq]
    · simp only [Function.update_same]
    · intro j hj
      simp only [Function.update_noteq hj]
  · rcases find_free_cases st.vif_list MAX_VIF 0 with ⟨_, hocc⟩ | ⟨s, _, hs, hfree, hocc, _⟩
    · exact Or.inl (fun s hs => hocc s (Nat.zero_le _) (by omega))
    · exact Or.inr ⟨s, by omega, hfree, fun j hj => hocc j (Nat.zero_le _) hj⟩

/-- C12, witness: on interfaces that all carry a stale `vif` of 7, the loopback
interface is set to unassigned without a kernel call, the first multicast
capable interface gets slot 0 of the empty table (with a kernel that rejects
the call), and on a full table it is refused and keeps its `vif`. -/
theorem mroute4_add_vif_spec_witness :
    (vif_preset.ifaces 0).vif = 7 ∧
    ((mroute4_add_vif linux_cfg kernel_enoent vif_preset 0).1.ifaces 0).vif = -1 ∧
    (mroute4_add_vif linux_cfg kernel_enoent vif_preset 0).1.calls = vif_preset.calls ∧
    (vif_preset.ifaces 1).vif = 7 ∧
    ((mroute4_add_vif linux_cfg kernel_enoent vif_preset 1).1.ifaces 1).vif = ((0 : Nat) : Int) ∧
    (mroute4_add_vif linux_cfg kernel_enoent vif_preset 1).1.vif_list 0 = some 1 ∧
    (mroute4_add_vif linux_cfg kernel_enoent vif_preset 1).2 = 0 ∧
    mroute4_add_vif linux_cfg kernel_enoent vif_full 1 = (vif_full, 1) :=
  have a := (mroute4_add_vif_spec linux_cfg kernel_enoent vif_preset 0).1 (Or.inl (by decide))
  have b := (mroute4_add_vif_spec linux_cfg kernel_enoent vif_preset 1).2.2.1
    (by decide) (by decide) 0 (by decide) rfl (fun j hj => absurd hj (by omega))
  have c := (mroute4_add_vif_spec linux_cfg kernel_enoent vif_full 1).2.1
    (by decide) (by decide) (fun _ _ hn => Option.noConfusion hn)
  ⟨rfl, a.1, a.2.2.2.2.2.1, rfl, b.1, b.2.2.2.1, b.2.2.2.2.2.2.2, c⟩

/-- C13: starting from an empty VIF table, registering distinct interfaces that
are multicast capable and not loopback, one after another: the interface
registered as number `j + 1` with `j < MAX_VIF` gets return value `0`, slot `j`,
and keeps it; every later one gets return value `1` and is left as it was; no
slot from `MAX_VIF` on is ever bound, every `vif` field written holds a slot
below `MAX_VIF`, every kernel call issued is an `MRT_ADD_VIF` for a slot below
`MAX_VIF`; and `MAX_VIF` is 32. -/
theorem add_vifs_from_empty (cfg : Config) (k : Kernel) (st : VifState) (ps : List Nat)
    (hempty : ∀ s, st.vif_list s = none) (hnd : ps.Nodup)
    (hcap : ∀ p ∈ ps, (st.ifaces p).has_flag IFF_LOOPBACK = false ∧
      (st.ifaces p).has_flag IFF_MULTICAST = true) :
    (∀ j p, ps[j]? = some p → j < MAX_VIF →
        (add_vifs cfg k st ps).2[j]? = some 0 ∧
        ((add_vifs cfg k st ps).1.ifaces p).vif = (j : Int) ∧
        (add_vifs cfg k st ps).1.vif_list j = some p) ∧
    (∀ j p, ps[j]? = some p → MAX_VIF ≤ j →
        (add_vifs cfg k st ps).2[j]? = some 1 ∧
        (add_vifs cfg k st ps).1.ifaces p = st.ifaces p) ∧
    (∀ q, q ∉ ps → (add_vifs cfg k st ps).1.ifaces q = st.ifaces q) ∧
    (∀ s, ps.length ≤ s ∨ MAX_VIF ≤ s → (add_vifs cfg k st ps).1.vif_list s = none) ∧
    (∃ issued, (add_vifs cfg k st ps).1.calls = st.calls ++ issued ∧
        ∀ c ∈ issued, ∃ j p, j < MAX_VIF ∧ ps[j]? = some p ∧
          c = KCall.MRT_ADD_VIF j (if cfg.use_ifindex then VIFF_USE_IFINDEX else 0)
            (st.ifaces p).threshold 0
            (if cfg.use_ifindex then (st.ifaces p).ifindex else (st.ifaces p).inaddr)
            INADDR_ANY) ∧
    MAX_VIF = 32 := by
  obtain ⟨hA, hB, hC, hD, _, hF, issued, hG1, hG2⟩ :=
    add_vifs_filled cfg k ps st 0 (fun s hs => absurd hs (by omega)) (fun s _ => hempty s)
      hnd hcap
  refine ⟨?_, ?_, hD, ?_, ⟨issued, hG1, ?_⟩, rfl⟩
  · intro j p hj hlt
    have a := hA j p hj
    have b := hB j p hj (by omega)
    simp only [Nat.zero_add] at a b
    rw [if_pos hlt] at a
    exact ⟨a, b.1, b.2⟩
  · intro j p hj hge
    have a := hA j p hj
    simp only [Nat.zero_add] at a
    rw [if_neg (by omega)] at a
    exact ⟨a, hC j p hj (by omega)⟩
  · intro s hs
    exact hF s (by omega)
  · intro c hc
    obtain ⟨j, p, h1, h2, h3⟩ := hG2 c hc
    refine ⟨j, p, by omega, h2, ?_⟩
    rw [h3]
    simp [vifctl]

/-- C13, witness: 33 interfaces on the empty table: the first gets slot 0, the
thirty-second slot 31, the thirty-third is refused. -/
theorem add_vifs_from_empty_witness :
    (List.range' 1 33).Nodup ∧
    (add_vifs linux_cfg kernel_ok vif_clean (List.range' 1 33)).1.vif_list 0 = some 1 ∧
    (add_vifs linux_cfg kernel_ok vif_clean (List.range' 1 33)).1.vif_list 31 = some 32 ∧
    (add_vifs linux_cfg kernel_ok vif_clean (List.range' 1 33)).2[32]? = some 1 ∧
    (add_vifs linux_cfg kernel_ok vif_clean (List.range' 1 33)).1.vif_list 32 = none :=
  have t := add_vifs_from_empty linux_cfg kernel_ok vif_clean (List.range' 1 33)
    (fun _ => rfl) (by decide) (by decide)
  ⟨by decide, (t.1 0 1 (by decide) (by decide)).2.2, (t.1 31 32 (by decide) (by decide)).2.2,
    (t.2.1 32 33 (by decide) (by decide)).1, t.2.2.2.1 32 (Or.inr (by decide))⟩

/-- What `mroute4_del_vif` does for an interface that has a VIF. -/
theorem mroute4_del_vif_eq (k : Kernel) (st : VifState) (p : Nat)
    (hv : (st.ifaces p).vif ≠ -1) :
    mroute4_del_vif k st p =
      (⟨if k st.calls (KCall.MRT_DEL_VIF ((st.ifaces p).vif % 65536).toNat) = 0 then
            Function.update st.ifaces p ((st.ifaces p).set_vif (-1))
          else st.ifaces,
        st.vif_list, st.mif_list,
        st.calls ++ [KCall.MRT_DEL_VIF ((st.ifaces p).vif % 65536).toNat]⟩, 0) := by
  unfold mroute4_del_vif
  simp only []
  rw [if_neg (fun e => hv e.symm)]
  by_cases hk : k st.calls (KCall.MRT_DEL_VIF ((st.ifaces p).vif % 65536).toNat) = 0
  · simp [table_setsockopt, hk]
  · simp [table_setsockopt, hk]

/-- What `mroute6_del_mif` does for an interface that has a MIF. -/
theorem mroute6_del_mif_eq (k : Kernel) (st : VifState) (p : Nat)
    (hv : (st.ifaces p).mif ≠ -1) :
    mroute6_del_mif k st p =
      (⟨if k st.calls (KCall.MRT6_DEL_MIF ((st.ifaces p).mif % 65536).toNat) = 0 then
            Function.update st.ifaces p ((st.ifaces p).set_mif (-1))
          else st.ifaces,
        st.vif_list, st.mif_list,
        st.calls ++ [KCall.MRT6_DEL_MIF ((st.ifaces p).mif % 65536).toNat]⟩, 0) := by
  unfold mroute6_del_mif
  simp only []
  rw [if_neg (fun e => hv e.symm)]
  by_cases hk : k st.calls (KCall.MRT6_DEL_MIF ((st.ifaces p).mif % 65536).toNat) = 0
  · simp [table_setsockopt, hk]
  · simp [table_setsockopt, hk]

theorem mroute4_del_vif_none (k : Kernel) (st : VifState) (p : Nat)
    (hv : (st.ifaces p).vif = -1) : mroute4_del_vif k st p = (st, 0) := by
  unfold mroute4_del_vif
  simp [hv]

theorem mroute6_del_mif_none (k : Kernel) (st : VifState) (p : Nat)
    (hv : (st.ifaces p).mif = -1) : mroute6_del_mif k st p = (st, 0) := by
  unfold mroute6_del_mif
  simp [hv]

/-- C14, counterexample: the interface at address `1` holds VIF slot 0. After
`mroute4_del_vif` with a kernel that accepts the call, the interface is
unassigned but slot 0 of the table is still bound to it, and the next interface
registered gets slot 1, not slot 0. With a kernel that rejects the call the
interface keeps its `vif`. -/
theorem mroute4_del_vif_counterexample :
    (vif_one.ifaces 1).vif = 0 ∧ vif_one.vif_list 0 = some 1 ∧
    ((mroute4_del_vif kernel_ok vif_one 1).1.ifaces 1).vif = -1 ∧
    (mroute4_del_vif kernel_ok vif_one 1).1.vif_list 0 = some 1 ∧
    ((mroute4_add_vif linux_cfg kernel_ok (mroute4_del_vif kernel_ok vif_one 1).1 2).1.ifaces
      2).vif = 1 ∧
    ((mroute4_del_vif kernel_enoent vif_one 1).1.ifaces 1).vif = 0 := by
  refine ⟨by decide, by decide, by decide, by decide, by decide, by decide⟩

/-- C14, as amended: `mroute4_del_vif` of an interface without a VIF returns `0`,
makes no kernel call and changes nothing. For an interface whose `vif` is the
slot `s` it issues one `MRT_DEL_VIF` for slot `s` and returns `0`; when the
kernel accepts the call the interface's `vif` becomes unassigned, when the
kernel rejects it the interface keeps its `vif`; no other interface and no MIF
slot is touched. -/
theorem mroute4_del_vif_spec (k : Kernel) (st : VifState) (p : Nat) :
    ((st.ifaces p).vif = -1 → mroute4_del_vif k st p = (st, 0)) ∧
    (∀ s : Nat, (st.ifaces p).vif = (s : Int) → s < 65536 →
        (mroute4_del_vif k st p).2 = 0 ∧
        (mroute4_del_vif k st p).1.calls = st.calls ++ [KCall.MRT_DEL_VIF s] ∧
        (k st.calls (KCall.MRT_DEL_VIF s) = 0 →
          ((mroute4_del_vif k st p).1.ifaces p).vif = -1) ∧
        (k st.calls (KCall.MRT_DEL_VIF s) ≠ 0 →
          ((mroute4_del_vif k st p).1.ifaces p).vif = (s : Int)) ∧
        (∀ q, q ≠ p → (mroute4_del_vif k st p).1.ifaces q = st.ifaces q) ∧
        (mroute4_del_vif k st p).1.mif_list = st.mif_list) := by
  refine ⟨mroute4_del_vif_none k st p, ?_⟩
  intro s hs hlt
  have hv : (st.ifaces p).vif ≠ -1 := by rw [hs]; omega
  have e : ((st.ifaces p).vif % 65536).toNat = s := by rw [hs]; omega
  rw [mroute4_del_vif_eq k st p hv, e]
  refine ⟨rfl, rfl, ?_, ?_, ?_, rfl⟩
  · intro hk
    simp [hk, iface.set_vif]
  · intro hk
    simp [hk, hs]
  · intro q hq
    by_cases hk : k st.calls (KCall.MRT_DEL_VIF s) = 0
    · simp [hk, Function.update_noteq hq]
    · simp [hk]

/-- C14, witness: the interface at address `1` holds slot 0; the kernel accepts
the removal. -/
theorem mroute4_del_vif_spec_witness :
    (vif_one.ifaces 1).vif = ((0 : Nat) : Int) ∧
    (mroute4_del_vif kernel_ok vif_one 1).1.calls = vif_one.calls ++ [KCall.MRT_DEL_VIF 0] ∧
    ((mroute4_del_vif kernel_ok vif_one 1).1.ifaces 1).vif = -1 :=
  have t := (mroute4_del_vif_spec kernel_ok vif_one 1).2 0 (by decide) (by decide)
  ⟨by decide, t.2.1, t.2.2.1 rfl⟩

/-- C15: after `mroute4_add_vif` and then `mroute4_del_vif` of one interface,
both accepted by the kernel, slot 0 of the VIF table is bound to the interface
while the interface's `vif` is unassigned; the same holds for the MIF table after
`mroute6_add_mif` and `mroute6_del_mif`. After `mroute4_add_vif` twice on one
interface, slots 0 and 1 are both bound to it while its `vif` is 1. -/
theorem slot_binding_not_inverse :
    (mroute4_del_vif kernel_ok (mroute4_add_vif linux_cfg kernel_ok vif_clean 1).1 1).1.vif_list 0
      = some 1 ∧
    ((mroute4_del_vif kernel_ok (mroute4_add_vif linux_cfg kernel_ok vif_clean 1).1 1).1.ifaces
      1).vif = -1 ∧
    (mroute6_del_mif kernel_ok (mroute6_add_mif linux_cfg kernel_ok vif_clean 1).1 1).1.mif_list 0
      = some 1 ∧
    ((mroute6_del_mif kernel_ok (mroute6_add_mif linux_cfg kernel_ok vif_clean 1).1 1).1.ifaces
      1).mif = -1 ∧
    (mroute4_add_vif linux_cfg kernel_ok (mroute4_add_vif linux_cfg kernel_ok vif_clean 1).1
      1).1.vif_list 0 = some 1 ∧
    ((mroute4_add_vif linux_cfg kernel_ok (mroute4_add_vif linux_cfg kernel_ok vif_clean 1).1
      1).1.ifaces 1).vif = 1 := by
  refine ⟨by decide, by decide, by decide, by decide, by decide, by decide⟩

/-- What `mroute6_add_mif` does in each of its cases. -/
theorem mroute6_add_mif_eq (cfg : Config) (k : Kernel) (st : VifState) (p : Nat) :
    (((st.ifaces p).has_flag IFF_LOOPBACK = true ∨
          (st.ifaces p).has_flag IFF_MULTICAST = false) →
        mroute6_add_mif cfg k st p =
          (⟨Function.update st.ifaces p ((st.ifaces p).set_mif (-1)), st.vif_list, st.mif_list,
            st.calls⟩, 0)) ∧
    ((st.ifaces p).has_flag IFF_LOOPBACK = false → (st.ifaces p).has_flag IFF_MULTICAST = true →
        (∀ s, s < MAX_MIF → st.mif_list s ≠ none) →
        mroute6_add_mif cfg k st p = (st, 1)) ∧
    ((st.ifaces p).has_flag IFF_LOOPBACK = false → (st.ifaces p).has_flag IFF_MULTICAST = true →
        ∀ s, s < MAX_MIF → st.mif_list s = none → (∀ j, j < s → st.mif_list j ≠ none) →
        mroute6_add_mif cfg k st p =
          (if k st.calls (mif6ctl cfg (st.ifaces p) s) ≠ 0 then
            (⟨Function.update st.ifaces p ((st.ifaces p).set_mif (-1)), st.vif_list, st.mif_list,
              st.calls ++ [mif6ctl cfg (st.ifaces p) s]⟩, 0)
          else
            (⟨Function.update st.ifaces p ((st.ifaces p).set_mif s), st.vif_list,
              Function.update st.mif_list s (some p),
              st.calls ++ [mif6ctl cfg (st.ifaces p) s]⟩, 0))) := by
  refine ⟨?_, ?_, ?_⟩
  · intro hf
    unfold mroute6_add_mif
    simp only []
    rw [if_pos ((flag_test (st.ifaces p)).2 hf)]
  · intro h1 h2 hfull
    have hcap : ¬ ((st.ifaces p).flags &&& (IFF_LOOPBACK ||| IFF_MULTICAST) ≠ IFF_MULTICAST) := by
      rw [flag_test]; simp [h1, h2]
    unfold mroute6_add_mif
    simp only []
    rw [if_neg hcap]
    rw [find_free_full st.mif_list MAX_MIF 0 (fun j _ hj => hfull j (by omega))]
    simp
  · intro h1 h2 s hs hfree hocc
    have hcap : ¬ ((st.ifaces p).flags &&& (IFF_LOOPBACK ||| IFF_MULTICAST) ≠ IFF_MULTICAST) := by
      rw [flag_test]; simp [h1, h2]
    unfold mroute6_add_mif
    simp only []
    rw [if_neg hcap]
    rw [find_free_eq st.mif_list MAX_MIF 0 s (Nat.zero_le _) (by omega) hfree
      (fun j _ hj => hocc j hj)]
    have hne : ¬ ((s : Int) = -1) := by omega
    simp only [hne, if_false, table_setsockopt, Int.toNat_ofNat]

/-- The return value of `mroute4_add_vif`: `1` when the interface is multicast
capable and the table is full, `0` in every other case. -/
theorem mroute4_add_vif_ret (cfg : Config) (k : Kernel) (st : VifState) (p : Nat) :
    (mroute4_add_vif cfg k st p).2 =
      if (st.ifaces p).has_flag IFF_LOOPBACK = false ∧
          (st.ifaces p).has_flag IFF_MULTICAST = true ∧
          ∀ s, s < MAX_VIF → st.vif_list s ≠ none then 1 else 0 := by
  obtain ⟨h1, h2, h3⟩ := mroute4_add_vif_eq cfg k st p
  by_cases hf : (st.ifaces p).has_flag IFF_LOOPBACK = true ∨
      (st.ifaces p).has_flag IFF_MULTICAST = false
  · rw [h1 hf, if_neg]
    rintro ⟨a, b, _⟩
    rcases hf with hf | hf
    · rw [a] at hf; cases hf
    · rw [b] at hf; cases hf
  · simp only [not_or, Bool.not_eq_true, Bool.not_eq_false] at hf
    rcases find_free_cases st.vif_list MAX_VIF 0 with ⟨_, hocc⟩ | ⟨s, _, hs, hfree, hocc, _⟩
    · have hfull : ∀ s, s < MAX_VIF → st.vif_list s ≠ none :=
        fun s hs => hocc s (Nat.zero_le _) (by omega)
      rw [h2 hf.1 hf.2 hfull, if_pos ⟨hf.1, hf.2, hfull⟩]
    · rw [h3 hf.1 hf.2 s (by omega) hfree (fun j hj => hocc j (Nat.zero_le _) hj), if_neg]
      rintro ⟨_, _, hfull⟩
      exact hfull s (by omega) hfree

/-- The return value of `mroute6_add_mif`, as for `mroute4_add_vif`. -/
theorem mroute6_add_mif_ret (cfg : Config) (k : Kernel) (st : VifState) (p : Nat) :
    (mroute6_add_mif cfg k st p).2 =
      if (st.ifaces p).has_flag IFF_LOOPBACK = false ∧
          (st.ifaces p).has_flag IFF_MULTICAST = true ∧
          ∀ s, s < MAX_MIF → st.mif_list s ≠ none then 1 else 0 := by
  obtain ⟨h1, h2, h3⟩ := mroute6_add_mif_eq cfg k st p
  by_cases hf : (st.ifaces p).has_flag IFF_LOOPBACK = true ∨
      (st.ifaces p).has_flag IFF_MULTICAST = false
  · rw [h1 hf, if_neg]
    rintro ⟨a, b, _⟩
    rcases hf with hf | hf
    · rw [a] at hf; cases hf
    · rw [b] at hf; cases hf
  · simp only [not_or, Bool.not_eq_true, Bool.not_eq_false] at hf
    rcases find_free_cases st.mif_list MAX_MIF 0 with ⟨_, hocc⟩ | ⟨s, _, hs, hfree, hocc, _⟩
    · have hfull : ∀ s, s < MAX_MIF → st.mif_list s ≠ none :=
        fun s hs => hocc s (Nat.zero_le _) (by omega)
      rw [h2 hf.1 hf.2 hfull, if_pos ⟨hf.1, hf.2, hfull⟩]
    · have hno : ¬ ((st.ifaces p).has_flag IFF_LOOPBACK = false ∧
          (st.ifaces p).has_flag IFF_MULTICAST = true ∧
          ∀ s, s < MAX_MIF → st.mif_list s ≠ none) := by
        rintro ⟨_, _, hfull⟩
        exact hfull s (by omega) hfree
      rw [h3 hf.1 hf.2 s (by omega) hfree (fun j hj => hocc j (Nat.zero_le _) hj), if_neg hno]
      split <;> rfl

/-- C18, counterexample: on the empty tables, with a kernel that rejects the
install call, `mroute4_add_vif` binds slot 0 to the interface and sets its `vif`
to 0, while `mroute6_add_mif` binds no slot and sets its `mif` to unassigned. -/
theorem add_mif_differs_on_failure :
    (mroute4_add_vif linux_cfg kernel_enoent vif_clean 1).1.vif_list 0 = some 1 ∧
    ((mroute4_add_vif linux_cfg kernel_enoent vif_clean 1).1.ifaces 1).vif = 0 ∧
    (mroute6_add_mif linux_cfg kernel_enoent vif_clean 1).1.mif_list 0 = none ∧
    ((mroute6_add_mif linux_cfg kernel_enoent vif_clean 1).1.ifaces 1).mif = -1 := by
  refine ⟨by decide, by decide, by decide, by decide⟩

/-- C18, as amended: on a state whose MIF table equals its VIF table,
`mroute6_add_mif` and `mroute4_add_vif` return the same value for every
interface and every kernel. For an interface that is skipped both set its slot
field to unassigned and write no slot; with a full table both change nothing;
and with `s` the lowest free slot, when the kernel accepts the `MRT6_ADD_MIF`
call both bind slot `s` to the interface and set its slot field to `s`. When
the kernel rejects that call, `mroute6_add_mif` records nothing (the MIF table
is unchanged and the interface's `mif` is unassigned), while `mroute4_add_vif`
binds slot `s` whatever the kernel answers. -/
theorem add_mif_vs_add_vif (cfg : Config) (k : Kernel) (st : VifState) (p : Nat)
    (htab : st.mif_list = st.vif_list) :
    (mroute6_add_mif cfg k st p).2 = (mroute4_add_vif cfg k st p).2 ∧
    (((st.ifaces p).has_flag IFF_LOOPBACK = true ∨
          (st.ifaces p).has_flag IFF_MULTICAST = false) →
      (mroute6_add_mif cfg k st p).1.mif_list = (mroute4_add_vif cfg k st p).1.vif_list ∧
      ((mroute6_add_mif cfg k st p).1.ifaces p).mif = -1 ∧
      ((mroute4_add_vif cfg k st p).1.ifaces p).vif = -1) ∧
    ((st.ifaces p).has_flag IFF_LOOPBACK = false → (st.ifaces p).has_flag IFF_MULTICAST = true →
      (∀ s, s < MAX_VIF → st.vif_list s ≠ none) →
      mroute6_add_mif cfg k st p = (st, 1) ∧ mroute4_add_vif cfg k st p = (st, 1)) ∧
    ((st.ifaces p).has_flag IFF_LOOPBACK = false → (st.ifaces p).has_flag IFF_MULTICAST = true →
      ∀ s, s < MAX_VIF → st.vif_list s = none → (∀ j, j < s → st.vif_list j ≠ none) →
      (mroute4_add_vif cfg k st p).1.vif_list = Function.update st.vif_list s (some p) ∧
      ((mroute4_add_vif cfg k st p).1.ifaces p).vif = (s : Int) ∧
      (k st.calls (mif6ctl cfg (st.ifaces p) s) = 0 →
        (mroute6_add_mif cfg k st p).1.mif_list = Function.update st.vif_list s (some p) ∧
        ((mroute6_add_mif cfg k st p).1.ifaces p).mif = (s : Int)) ∧
      (k st.calls (mif6ctl cfg (st.ifaces p) s) ≠ 0 →
        (mroute6_add_mif cfg k st p).1.mif_list = st.vif_list ∧
        ((mroute6_add_mif cfg k st p).1.ifaces p).mif = -1)) := by
  have hmax : MAX_MIF = MAX_VIF := rfl
  obtain ⟨a1, a2, a3⟩ := mroute4_add_vif_eq cfg k st p
  obtain ⟨b1, b2, b3⟩ := mroute6_add_mif_eq cfg k st p
  refine ⟨?_, ?_, ?_, ?_⟩
  · rw [mroute6_add_mif_ret, mroute4_add_vif_ret, htab, hmax]
  · intro hf
    rw [a1 hf, b1 hf]
    exact ⟨htab, by simp [iface.set_mif], by simp [iface.set_vif]⟩
  · intro h1 h2 hfull
    exact ⟨b2 h1 h2 (by rw [htab, hmax]; exact hfull), a2 h1 h2 hfull⟩
  · intro h1 h2 s hs hfree hocc
    rw [a3 h1 h2 s hs hfree hocc,
      b3 h1 h2 s (by rw [hmax]; exact hs) (by rw [htab]; exact hfree)
        (by rw [htab]; exact hocc)]
    refine ⟨rfl, by simp [iface.set_vif], ?_, ?_⟩
    · intro hk
      simp [hk, htab, iface.set_mif]
    · intro hk
      simp [hk, htab, iface.set_mif]

/-- C18, witness: on the empty tables with a kernel that accepts the calls, both
functions return `0` and put the interface at address `1` in slot 0. -/
theorem add_mif_vs_add_vif_witness :
    vif_clean.mif_list = vif_clean.vif_list ∧
    (mroute6_add_mif linux_cfg kernel_ok vif_clean 1).2 =
      (mroute4_add_vif linux_cfg kernel_ok vif_clean 1).2 ∧
    (mroute6_add_mif linux_cfg kernel_ok vif_clean 1).1.mif_list =
      (mroute4_add_vif linux_cfg kernel_ok vif_clean 1).1.vif_list :=
  have t := add_mif_vs_add_vif linux_cfg kernel_ok vif_clean 1 rfl
  have u := t.2.2.2 (by decide) (by decide) 0 (by decide) rfl (fun j hj => absurd hj (by omega))
  ⟨rfl, t.1, (u.2.2.1 rfl).1.trans u.1.symm⟩

/-- `mroute4_add_vif` changes neither the flags of an interface nor the MIF table. -/
theorem mroute4_add_vif_keeps (cfg : Config) (k : Kernel) (st : VifState) (p q : Nat) :
    ((mroute4_add_vif cfg k st p).1.ifaces q).flags = (st.ifaces q).flags ∧
    (mroute4_add_vif cfg k st p).1.mif_list = st.mif_list := by
  have hupd : ∀ v : Int,
      (Function.update st.ifaces p ((st.ifaces p).set_vif v) q).flags = (st.ifaces q).flags := by
    intro v
    by_cases e : q = p
    · subst e; simp [iface.set_vif]
    · simp [Function.update_noteq e]
  unfold mroute4_add_vif
  simp only []
  split
  · exact ⟨hupd _, rfl⟩
  · split
    · exact ⟨rfl, rfl⟩
    · exact ⟨hupd _, rfl⟩

theorem has_flag_congr (a b : iface) (f : Nat) (e : a.flags = b.flags) :
    a.has_flag f = b.has_flag f := by
  unfold iface.has_flag
  rw [e]

theorem mroute_add_vif_eq (cfg : Config) (k : Kernel) (st : VifState) (p threshold : Nat)
    (h6 : cfg.ipv6 = true) :
    mroute_add_vif cfg k st (some p) threshold =
      ((mroute6_add_mif cfg k (mroute4_add_vif cfg k
          ⟨Function.update st.ifaces p ((st.ifaces p).set_threshold threshold), st.vif_list,
            st.mif_list, st.calls⟩ p).1 p).1,
        (mroute4_add_vif cfg k
          ⟨Function.update st.ifaces p ((st.ifaces p).set_threshold threshold), st.vif_list,
            st.mif_list, st.calls⟩ p).2 +
        (mroute6_add_mif cfg k (mroute4_add_vif cfg k
          ⟨Function.update st.ifaces p ((st.ifaces p).set_threshold threshold), st.vif_list,
            st.mif_list, st.calls⟩ p).1 p).2) := by
  simp [mroute_add_vif, h6]

theorem mroute_del_vif_eq (cfg : Config) (k : Kernel) (st : VifState) (p : Nat)
    (h6 : cfg.ipv6 = true) :
    mroute_del_vif cfg k st (some p) =
      ((mroute6_del_mif k (mroute4_del_vif k st p).1 p).1,
        (mroute4_del_vif k st p).2 + (mroute6_del_mif k (mroute4_del_vif k st p).1 p).2) := by
  simp [mroute_del_vif, h6]

theorem mroute4_del_vif_ret (k : Kernel) (st : VifState) (p : Nat) :
    (mroute4_del_vif k st p).2 = 0 := by
  unfold mroute4_del_vif
  simp only []
  split
  · rfl
  · split <;> rfl

theorem mroute6_del_mif_ret (k : Kernel) (st : VifState) (p : Nat) :
    (mroute6_del_mif k st p).2 = 0 := by
  unfold mroute6_del_mif
  simp only []
  split
  · rfl
  · split <;> rfl

/-- C19, counterexample: with a kernel that rejects every call,
`mroute_add_vif` of a multicast capable interface on the empty tables issues
`MRT_ADD_VIF` and `MRT6_ADD_MIF`, both rejected, and returns `0`; and
`mroute_del_vif` of an interface that holds a VIF and a MIF issues `MRT_DEL_VIF`
and `MRT6_DEL_MIF`, both rejected, and returns `0`. -/
theorem mroute_vif_return_hides_kernel_failure :
    (mroute_add_vif linux_cfg kernel_enoent vif_clean (some 1) 1).2 = 0 ∧
    (mroute_add_vif linux_cfg kernel_enoent vif_clean (some 1) 1).1.calls =
      [KCall.MRT_ADD_VIF 0 VIFF_USE_IFINDEX 1 0 2 INADDR_ANY, KCall.MRT6_ADD_MIF 0 0 1 2 0] ∧
    (mroute_del_vif linux_cfg kernel_enoent vif_one (some 1)).2 = 0 ∧
    (mroute_del_vif linux_cfg kernel_enoent vif_one (some 1)).1.calls =
      vif_one.calls ++ [KCall.MRT_DEL_VIF 0, KCall.MRT6_DEL_MIF 0] := by
  refine ⟨by decide, by decide, by decide, by decide⟩

/-- C19, as amended: for a known interface, `mroute_add_vif` returns the sum of
the result of `mroute4_add_vif` and the result of `mroute6_add_mif`, the second
added to the first; each of the two is `1` when the interface is multicast
capable, not loopback, and the table of its family is full, and `0` otherwise,
so the sum is non-zero exactly when the interface is multicast capable and at
least one of the two tables is full; what the kernel answers does not enter.
`mroute_del_vif` returns the sum of the results of `mroute4_del_vif` and
`mroute6_del_mif`, which is always `0`. -/
theorem mroute_vif_return (cfg : Config) (k : Kernel) (st : VifState) (p threshold : Nat)
    (h6 : cfg.ipv6 = true) :
    (mroute_add_vif cfg k st (some p) threshold).2 =
      (mroute4_add_vif cfg k
        ⟨Function.update st.ifaces p ((st.ifaces p).set_threshold threshold), st.vif_list,
          st.mif_list, st.calls⟩ p).2 +
      (mroute6_add_mif cfg k (mroute4_add_vif cfg k
        ⟨Function.update st.ifaces p ((st.ifaces p).set_threshold threshold), st.vif_list,
          st.mif_list, st.calls⟩ p).1 p).2 ∧
    (mroute_add_vif cfg k st (some p) threshold).2 =
      (if (st.ifaces p).has_flag IFF_LOOPBACK = false ∧
          (st.ifaces p).has_flag IFF_MULTICAST = true ∧
          ∀ s, s < MAX_VIF → st.vif_list s ≠ none then 1 else 0) +
      (if (st.ifaces p).has_flag IFF_LOOPBACK = false ∧
          (st.ifaces p).has_flag IFF_MULTICAST = true ∧
          ∀ s, s < MAX_MIF → st.mif_list s ≠ none then 1 else 0) ∧
    ((mroute_add_vif cfg k st (some p) threshold).2 ≠ 0 ↔
      (st.ifaces p).has_flag IFF_LOOPBACK = false ∧
        (st.ifaces p).has_flag IFF_MULTICAST = true ∧
        ((∀ s, s < MAX_VIF → st.vif_list s ≠ none) ∨
          (∀ s, s < MAX_MIF → st.mif_list s ≠ none))) ∧
    (mroute_del_vif cfg k st (some p)).2 =
      (mroute4_del_vif k st p).2 + (mroute6_del_mif k (mroute4_del_vif k st p).1 p).2 ∧
    (mroute_del_vif cfg k st (some p)).2 = 0 := by
  have hsum := mroute_add_vif_eq cfg k st p threshold h6
  have hval : (mroute_add_vif cfg k st (some p) threshold).2 =
      (if (st.ifaces p).has_flag IFF_LOOPBACK = false ∧
          (st.ifaces p).has_flag IFF_MULTICAST = true ∧
          ∀ s, s < MAX_VIF → st.vif_list s ≠ none then 1 else 0) +
      (if (st.ifaces p).has_flag IFF_LOOPBACK = false ∧
          (st.ifaces p).has_flag IFF_MULTICAST = true ∧
          ∀ s, s < MAX_MIF → st.mif_list s ≠ none then 1 else 0) := by
    rw [hsum]
    simp only []
    rw [mroute4_add_vif_ret, mroute6_add_mif_ret]
    have hk := mroute4_add_vif_keeps cfg k
      ⟨Function.update st.ifaces p ((st.ifaces p).set_threshold threshold), st.vif_list,
        st.mif_list, st.calls⟩ p p
    have hfl : (Function.update st.ifaces p ((st.ifaces p).set_threshold threshold) p).flags =
        (st.ifaces p).flags := by simp [iface.set_threshold]
    rw [hk.2]
    simp only [has_flag_congr _ _ _ hk.1, has_flag_congr _ _ _ hfl]
  refine ⟨by rw [hsum], hval, ?_, by rw [mroute_del_vif_eq cfg k st p h6], ?_⟩
  · rw [hval]
    constructor
    · intro hne
      by_contra hc
      apply hne
      rw [if_neg (fun ha => hc ⟨ha.1, ha.2.1, Or.inl ha.2.2⟩),
        if_neg (fun hb => hc ⟨hb.1, hb.2.1, Or.inr hb.2.2⟩)]
      rfl
    · rintro ⟨a, b, c | c⟩
      · rw [if_pos ⟨a, b, c⟩]
        split <;> decide
      · have hB : (st.ifaces p).has_flag IFF_LOOPBACK = false ∧
            (st.ifaces p).has_flag IFF_MULTICAST = true ∧
            ∀ s, s < MAX_MIF → st.mif_list s ≠ none := ⟨a, b, c⟩
        rw [if_pos hB]
        split <;> decide
  · rw [mroute_del_vif_eq cfg k st p h6]
    simp only []
    rw [mroute4_del_vif_ret, mroute6_del_mif_ret]
    rfl

/-- C19, witness: adding the interface at address `1` to the empty tables, and
removing it again. -/
theorem mroute_vif_return_witness :
    linux_cfg.ipv6 = true ∧
    (mroute_add_vif linux_cfg kernel_ok vif_clean (some 1) 1).2 = (0 : Int) + 0 ∧
    (mroute_del_vif linux_cfg kernel_ok vif_one (some 1)).2 = 0 :=
  have t := mroute_vif_return linux_cfg kernel_ok vif_clean 1 1 rfl
  ⟨rfl, t.2.1.trans (by
      rw [if_neg (fun hc => hc.2.2 0 (by decide) rfl), if_neg (fun hc => hc.2.2 0 (by decide) rfl)]),
    (mroute_vif_return linux_cfg kernel_ok vif_one 1 1 rfl).2.2.2.2⟩

/-! ## `mroute6_add` -/

theorem testBit_IF_SET (i ifset b : Nat) :
    (IF_SET i ifset).testBit b = (ifset.testBit b || decide (i = b)) := by
  unfold IF_SET
  rw [Nat.testBit_or, Nat.one_shiftLeft, Nat.testBit_two_pow]

/-- The bits of the interface set built by the loop of `mroute6_add`. -/
theorem testBit_mroute6_ifset (ttl : List Nat) (todo i ifset b : Nat) :
    (mroute6_ifset ttl todo i ifset).testBit b =
      (ifset.testBit b || decide (i ≤ b ∧ b < i + todo ∧ 0 < ttl.getD b 0)) := by
  induction todo generalizing i ifset with
  | zero =>
    have : ¬ (i ≤ b ∧ b < i + 0 ∧ 0 < ttl.getD b 0) := by omega
    rw [decide_eq_false this, Bool.or_false]
    rfl
  | succ n ih =>
    unfold mroute6_ifset
    rw [ih]
    by_cases hpos : ttl.getD i 0 > 0
    · rw [if_pos hpos, testBit_IF_SET]
      by_cases e : i = b
      · subst e
        have h1 : i ≤ i ∧ i < i + (n + 1) ∧ 0 < ttl.getD i 0 := ⟨le_refl _, by omega, hpos⟩
        rw [decide_eq_true h1, decide_eq_true rfl]
        simp only [Bool.or_true, Bool.true_or]
      · have h2 : (i + 1 ≤ b ∧ b < i + 1 + n ∧ 0 < ttl.getD b 0) ↔
            (i ≤ b ∧ b < i + (n + 1) ∧ 0 < ttl.getD b 0) := by
          constructor
          · rintro ⟨a, c, d⟩; exact ⟨by omega, by omega, d⟩
          · rintro ⟨a, c, d⟩; exact ⟨by omega, by omega, d⟩
        rw [decide_eq_false e, Bool.or_false]
        congr 1
        exact decide_eq_decide.2 h2
    · rw [if_neg hpos]
      have h2 : (i + 1 ≤ b ∧ b < i + 1 + n ∧ 0 < ttl.getD b 0) ↔
          (i ≤ b ∧ b < i + (n + 1) ∧ 0 < ttl.getD b 0) := by
        constructor
        · rintro ⟨a, c, d⟩; exact ⟨by omega, by omega, d⟩
        · rintro ⟨a, c, d⟩
          refine ⟨?_, by omega, d⟩
          by_contra hlt
          have : b = i := by omega
          subst this
          exact hpos d
      congr 1
      exact decide_eq_decide.2 h2

/-- C20: the forwarding-cache entry that `mroute6_add` passes to `MRT6_ADD_MFC`
has the route's sender as origin, the route's group as group, the route's
inbound MIF as parent, and an interface set in which bit `i` is set exactly when
`i < MAX_MIF` and `ttl[i] > 0`; that one call is the only kernel call, and the
function returns the kernel's answer to it (`0` on success). -/
theorem mroute6_add_spec (k : Kernel) (calls : List KCall) (route : mroute6) :
    ∃ ifset : Nat,
      (∀ i, ifset.testBit i = true ↔ i < MAX_MIF ∧ 0 < route.ttl.getD i 0) ∧
      mroute6_add k calls route =
        (calls ++ [KCall.MRT6_ADD_MFC route.sender route.group route.inbound ifset],
          (k calls (KCall.MRT6_ADD_MFC route.sender route.group route.inbound ifset) : Int)) ∧
      mroute6_add kernel_ok [] route6 = ([KCall.MRT6_ADD_MFC 1 2 0 10], 0) := by
  refine ⟨mroute6_ifset route.ttl MAX_MIF 0 0, ?_, rfl, by decide⟩
  intro i
  rw [testBit_mroute6_ifset, Nat.zero_testBit, Bool.false_or, decide_eq_true_eq]
  constructor
  · rintro ⟨_, a, b⟩; exact ⟨by omega, b⟩
  · rintro ⟨a, b⟩; exact ⟨Nat.zero_le _, by omega, b⟩

/-! ## Shorter prefixes match more -/

theorem div_two_pow_mono (x y a b : Nat) (hab : a ≤ b) (e : x / 2 ^ a = y / 2 ^ a) :
    x / 2 ^ b = y / 2 ^ b := by
  have hb : b = a + (b - a) := by omega
  rw [hb, pow_add, ← Nat.div_div_eq_div_mul, ← Nat.div_div_eq_div_mul, e]

/-- C22: `__mroute4_match` is monotone in the prefix length: for two rules with
the same inbound interface and the same group and prefix lengths
`1 ≤ r1.len ≤ r.len ≤ 32`, every candidate matched by the rule `r` with the
longer prefix is matched by the rule `r1` with the shorter one. -/
theorem mroute4_match_mono (h : Host) (r r1 cand : mroute4)
    (hi : r1.inbound = r.inbound) (hg : r1.group = r.group)
    (h1 : 1 ≤ r1.len) (h2 : r1.len ≤ r.len) (h3 : r.len ≤ 32)
    (hm : __mroute4_match h r cand = true) : __mroute4_match h r1 cand = true := by
  rw [match_iff h r cand (by omega) h3] at hm
  rw [match_iff h r1 cand h1 (by omega), hi, hg]
  exact ⟨hm.1, div_two_pow_mono _ _ _ _ (by omega) hm.2⟩

/-- C22, witness: `239.1.2.3` is inside `239.1.0.0/16`, hence inside
`239.1.0.0/8`. -/
theorem mroute4_match_mono_witness :
    __mroute4_match x86 wild16 upcall1 = true ∧
    __mroute4_match x86 ⟨INADDR_ANY, inet_addr x86 239 1 0 0, 8, 0, ttl_vif2⟩ upcall1 = true :=
  ⟨by decide,
    mroute4_match_mono x86 wild16 ⟨INADDR_ANY, inet_addr x86 239 1 0 0, 8, 0, ttl_vif2⟩ upcall1
      rfl rfl (by decide) (by decide) (by decide) (by decide)⟩

/-! ## The most recently added wildcard wins -/

theorem ReachAged.is_reachable (h : Host) (k : Kernel) (st : State) (og : Origins) (ag : Ages)
    (n : Nat) (hr : ReachAged h k st og ag n) : Reach h k st og := by
  induction hr with
  | clean => exact Reach.clean
  | step st st1 og og1 ag n op _ hrun ih => exact Reach.step st st1 og og1 op ih hrun

/-- In a reachable state the bookkeeping lists the nodes of the configured list,
in order, and the operation numbers fall along the list: the head was added
last. -/
theorem ReachAged.ages_fall (h : Host) (k : Kernel) (st : State) (og : Origins) (ag : Ages)
    (n : Nat) (hr : ReachAged h k st og ag n) :
    ag.map Prod.fst = st.mroute4_conf_list ∧
    ag.Pairwise (fun a b => b.2 < a.2) ∧
    ∀ p ∈ ag, p.2 < n := by
  induction hr with
  | clean => exact ⟨rfl, List.Pairwise.nil, by simp⟩
  | step st st1 og og1 ag n op _ hrun ih =>
    obtain ⟨ih1, ih2, ih3⟩ := ih
    have hlt : ∀ p ∈ ag, p.2 < n + 1 := fun p hp => Nat.lt_succ_of_lt (ih3 p hp)
    cases op with
    | add malloc route =>
      simp only [Op.run, Except.ok.injEq, Prod.mk.injEq] at hrun
      obtain ⟨e1, _⟩ := hrun
      subst e1
      by_cases hw : route.sender = INADDR_ANY
      · by_cases hm : malloc = 0
        · subst hm
          rw [mroute4_add_wildcard_eq k st route hw]
          simp only [Op.age, hw, and_self, if_true, List.map_cons, ih1, true_and]
          refine ⟨List.pairwise_cons.2 ⟨fun p hp => ih3 p hp, ih2⟩, ?_⟩
          intro p hp
          rcases List.mem_cons.1 hp with e | hp1
          · rw [e]; exact Nat.lt_succ_self n
          · exact hlt p hp1
        · have hst : (mroute4_add k malloc st route).1 = st := by
            simp [mroute4_add, hw, hm]
          rw [hst]
          simp only [Op.age, hw, hm, and_false, if_false]
          exact ⟨ih1, ih2, hlt⟩
      · rw [mroute4_add_direct_eq k malloc st route hw]
        simp only [Op.age, hw, false_and, if_false]
        exact ⟨ih1, ih2, hlt⟩
    | del route =>
      simp only [Op.run, Except.ok.injEq, Prod.mk.injEq] at hrun
      obtain ⟨e1, _⟩ := hrun
      subst e1
      by_cases hw : route.sender = INADDR_ANY
      · rw [mroute4_del_wildcard_eq h k st route hw]
        simp only [Op.age, hw, if_true]
        refine ⟨?_, ih2.sublist (List.filter_sublist _), ?_⟩
        · rw [← ih1, List.filter_map]
          rfl
        · intro p hp
          exact hlt p (List.mem_filter.1 hp).1
      · rw [mroute4_del_direct_eq h k st route hw]
        simp only [Op.age, hw, if_false]
        exact ⟨ih1, ih2, hlt⟩
    | dyn_add malloc route =>
      simp only [Op.run, Except.ok.injEq, Prod.mk.injEq] at hrun
      obtain ⟨e1, _⟩ := hrun
      subst e1
      have hc : (mroute4_dyn_add h k malloc st route).1.mroute4_conf_list =
          st.mroute4_conf_list := by
        unfold mroute4_dyn_add
        rw [mroute4_dyn_add_loop_find]
        cases st.mroute4_conf_list.find? (fun entry => __mroute4_match h entry route) <;> rfl
      simp only [Op.age, hc]
      exact ⟨ih1, ih2, hlt⟩
    | dyn_flush =>
      simp only [Op.run] at hrun
      cases hf : mroute4_dyn_flush k st with
      | error e => rw [hf] at hrun; cases hrun
      | ok st2 =>
        rw [hf] at hrun
        simp only [Except.ok.injEq, Prod.mk.injEq] at hrun
        obtain ⟨e1, _⟩ := hrun
        subst e1
        simp only [Op.age, (mroute4_dyn_flush_ok k st st2 hf).1]
        exact ⟨ih1, ih2, hlt⟩

/-- C21: in every state reached from the clean state by `mroute4_add`,
`mroute4_del`, `mroute4_dyn_add` and `mroute4_dyn_flush`, let `E` be the most
recently added of the configured wildcards that match a candidate. Then `E`
alone is that (no other configured entry was added by the same operation),
`mroute4_dyn_add` of the candidate installs the TTL vector of `E` in the kernel
and hands it back to the caller, and the node it puts in the dynamic list (when
its allocation succeeds) carries the TTL vector of `E`, whatever the prefix
lengths of `E` and of the other matching wildcards. -/
theorem last_added_wins (h : Host) (k : Kernel) (st : State) (og : Origins) (ag : Ages)
    (n : Nat) (hr : ReachAged h k st og ag n) (malloc : Nat) (route E : mroute4) (t : Nat)
    (hE : (E, t) ∈ ag) (hm : __mroute4_match h E route = true)
    (hlast : ∀ p ∈ ag, __mroute4_match h p.1 route = true → p.2 ≤ t) :
    E ∈ st.mroute4_conf_list ∧
    (∀ p ∈ ag, p.2 = t → p = (E, t)) ∧
    (mroute4_dyn_add h k malloc st route).1.calls =
      st.calls ++ [KCall.MRT_ADD_MFC route.sender route.group route.inbound E.ttl] ∧
    (mroute4_dyn_add h k malloc st route).2.1.ttl = E.ttl ∧
    (mroute4_dyn_add h k malloc st route).1.mroute4_dyn_list =
      (if malloc = 0 then
        ⟨route.sender, route.group, route.len, route.inbound, E.ttl⟩ :: st.mroute4_dyn_list
      else st.mroute4_dyn_list) := by
  obtain ⟨h1, h2, _⟩ := ReachAged.ages_fall h k st og ag n hr
  obtain ⟨before, after, hsplit⟩ := List.append_of_mem hE
  rw [hsplit] at h2 hlast
  have hpw := List.pairwise_append.1 h2
  have hbefore : ∀ p ∈ before, t < p.2 := fun p hp =>
    hpw.2.2 p hp (E, t) (by simp)
  have hafter : ∀ p ∈ after, p.2 < t := fun p hp =>
    (List.pairwise_cons.1 hpw.2.1).1 p hp
  have hnomatch : ∀ x ∈ before.map Prod.fst, __mroute4_match h x route = false := by
    intro x hx
    obtain ⟨p, hp, e⟩ := List.mem_map.1 hx
    cases hx1 : __mroute4_match h x route
    · rfl
    · exfalso
      have := hlast p (by simp [hp]) (by rw [e]; exact hx1)
      have := hbefore p hp
      omega
  have hconf : st.mroute4_conf_list = before.map Prod.fst ++ E :: after.map Prod.fst := by
    rw [← h1, hsplit]
    simp
  have hrun := mroute4_dyn_add_loop_hit h k malloc st route E (before.map Prod.fst)
    (after.map Prod.fst) hnomatch hm
  refine ⟨?_, ?_, ?_, ?_, ?_⟩
  · rw [hconf]
    simp
  · intro p hp ht
    rw [hsplit] at hp
    rcases List.mem_append.1 hp with hp1 | hp1
    · have := hbefore p hp1
      omega
    · rcases List.mem_cons.1 hp1 with e | hp2
      · exact e
      · have := hafter p hp2
        omega
  · unfold mroute4_dyn_add
    rw [hconf, hrun]
  · unfold mroute4_dyn_add
    rw [hconf, hrun]
  · unfold mroute4_dyn_add
    rw [hconf, hrun]

/-- C21, witness: the `/16` wildcard is added first and the `/8` wildcard after
it; both match `239.1.2.3`, and the upcall is served with the TTL vector of the
`/8`, the shorter prefix. -/
theorem last_added_wins_witness :
    __mroute4_match x86 wild16 upcall1 = true ∧
    __mroute4_match x86 wild8 upcall1 = true ∧
    (mroute4_dyn_add x86 kernel_ok 0 ⟨[wild8, wild16], [], []⟩ upcall1).1.calls =
      [] ++ [KCall.MRT_ADD_MFC upcall1.sender upcall1.group upcall1.inbound wild8.ttl] ∧
    (mroute4_dyn_add x86 kernel_ok 0 ⟨[wild8, wild16], [], []⟩ upcall1).1.mroute4_dyn_list =
      [⟨upcall1.sender, upcall1.group, upcall1.len, upcall1.inbound, wild8.ttl⟩] :=
  have t := last_added_wins x86 kernel_ok ⟨[wild8, wild16], [], []⟩ [] [(wild8, 1), (wild16, 0)] 2
    (ReachAged.step _ _ [] _ _ 1 (Op.add 0 wild8)
      (ReachAged.step clean _ [] _ [] 0 (Op.add 0 wild16) ReachAged.clean rfl) rfl)
    0 upcall1 wild8 1 (by simp) (by decide) (by decide)
  ⟨by decide, by decide, t.2.2.1, t.2.2.2.2⟩

end Smcroute
